import Mathlib

/-!
# Verification of the MBO book-building engine (mbo.cpp)

Shallow embedding of the core of `src/mbo.cpp`: the delta codec and emitter,
the `PriceLevels` side structure (with crossing support), the `MBO` book state
machine (the four event handlers), the receiver-side reconstruction
(`apply_deltas_to_book`) and the `Runner` dispatch loop.

Modelling conventions:
* C++ machine integers (`Price` = i64, `Qty` = i32, `AggQty` = i64,
  `Count` = i32, ids u64/i64) are modelled as unbounded `Int`; none of the
  verified properties hinges on wrap-around behaviour.
* `boost::container::flat_map<Price, (AggQty, Count), std::greater<Price>>`
  stores canonical prices in descending order, so the best level sits at
  `rbegin()` and the source computes a level's rank as
  `size - 1 - (it - begin)`.  We represent the same map as a list of entries
  sorted *best-first* (strictly ascending canonical price); a list position is
  then exactly the source's rank `idx`.
* `always_assert` aborts the process; fallible operations return `Option` and
  an assertion failure is `none`.
* The `DeltaEmitter` is owned by the book for the duration of one event and is
  cleared before each event; we model emission functionally: every operation
  returns the list of deltas it appends, and the chunk packing of
  `DeltaEmitter::append_delta` is a separate fold over that list.
-/

namespace MboSpec

/-- Level index filter bound: the emitter drops Update/Insert deltas with
index `≥ 20` (top-20 window). -/
def topDepth : Nat := 20

/-- One delta record, as packed into chunk payloads (`DeltaType` 0..3).
Update/Insert level indices are `Nat` because every call site in the source
computes them as non-negative ranks. -/
inductive Delta where
  | tickInfo (tickType : Char) (isAsk : Bool) (isExch : Bool)
      (price qty : Int) (orderId orderId2 : Int)
  | update (isAsk : Bool) (idx : Nat) (qtyDelta countDelta : Int)
  | insert (isAsk : Bool) (idx : Nat) (shift : Bool) (price qty count : Int)
  | crossingComplete
  deriving DecidableEq, Repr

/-- Wire size in bytes of each delta record (`sizeof` of the packed structs). -/
def deltaSize : Delta → Nat
  | .tickInfo .. => 36
  | .update .. => 12
  | .insert .. => 24
  | .crossingComplete => 1

/-- `DeltaEmitter::emit_tick_info`. -/
def emit_tick_info (tickType : Char) (isAsk isExch : Bool) (price qty : Int)
    (orderId : Int := 0) (orderId2 : Int := 0) : List Delta :=
  [.tickInfo tickType isAsk isExch price qty orderId orderId2]

/-- `DeltaEmitter::emit_update`: drops the delta when `index ≥ 20`. -/
def emit_update (isAsk : Bool) (idx : Nat) (qtyDelta countDelta : Int) : List Delta :=
  if topDepth ≤ idx then [] else [.update isAsk idx qtyDelta countDelta]

/-- `DeltaEmitter::emit_insert`: drops the delta when `index ≥ 20`. -/
def emit_insert (isAsk : Bool) (idx : Nat) (shift : Bool)
    (price qty count : Int) : List Delta :=
  if topDepth ≤ idx then [] else [.insert isAsk idx shift price qty count]

/-- `DeltaEmitter::emit_crossing_complete`. -/
def emit_crossing_complete : List Delta := [.crossingComplete]

/-- Update-class deltas: a level Update, or a shifting Insert (a fresh level
entering the window). -/
def isUpdateClass : Delta → Bool
  | .update _ _ _ _ => true
  | .insert _ _ sh _ _ _ => sh
  | _ => false

/-- Refill deltas: a non-shifting Insert (the 21st-best level re-entering at
index 19 after an erasure). -/
def isRefill : Delta → Bool
  | .insert _ _ sh _ _ _ => !sh
  | _ => false

/-- A 64-byte `DeltaChunk` frame: token, final flag (bit 0 of `flags`) and the
sequence of deltas packed into its 58-byte payload. -/
structure DeltaChunk where
  token : Int
  final : Bool
  deltas : List Delta
  deriving DecidableEq, Repr

/-- Payload capacity of one chunk in bytes. -/
def chunkCapacity : Nat := 58

/-- `DeltaEmitter::append_delta` acting on (current chunk list in *reverse*
order, byte offset into the newest chunk): opens a new chunk when the list is
empty or the delta does not fit. -/
def append_delta (tok : Int) (st : List DeltaChunk × Nat) (d : Delta) :
    List DeltaChunk × Nat :=
  match st with
  | ([], _) => ([⟨tok, false, [d]⟩], deltaSize d)
  | (c :: cs, used) =>
    if chunkCapacity < used + deltaSize d then
      (⟨tok, false, [d]⟩ :: c :: cs, deltaSize d)
    else
      ({ c with deltas := c.deltas ++ [d] } :: cs, used + deltaSize d)

/-- `DeltaEmitter::finalize`: mark the last chunk (head of the reversed list)
as final. -/
def finalizeChunks : List DeltaChunk → List DeltaChunk
  | [] => []
  | c :: cs => { c with final := true } :: cs

/-- The chunk frames produced for one event whose emitted delta sequence is
`ds` (the emitter is cleared before each event, then `finalize` runs). -/
def packChunks (tok : Int) (ds : List Delta) : List DeltaChunk :=
  (finalizeChunks (ds.foldl (append_delta tok) ([], 0)).1).reverse

/-- Flatten a chunk sequence back into the delta sequence it carries. -/
def chunkDeltas (cs : List DeltaChunk) : List Delta :=
  cs.flatMap (·.deltas)

-- Packing never loses or reorders deltas: flattening the packed chunks
-- recovers the emitted sequence.
theorem chunkDeltas_append (a b : List DeltaChunk) :
    chunkDeltas (a ++ b) = chunkDeltas a ++ chunkDeltas b := by
  simp [chunkDeltas]

theorem chunkDeltas_finalizeChunks (cs : List DeltaChunk) :
    chunkDeltas (finalizeChunks cs).reverse = chunkDeltas cs.reverse := by
  cases cs <;> simp [finalizeChunks, chunkDeltas]

theorem append_delta_flatten (tok : Int) (st : List DeltaChunk × Nat) (d : Delta) :
    chunkDeltas (append_delta tok st d).1.reverse
      = chunkDeltas st.1.reverse ++ [d] := by
  obtain ⟨cs, used⟩ := st
  match cs with
  | [] => simp [append_delta, chunkDeltas]
  | c :: cs =>
    by_cases h : chunkCapacity < used + deltaSize d <;>
      simp [append_delta, h, chunkDeltas]

theorem packChunks_flatten (tok : Int) (ds : List Delta) :
    chunkDeltas (packChunks tok ds) = ds := by
  have key : ∀ (ds : List Delta) (st : List DeltaChunk × Nat),
      chunkDeltas (ds.foldl (append_delta tok) st).1.reverse
        = chunkDeltas st.1.reverse ++ ds := by
    intro ds
    induction ds with
    | nil => intro st; simp
    | cons d rest ih =>
      intro st
      simp only [List.foldl_cons]
      rw [ih, append_delta_flatten]
      simp
  unfold packChunks
  rw [chunkDeltas_finalizeChunks, key]
  simp [chunkDeltas]

/-! ## PriceLevels -/

/-- One entry of the side's level map: stored (canonical) price,
aggregate quantity and order count. -/
structure LevelEntry where
  cprice : Int
  aqty : Int
  cnt : Int
  deriving DecidableEq, Repr

/-- `CrossFill`: per-level consumption recorded during crossing
(actual price, qty consumed, order count at the time of consumption). -/
structure CrossFill where
  price : Int
  qty : Int
  count : Int
  deriving DecidableEq, Repr

/-- `PriceLevels`: one side of the book.  `levels` is the flat map represented
best-first (strictly ascending canonical price), so a list position is the
source's rank `idx = size - 1 - (it - begin)`. -/
structure PriceLevels where
  is_ask : Bool
  levels : List LevelEntry
  pending_cross_fill_qty : Int
  pending_cross_fill_count : Int
  cross_fills : List CrossFill
  deriving DecidableEq, Repr

/-- `side_multiplier_`: +1 for asks, -1 for bids (bid prices stored negated). -/
def side_multiplier (is_ask : Bool) : Int := if is_ask then 1 else -1

/-- Fresh side as constructed by `PriceLevels(bool)`. -/
def PriceLevels.init (is_ask : Bool) : PriceLevels :=
  ⟨is_ask, [], 0, 0, []⟩

/-- Insertion/update into the best-first level list
(the `lower_bound`/`emplace_hint` logic of `add_liquidity`).
Returns the new list, the 0-based rank of the touched entry, whether a fresh
entry was inserted, and the entry's resulting qty and count. -/
def addToLevels : List LevelEntry → Int → Int → Int →
    List LevelEntry × Nat × Bool × Int × Int
  | [], c, q, n => ([⟨c, q, n⟩], 0, true, q, n)
  | e :: rest, c, q, n =>
    if c < e.cprice then (⟨c, q, n⟩ :: e :: rest, 0, true, q, n)
    else if c = e.cprice then
      (⟨e.cprice, e.aqty + q, e.cnt + n⟩ :: rest, 0, false, e.aqty + q, e.cnt + n)
    else
      let r := addToLevels rest c q n
      (e :: r.1, r.2.1 + 1, r.2.2)

/-- `levels_.find(canonical)`: rank and entry of the level with the given
canonical price, if present. -/
def findLevel : List LevelEntry → Int → Option (Nat × LevelEntry)
  | [], _ => none
  | e :: rest, c =>
    if e.cprice = c then some (0, e)
    else (findLevel rest c).map (fun r => (r.1 + 1, r.2))

/-- `PriceLevels::best_price`: 0 when empty, else the most-aggressive actual
price (head of the best-first list, denegated). -/
def best_price (s : PriceLevels) : Int :=
  match s.levels with
  | [] => 0
  | e :: _ => e.cprice * side_multiplier s.is_ask

/-- `PriceLevels::get_level_index`: 0-based rank if present and within the
top 20, else 20. -/
def get_level_index (s : PriceLevels) (p : Int) : Nat :=
  match findLevel s.levels (p * side_multiplier s.is_ask) with
  | none => 20
  | some (idx, _) => if 20 ≤ idx then 20 else idx

/-- `PriceLevels::add_liquidity`.  `always_assert(qty >= 0)` is modelled as
`none`.  Emits one Insert (shift=true) for a fresh level, else one Update. -/
def add_liquidity (s : PriceLevels) (p qty count_delta : Int) :
    Option (PriceLevels × List Delta) :=
  if qty < 0 then none
  else
    let canonical := p * side_multiplier s.is_ask
    let r := addToLevels s.levels canonical qty count_delta
    let s' := { s with levels := r.1 }
    if r.2.2.1 then
      some (s', emit_insert s.is_ask r.2.1 true p r.2.2.2.1 r.2.2.2.2)
    else
      some (s', emit_update s.is_ask r.2.1 qty count_delta)

/-- `PriceLevels::remove_liquidity`.  No-op for `qty = 0 ∧ count_delta = 0` or
an absent level; erases the level when the resulting qty is ≤ 0 and emits a
refill Insert at index 19 when the erasure was inside the top 20 and at least
20 levels remain. -/
def remove_liquidity (s : PriceLevels) (p qty count_delta : Int) :
    PriceLevels × List Delta :=
  if qty = 0 ∧ count_delta = 0 then (s, [])
  else
    match findLevel s.levels (p * side_multiplier s.is_ask) with
    | none => (s, [])
    | some (idx, e) =>
      if e.aqty - qty ≤ 0 then
        ({ s with levels := s.levels.eraseIdx idx },
          emit_update s.is_ask idx (-qty) (-count_delta) ++
            (if idx < 20 ∧ 20 ≤ (s.levels.eraseIdx idx).length then
              match (s.levels.eraseIdx idx)[19]? with
              | some r => emit_insert s.is_ask 19 false
                  (r.cprice * side_multiplier s.is_ask) r.aqty r.cnt
              | none => []
            else []))
      else
        ({ s with levels :=
            s.levels.set idx ⟨e.cprice, e.aqty - qty, e.cnt - count_delta⟩ },
          emit_update s.is_ask idx (-qty) (-count_delta))

/-! ### Crossing support -/

/-- Loop body of `PriceLevels::cross`: walk best→worse consuming levels that
cross the aggressor price until the aggressor qty is exhausted.  The source's
`while` loop is modelled with fuel; each continuing iteration either erases the
best level or exhausts `remaining`, so fuel `levels.length + 1` is enough for
well-formed (positive-qty) books.  (On a book holding a zero-qty level that
crosses, the C++ loop never terminates; fuel exhaustion models that corner.)
The fill-log/pending-count bookkeeping done by one iteration before its
`remove_liquidity` call is split out as `crossReserve`. -/
def crossReserve (s : PriceLevels) (remaining : Int) (e : LevelEntry) :
    PriceLevels :=
  { s with
    cross_fills := s.cross_fills ++ [⟨best_price s, min remaining e.aqty, e.cnt⟩],
    pending_cross_fill_count := s.pending_cross_fill_count + e.cnt }

def crossLoop (aggP : Int) : Nat → PriceLevels → Int → Int → List Delta →
    PriceLevels × Int × List Delta
  | 0, s, _, consumed, ds => (s, consumed, ds)
  | fuel + 1, s, remaining, consumed, ds =>
    if 0 < remaining then
      match s.levels with
      | [] => (s, consumed, ds)
      | e :: _ =>
        if best_price s = 0 then (s, consumed, ds)
        else if (if s.is_ask then best_price s ≤ aggP else aggP ≤ best_price s) then
          crossLoop aggP fuel
            (remove_liquidity (crossReserve s remaining e) (best_price s)
              (min remaining e.aqty) 0).1
            (remaining - min remaining e.aqty) (consumed + min remaining e.aqty)
            (ds ++ (remove_liquidity (crossReserve s remaining e) (best_price s)
              (min remaining e.aqty) 0).2)
        else (s, consumed, ds)
    else (s, consumed, ds)

/-- The fill-log reset at the head of `cross`: clear the log only when no
crossing is pending (re-crosses during self-trade cancels preserve it). -/
def crossInit (s : PriceLevels) : PriceLevels :=
  if s.pending_cross_fill_qty = 0 then
    { s with cross_fills := [], pending_cross_fill_count := 0 }
  else s

/-- The final `pending_cross_fill_qty_ += consumed` of `cross`. -/
def crossFinish (r : PriceLevels × Int × List Delta) :
    PriceLevels × Int × List Delta :=
  ({ r.1 with pending_cross_fill_qty := r.1.pending_cross_fill_qty + r.2.1 },
    r.2.1, r.2.2)

/-- `PriceLevels::cross`: returns (new side, total qty consumed, deltas).
Returns 0 immediately when crossing is disabled. -/
def cross (gc : Bool) (s : PriceLevels) (aggressor_price aggressor_qty : Int) :
    PriceLevels × Int × List Delta :=
  if gc then
    crossFinish (crossLoop aggressor_price ((crossInit s).levels.length + 1)
      (crossInit s) aggressor_qty 0 [])
  else (s, 0, [])

/-- `PriceLevels::reconcile_cross_fill`: drain `min(fill_qty, pending)` from
the pending counter; returns (new side, reconciled qty). -/
def reconcile_cross_fill (s : PriceLevels) (fill_qty : Int) : PriceLevels × Int :=
  let reconciled := min fill_qty s.pending_cross_fill_qty
  ({ s with pending_cross_fill_qty := s.pending_cross_fill_qty - reconciled },
    reconciled)

/-- `PriceLevels::reconcile_cross_count`. -/
def reconcile_cross_count (s : PriceLevels) (count_delta : Int) : PriceLevels :=
  { s with pending_cross_fill_count := s.pending_cross_fill_count - count_delta }

/-- `PriceLevels::unreserve_cross_fill`. -/
def unreserve_cross_fill (s : PriceLevels) (qty : Int) : PriceLevels :=
  { s with
    pending_cross_fill_qty :=
      s.pending_cross_fill_qty - min qty s.pending_cross_fill_qty,
    pending_cross_fill_count :=
      if 0 < s.pending_cross_fill_count then s.pending_cross_fill_count - 1
      else s.pending_cross_fill_count }

/-- `PriceLevels::clear_cross_fills`. -/
def clear_cross_fills (s : PriceLevels) : PriceLevels :=
  { s with cross_fills := [], pending_cross_fill_count := 0 }

/-- The fill-restoring loop of `PriceLevels::uncross`: skip the confirmed head
of the fills log, then restore each remaining entry via `add_liquidity`
(count unchanged when the level still exists, the saved count otherwise). -/
def uncrossGo : List CrossFill → Int → Int → PriceLevels → List Delta →
    Option (PriceLevels × List Delta)
  | [], _, _, s, ds => some (s, ds)
  | f :: rest, skipQ, skipC, s, ds =>
    if f.qty ≤ skipQ then uncrossGo rest (skipQ - f.qty) (skipC - f.count) s ds
    else
      match findLevel s.levels (f.price * side_multiplier s.is_ask) with
      | some _ =>
        match add_liquidity s f.price (f.qty - skipQ) 0 with
        | none => none
        | some r => uncrossGo rest 0 0 r.1 (ds ++ r.2)
      | none =>
        match add_liquidity s f.price (f.qty - skipQ) (f.count - skipC) with
        | none => none
        | some r => uncrossGo rest 0 0 r.1 (ds ++ r.2)

/-- `PriceLevels::uncross`: restore the unconfirmed tail of the speculative
fills and clear the pending totals and the fills log. -/
def uncross (s : PriceLevels) : Option (PriceLevels × List Delta) :=
  match uncrossGo s.cross_fills
      ((s.cross_fills.map (·.qty)).sum - s.pending_cross_fill_qty)
      ((s.cross_fills.map (·.count)).sum - s.pending_cross_fill_count) s [] with
  | none => none
  | some r =>
    some
      ({ r.1 with
          pending_cross_fill_qty := 0
          pending_cross_fill_count := 0
          cross_fills := [] },
        r.2)

/-- Accumulating loop of `pending_cross_vwap` (volume, counted). -/
def vwapGo : List CrossFill → Int → Int → Int → Int → Int × Int
  | [], _, volume, counted, _ => (volume, counted)
  | f :: rest, skip, volume, counted, pending =>
    if f.qty ≤ skip then vwapGo rest (skip - f.qty) volume counted pending
    else
      let use := min (f.qty - skip) (pending - counted)
      let volume' := volume + f.price * use
      let counted' := counted + use
      if pending ≤ counted' then (volume', counted')
      else vwapGo rest 0 volume' counted' pending

/-- `PriceLevels::pending_cross_vwap`: volume-weighted average price and total
qty of the unconfirmed tail of the fills log (integer division truncates
toward zero as in C++). -/
def pending_cross_vwap (s : PriceLevels) : Int × Int :=
  if s.pending_cross_fill_qty = 0 then (0, 0)
  else
    let totalConsumed := (s.cross_fills.map (·.qty)).sum
    let r := vwapGo s.cross_fills (totalConsumed - s.pending_cross_fill_qty)
      0 0 s.pending_cross_fill_qty
    ((if 0 < r.2 then Int.tdiv r.1 r.2 else 0), s.pending_cross_fill_qty)

/-! ## MBO: per-token book, order map and crossing tracker -/

/-- `OrderInfo`. -/
structure OrderInfo where
  is_ask : Bool
  price : Int
  qty : Int
  deriving DecidableEq, Repr

/-- MBO-side `PendingCross` tracker. -/
structure PendingCross where
  aggressor_id : Int
  aggressor_is_ask : Bool
  aggressor_price : Int
  original_resting_price : Int
  aggressor_original_qty : Int
  residual_tick_type : Char
  original_affected_lvl : Nat
  aggressor_on_level : Bool
  deriving DecidableEq, Repr

def PendingCross.init : PendingCross := ⟨0, false, 0, 0, 0, 'N', 20, false⟩

def PendingCross.is_active (pc : PendingCross) : Bool := pc.aggressor_id != 0

def PendingCross.clear (pc : PendingCross) : PendingCross :=
  { pc with aggressor_id := 0, aggressor_on_level := false }

/-- The order map (`boost::unordered_flat_map<OrderId, OrderInfo>`) as an
association list. -/
def omFind : List (Int × OrderInfo) → Int → Option OrderInfo
  | [], _ => none
  | (k, v) :: rest, oid => if k = oid then some v else omFind rest oid

def omInsert : List (Int × OrderInfo) → Int → OrderInfo → List (Int × OrderInfo)
  | [], oid, info => [(oid, info)]
  | (k, v) :: rest, oid, info =>
    if k = oid then (k, info) :: rest else (k, v) :: omInsert rest oid info

def omErase : List (Int × OrderInfo) → Int → List (Int × OrderInfo)
  | [], _ => []
  | (k, v) :: rest, oid => if k = oid then rest else (k, v) :: omErase rest oid

structure MBO where
  bids : PriceLevels
  asks : PriceLevels
  order_map : List (Int × OrderInfo)
  last_order_id : Int
  pending_cross : PendingCross
  deriving DecidableEq, Repr

def MBO.init : MBO :=
  ⟨PriceLevels.init false, PriceLevels.init true, [], 0, PendingCross.init⟩

/-- `is_ask ? asks_ : bids_` (member-reference selection). -/
def MBO.side (m : MBO) (is_ask : Bool) : PriceLevels :=
  if is_ask then m.asks else m.bids

def MBO.setSide (m : MBO) (is_ask : Bool) (s : PriceLevels) : MBO :=
  if is_ask then { m with asks := s } else { m with bids := s }

/-- `MBO::new_order`.  `always_assert` failures are modelled as `none`;
deltas are returned in emission order. -/
def new_order (gc : Bool) (m : MBO) (oid : Int) (is_ask : Bool)
    (price qty : Int) : Option (MBO × List Delta) :=
  if oid = 0 then some (m, [])
  else if m.pending_cross.is_active then none
  else
    let m1 : MBO := { m with last_order_id := oid }
    let passive_best := best_price (m1.side (!is_ask))
    let would_cross := gc && !(passive_best == 0) &&
      (if is_ask then decide (price ≤ passive_best)
       else decide (passive_best ≤ price))
    let ds1 := emit_tick_info (if would_cross then 'A' else 'N') is_ask
      (!would_cross) price qty oid
    let rc := cross gc (m1.side (!is_ask)) price qty
    let residual := qty - rc.2.1
    if would_cross ∧ rc.2.1 ≤ 0 then none
    else
      let m2 := m1.setSide (!is_ask) rc.1
      let pcA := if 0 < rc.2.1 then
          { m2.pending_cross with
              aggressor_id := oid
              aggressor_is_ask := is_ask
              aggressor_price := price
              aggressor_original_qty := qty
              residual_tick_type := 'N'
              aggressor_on_level := false }
        else m2.pending_cross
      let m3 := { m2 with
          order_map := omInsert m2.order_map oid ⟨is_ask, price, qty⟩
          pending_cross := pcA }
      if 0 < residual then
        match add_liquidity (m3.side is_ask) price residual 1 with
        | none => none
        | some r =>
          some ({ (m3.setSide is_ask r.1) with
                    pending_cross := { pcA with aggressor_on_level := true } },
            ds1 ++ rc.2.2 ++ r.2)
      else some (m3, ds1 ++ rc.2.2)

/-- `MBO::modify_order`. -/
def modify_order (gc : Bool) (m : MBO) (oid new_price new_qty : Int) :
    Option (MBO × List Delta) :=
  match omFind m.order_map oid with
  | none => some (m, [])
  | some info =>
    if m.pending_cross.is_active then none
    else
      let m1 : MBO := { m with last_order_id := oid }
      if gc then
        -- crossing-enabled path
        let passive_best := best_price (m1.side (!info.is_ask))
        let would_cross := !(passive_best == 0) &&
          (if info.is_ask then decide (new_price ≤ passive_best)
           else decide (passive_best ≤ new_price))
        let ds1 := emit_tick_info (if would_cross then 'B' else 'M') info.is_ask
          (!would_cross) new_price new_qty oid
        let original_affected_lvl := get_level_index (m1.side info.is_ask) info.price
        let r1 := remove_liquidity (m1.side info.is_ask) info.price info.qty 1
        let m2 := m1.setSide info.is_ask r1.1
        let rc := cross gc (m2.side (!info.is_ask)) new_price new_qty
        let residual := new_qty - rc.2.1
        if would_cross ∧ rc.2.1 ≤ 0 then none
        else
          let m3 := m2.setSide (!info.is_ask) rc.1
          let pcA := if 0 < rc.2.1 then
              { m3.pending_cross with
                  aggressor_id := oid
                  aggressor_is_ask := info.is_ask
                  aggressor_price := new_price
                  original_resting_price := info.price
                  aggressor_original_qty := info.qty
                  residual_tick_type := 'M'
                  original_affected_lvl := original_affected_lvl
                  aggressor_on_level := false }
            else m3.pending_cross
          let m4 := { m3 with
              order_map := omInsert m3.order_map oid
                ⟨info.is_ask, new_price, new_qty⟩
              pending_cross := pcA }
          if 0 < residual then
            match add_liquidity (m4.side info.is_ask) new_price residual 1 with
            | none => none
            | some r =>
              some ({ (m4.setSide info.is_ask r.1) with
                        pending_cross := { pcA with aggressor_on_level := true } },
                ds1 ++ r1.2 ++ rc.2.2 ++ r.2)
          else some (m4, ds1 ++ r1.2 ++ rc.2.2)
      else
        -- non-crossing path
        let ds1 := emit_tick_info 'M' info.is_ask true new_price new_qty oid
        let om' := omInsert m1.order_map oid ⟨info.is_ask, new_price, new_qty⟩
        if info.price ≠ new_price then
          let r1 := remove_liquidity (m1.side info.is_ask) info.price info.qty 1
          match add_liquidity r1.1 new_price new_qty 1 with
          | none => none
          | some r =>
            some ({ (m1.setSide info.is_ask r.1) with order_map := om' },
              ds1 ++ r1.2 ++ r.2)
        else if new_qty - info.qty < 0 then
          let r1 := remove_liquidity (m1.side info.is_ask) info.price
            (-(new_qty - info.qty)) 0
          some ({ (m1.setSide info.is_ask r1.1) with order_map := om' },
            ds1 ++ r1.2)
        else
          match add_liquidity (m1.side info.is_ask) info.price
              (new_qty - info.qty) 0 with
          | none => none
          | some r =>
            some ({ (m1.setSide info.is_ask r.1) with order_map := om' },
              ds1 ++ r.2)

/-- `MBO::cancel_order`. -/
def cancel_order (gc : Bool) (m : MBO) (oid : Int) : Option (MBO × List Delta) :=
  match omFind m.order_map oid with
  | none => some (m, emit_tick_info 'X' false true 0 0 oid)
  | some info =>
    let pc := m.pending_cross
    if pc.is_active && (oid == pc.aggressor_id) then
      -- aggressor self-trade cancel: C tick, uncross, residual removal, S tick
      let vr := pending_cross_vwap (m.side (!pc.aggressor_is_ask))
      let ds1 := emit_tick_info 'C' info.is_ask true vr.1 vr.2 oid
      let residual_on_level :=
        info.qty - (m.side (!pc.aggressor_is_ask)).pending_cross_fill_qty
      match uncross (m.side (!pc.aggressor_is_ask)) with
      | none => none
      | some u =>
        let m1 := m.setSide (!pc.aggressor_is_ask) u.1
        let rr := if 0 < residual_on_level ∧ pc.aggressor_on_level then
            remove_liquidity (m1.side info.is_ask) info.price residual_on_level 1
          else (m1.side info.is_ask, [])
        let m2 := m1.setSide info.is_ask rr.1
        let ds2 := emit_tick_info 'S' info.is_ask false info.price info.qty oid
        let m3 := m2.setSide (!pc.aggressor_is_ask)
          (clear_cross_fills (m2.side (!pc.aggressor_is_ask)))
        some ({ m3 with
                  pending_cross := pc.clear
                  order_map := omErase m3.order_map oid },
          ds1 ++ u.2 ++ rr.2 ++ ds2 ++ emit_crossing_complete)
    else
      let is_passive_cancel := pc.is_active &&
        (info.is_ask != pc.aggressor_is_ask) &&
        (if pc.aggressor_is_ask then decide (pc.aggressor_price ≤ info.price)
         else decide (info.price ≤ pc.aggressor_price))
      if is_passive_cancel then
        let consumed_from_order :=
          min info.qty (m.side (!pc.aggressor_is_ask)).pending_cross_fill_qty
        if consumed_from_order = 0 then
          let ds1 := emit_tick_info 'X' info.is_ask false info.price info.qty oid
          let rr := remove_liquidity (m.side info.is_ask) info.price info.qty 1
          some ({ (m.setSide info.is_ask rr.1) with
                    order_map := omErase m.order_map oid },
            ds1 ++ rr.2)
        else
          let vr := pending_cross_vwap (m.side (!pc.aggressor_is_ask))
          let ds1 := emit_tick_info 'C' info.is_ask true vr.1 vr.2 oid
            pc.aggressor_id
          let rr := remove_liquidity (m.side info.is_ask) info.price
            (info.qty - consumed_from_order) 1
          let m1 := m.setSide info.is_ask rr.1
          let m2 := m1.setSide (!pc.aggressor_is_ask)
            (unreserve_cross_fill (m1.side (!pc.aggressor_is_ask))
              consumed_from_order)
          let rc := cross gc (m2.side (!pc.aggressor_is_ask)) pc.aggressor_price
            consumed_from_order
          let m3 := m2.setSide (!pc.aggressor_is_ask) rc.1
          let re_residual := consumed_from_order - rc.2.1
          match (if 0 < re_residual then
                  add_liquidity (m3.side pc.aggressor_is_ask) pc.aggressor_price
                    re_residual (if pc.aggressor_on_level then 0 else 1)
                else some (m3.side pc.aggressor_is_ask, [])) with
          | none => none
          | some r =>
            let m4 := m3.setSide pc.aggressor_is_ask r.1
            let pc1 := if 0 < re_residual then
                { pc with aggressor_on_level := true } else pc
            let ds2 := emit_tick_info 'S' info.is_ask false info.price info.qty
              oid pc.aggressor_id
            if (m4.side (!pc.aggressor_is_ask)).pending_cross_fill_qty = 0 then
              some ({ (m4.setSide (!pc.aggressor_is_ask)
                        (clear_cross_fills (m4.side (!pc.aggressor_is_ask)))) with
                        pending_cross := pc1.clear
                        order_map := omErase m4.order_map oid },
                ds1 ++ rr.2 ++ rc.2.2 ++ r.2 ++ ds2 ++ emit_crossing_complete)
            else
              some ({ m4 with
                        pending_cross := pc1
                        order_map := omErase m4.order_map oid },
                ds1 ++ rr.2 ++ rc.2.2 ++ r.2 ++ ds2)
      else
        -- regular cancel
        let ds1 := emit_tick_info 'X' info.is_ask false info.price info.qty oid
        let rr := remove_liquidity (m.side info.is_ask) info.price info.qty 1
        some ({ (m.setSide info.is_ask rr.1) with
                  order_map := omErase m.order_map oid },
          ds1 ++ rr.2)

/-- One iteration of `MBO::trade`'s `{bid_it, ask_it}` loop.  `orig` is the
iterator captured before the loop; the entry is re-read from the current map
(an entry erased by the earlier leg yields `none`, the dangling-iterator
corner). -/
def tradeLeg (m : MBO) (orig : Option OrderInfo) (oid : Int)
    (remaining reconciled : Int) (agg_is_ask : Bool) (fill_qty : Int)
    (pc : PendingCross) : Option (MBO × List Delta) :=
  match orig with
  | none => some (m, [])
  | some _ =>
    match omFind m.order_map oid with
    | none => none
    | some info =>
      if fill_qty ≤ info.qty then
        let qty' := info.qty - fill_qty
        let m1 := { m with
          order_map := omInsert m.order_map oid { info with qty := qty' } }
        let hr := if 0 < remaining then
            remove_liquidity (m1.side info.is_ask) info.price remaining
              (if qty' = 0 then 1 else 0)
          else if qty' = 0 then
            remove_liquidity (m1.side info.is_ask) info.price 0 1
          else (m1.side info.is_ask, [])
        let m2 := m1.setSide info.is_ask hr.1
        let m3 := if 0 < reconciled ∧ qty' = 0 ∧
            info.is_ask ≠ pc.aggressor_is_ask then
            m2.setSide (!agg_is_ask)
              (reconcile_cross_count (m2.side (!agg_is_ask)) 1)
          else m2
        let m4 := if qty' = 0 then
            { m3 with order_map := omErase m3.order_map oid } else m3
        some (m4, hr.2)
      else none

/-- The order-map lookup `id ? order_map_.find(id) : end`. -/
def omLookup (m : MBO) (oid : Int) : Option OrderInfo :=
  if oid != 0 then omFind m.order_map oid else none

/-- The aggressor side of a trade: the side not in the book, or on a tie the
side of the most recent order. -/
def aggSide (m : MBO) (b a : Int) : Bool :=
  if (omLookup m b).isSome != (omLookup m a).isSome then (omLookup m b).isSome
  else a == m.last_order_id

/-- The trade tick code: 'D' for IOC (id 0), 'E' for an unknown aggressor,
'T' otherwise. -/
def tradeTick (m : MBO) (b a : Int) : Char :=
  if (if aggSide m b a then a else b) = 0 then 'D'
  else if (if aggSide m b a then omLookup m a else omLookup m b).isNone then 'E'
  else 'T'

/-- `MBO::trade`. -/
def trade (m : MBO) (bid_id ask_id price fill_qty : Int) :
    Option (MBO × List Delta) :=
  if (match omLookup m bid_id with | some i => i.is_ask | none => false) then
    none
  else if (match omLookup m ask_id with
      | some i => !i.is_ask | none => false) then none
  else
    let ds1 := emit_tick_info (tradeTick m bid_id ask_id)
      (aggSide m bid_id ask_id) true price fill_qty bid_id ask_id
    let rr := reconcile_cross_fill
      (m.side (!aggSide m bid_id ask_id)) fill_qty
    let m1 := m.setSide (!aggSide m bid_id ask_id) rr.1
    let ds2 := if 0 < rr.2 then
        emit_update (!aggSide m bid_id ask_id) 0 0 0
          ++ emit_update (aggSide m bid_id ask_id) 0 0 0
      else []
    match tradeLeg m1 (omLookup m bid_id) bid_id (fill_qty - rr.2) rr.2
        (aggSide m bid_id ask_id) fill_qty m.pending_cross with
    | none => none
    | some rA =>
      match tradeLeg rA.1 (omLookup m ask_id) ask_id (fill_qty - rr.2) rr.2
          (aggSide m bid_id ask_id) fill_qty m.pending_cross with
      | none => none
      | some rB =>
        let pc := rB.1.pending_cross
        if pc.is_active then
          if (rB.1.side (!pc.aggressor_is_ask)).pending_cross_fill_qty = 0 then
            let mC := rB.1.setSide (!pc.aggressor_is_ask)
              (clear_cross_fills (rB.1.side (!pc.aggressor_is_ask)))
            let has_residual := match omFind mC.order_map pc.aggressor_id with
              | some x => decide (0 < x.qty)
              | none => false
            if ¬ has_residual ∧ pc.residual_tick_type = 'M' then
              some ({ mC with pending_cross := pc.clear },
                ds1 ++ ds2 ++ rA.2 ++ rB.2
                  ++ emit_tick_info 'X' pc.aggressor_is_ask false
                      pc.original_resting_price pc.aggressor_original_qty
                      pc.aggressor_id 0
                  ++ emit_update pc.aggressor_is_ask pc.original_affected_lvl 0 0)
            else if has_residual ∨ pc.residual_tick_type = 'N' then
              some ({ mC with pending_cross := pc.clear },
                ds1 ++ ds2 ++ rA.2 ++ rB.2 ++ emit_crossing_complete)
            else
              some ({ mC with pending_cross := pc.clear },
                ds1 ++ ds2 ++ rA.2 ++ rB.2)
          else some (rB.1, ds1 ++ ds2 ++ rA.2 ++ rB.2)
        else some (rB.1, ds1 ++ ds2 ++ rA.2 ++ rB.2)

/-- One input event, as dispatched by `Runner::process_record`. -/
inductive Event where
  | newO (oid : Int) (is_ask : Bool) (price qty : Int)
  | modO (oid price qty : Int)
  | canO (oid : Int)
  | trd (bid_id ask_id price qty : Int)
  deriving DecidableEq, Repr

def processEvent (gc : Bool) (m : MBO) : Event → Option (MBO × List Delta)
  | .newO oid a p q => new_order gc m oid a p q
  | .modO oid p q => modify_order gc m oid p q
  | .canO oid => cancel_order gc m oid
  | .trd b a p q => trade m b a p q

/-- The MBO state after both legs of a fully-consuming reconciled trade
(bid aggressor, ask passive), written out as one record expression. -/
def asks0 (m : MBO) : PriceLevels := { m.asks with pending_cross_fill_qty := 0 }

def omA (m : MBO) (bid_id : Int) (bi : OrderInfo) : List (Int × OrderInfo) :=
  omErase (omInsert m.order_map bid_id ⟨bi.is_ask, bi.price, 0⟩) bid_id

def omB (m : MBO) (bid_id ask_id : Int) (bi ai : OrderInfo) :
    List (Int × OrderInfo) :=
  omErase (omInsert (omA m bid_id bi) ask_id ⟨ai.is_ask, ai.price, 0⟩) ask_id

def mAval (m : MBO) (bid_id : Int) (bi : OrderInfo) : MBO :=
  { (MBO.setSide
      { (MBO.setSide m true (asks0 m)) with
          order_map := omInsert m.order_map bid_id ⟨bi.is_ask, bi.price, 0⟩ }
      false (remove_liquidity m.bids bi.price 0 1).1) with
      order_map := omA m bid_id bi }

def mBval (m : MBO) (bid_id ask_id : Int) (bi ai : OrderInfo) : MBO :=
  { (MBO.setSide
      (MBO.setSide
        { (mAval m bid_id bi) with
            order_map := omInsert (omA m bid_id bi) ask_id
              ⟨ai.is_ask, ai.price, 0⟩ }
        true (remove_liquidity (asks0 m) ai.price 0 1).1)
      true (reconcile_cross_count
        (remove_liquidity (asks0 m) ai.price 0 1).1 1)) with
      order_map := omB m bid_id ask_id bi ai }

/-- A mid-crossing state (modify-originated, bid aggressor) whose pending
crossed qty is exactly one trade away from draining. -/
def tradeBook : MBO :=
  ⟨⟨false, [⟨-100, 4, 1⟩], 0, 0, []⟩,
   ⟨true, [], 4, 1, [⟨100, 4, 1⟩]⟩,
   [(1, ⟨false, 100, 4⟩), (2, ⟨true, 100, 4⟩)], 1,
   ⟨1, false, 100, 90, 7, 'M', 0, true⟩⟩

/-- `DeltaEmitter::MAX_CHUNKS`: the static capacity of the chunk buffer. -/
def maxChunks : Nat := 20

/-- Fold a list of input events through the dispatcher. -/
def runEvents (gc : Bool) : MBO → List Event → Option MBO
  | m, [] => some m
  | m, e :: rest =>
    match processEvent gc m e with
    | none => none
    | some r => runEvents gc r.1 rest

/-- 45 resting ask orders at prices 100..144, qty 6 each. -/
def deepBuildEvents : List Event :=
  (List.range 45).map (fun i => Event.newO (Int.ofNat i + 1) true
    (100 + Int.ofNat i) 6)

/-- The number of chunks emitted by a bid that crosses all 45 ask levels. -/
def deepRun : Option Nat :=
  (runEvents true MBO.init deepBuildEvents).bind fun m =>
    (processEvent true m (Event.newO 100 false 300 400)).map fun r =>
      (packChunks 1 r.2).length

/-- An input record as read by `Runner::process_record`. -/
structure InputRecord where
  token : Int
  tick_type : Char
  order_id : Int
  order_id2 : Int
  is_ask : Bool
  price : Int
  qty : Int
  deriving DecidableEq, Repr

/-- The per-token MBO map of the Runner, as an association list. -/
def mboFind : List (Int × MBO) → Int → Option MBO
  | [], _ => none
  | (k, v) :: rest, tok => if k = tok then some v else mboFind rest tok

def mboInsert : List (Int × MBO) → Int → MBO → List (Int × MBO)
  | [], tok, v => [(tok, v)]
  | (k, w) :: rest, tok, v =>
    if k = tok then (k, v) :: rest else (k, w) :: mboInsert rest tok v

/-- `Runner::process_record`: find or lazily create the token's MBO, dispatch
by tick type ('N'/'M'/'X'/'T', all else ignored), pack the emitted deltas
into chunks (the emitter is cleared before and finalized after). -/
def process_record (gc : Bool) (mbos : List (Int × MBO)) (rec : InputRecord) :
    Option (List (Int × MBO) × List DeltaChunk) :=
  let m := (mboFind mbos rec.token).getD MBO.init
  let r : Option (MBO × List Delta) :=
    if rec.tick_type = 'N' then
      new_order gc m rec.order_id rec.is_ask rec.price rec.qty
    else if rec.tick_type = 'M' then
      modify_order gc m rec.order_id rec.price rec.qty
    else if rec.tick_type = 'X' then cancel_order gc m rec.order_id
    else if rec.tick_type = 'T' then
      trade m rec.order_id rec.order_id2 rec.price rec.qty
    else some (m, [])
  match r with
  | none => none
  | some r' =>
    some (mboInsert mbos rec.token r'.1, packChunks rec.token r'.2)

/-- Receiver-side `PendingAggressorState`. -/
structure AggState where
  aggressor_id : Int
  aggressor_is_ask : Bool
  aggressor_price : Int
  aggressor_original_qty : Int
  aggressor_remaining : Int
  original_tick_type : Char
  crossing_complete : Bool
  deriving DecidableEq, Repr

def AggState.init : AggState := ⟨0, false, 0, 0, 0, Char.ofNat 0, false⟩

def AggState.is_active (a : AggState) : Bool := a.aggressor_id != 0

/-- One delta of the `apply_deltas_to_book` walk, tracking only what decides
how many output records are produced: the aggressor state, whether a
TickInfo was seen, the current tick/order id, and the extra-record count. -/
def recvStep : AggState × Bool × Char × Int × Nat → Delta →
    AggState × Bool × Char × Int × Nat
  | (agg, seen, cur, curId, ex), .tickInfo t a _ p q o1 _ =>
    if t = 'S' ∧ agg.is_active then (agg, seen, cur, curId, ex)
    else
      let ex' := if seen then ex + 1 else ex
      let agg1 := if t = 'A' ∨ t = 'B' then
          (⟨o1, a, p, q, q, t, agg.crossing_complete⟩ : AggState) else agg
      let agg2 := if (t = 'T' ∨ t = 'D' ∨ t = 'E') ∧ agg1.is_active then
          { agg1 with aggressor_remaining := agg1.aggressor_remaining - q }
        else agg1
      (agg2, true, t, o1, ex')
  | st, .update _ _ _ _ => st
  | st, .insert _ _ _ _ _ _ => st
  | (agg, seen, cur, curId, ex), .crossingComplete =>
    let ex' := if agg.is_active ∧ ¬ cur = 'C' ∧
        (0 < agg.aggressor_remaining ∨ agg.original_tick_type = 'B') then
        ex + 1 else ex
    let agg' := if ¬ cur = 'C' then
        { agg with
            aggressor_id := 0
            original_tick_type := Char.ofNat 0
            crossing_complete := false }
      else { agg with crossing_complete := true }
    (agg', seen, cur, curId, ex')

/-- Records delivered for one walk: the main record plus mid-walk extras,
plus the final 'C'-tick expansion (C+S or C+S+N). -/
def recvFinal : AggState × Bool × Char × Int × Nat → Nat
  | (agg, _, cur, curId, ex) =>
    if cur = 'C' ∧ agg.is_active then
      if curId == agg.aggressor_id then ex + 2 else ex + 3
    else ex + 1

/-- `Runner::process_deltas`: with an empty SHM buffer it returns at once and
delivers nothing; otherwise it delivers the records of the receiver walk. -/
def process_deltas_delivered (shm : List DeltaChunk) (agg : AggState)
    (prevTick : Char) (prevId : Int) : Nat :=
  if shm.isEmpty then 0
  else recvFinal ((chunkDeltas shm).foldl recvStep (agg, false, prevTick, prevId, 0))

/-! ## Receiver mirror (the level arrays of `OutputRecord` and their
maintenance by `apply_deltas_to_book`) -/

/-- `OutputLevel`. -/
structure OutLevel where
  price : Int
  qty : Int
  num_orders : Int
  deriving DecidableEq, Repr

def zeroLevel : OutLevel := ⟨0, 0, 0⟩

/-- One side's dense top-20 array (`OutputRecord::bids` / `asks`),
maintained at length 20. -/
abbrev Mirror := List OutLevel

def emptyMirror : Mirror := List.replicate 20 zeroLevel

/-- Update handling in `apply_deltas_to_book`: apply the qty/count deltas at
`idx`; when the resulting qty is ≤ 0, memmove levels `[idx+1..19]` up and zero
level 19 (implicit deletion). -/
def mirrorUpdate (m : Mirror) (idx : Nat) (qd cd : Int) : Mirror :=
  if (m.getD idx zeroLevel).qty + qd ≤ 0 then
    (m.take idx ++ m.drop (idx + 1)) ++ [zeroLevel]
  else
    m.set idx ⟨(m.getD idx zeroLevel).price, (m.getD idx zeroLevel).qty + qd,
      (m.getD idx zeroLevel).num_orders + cd⟩

/-- Insert handling in `apply_deltas_to_book`: when `shift`, memmove
`[idx..18]` down to `[idx+1..19]` first, then stamp the absolute values at
`idx`. -/
def mirrorInsert (m : Mirror) (idx : Nat) (shift : Bool) (p q n : Int) : Mirror :=
  if shift then m.take idx ++ (⟨p, q, n⟩ : OutLevel) :: (m.drop idx).take (19 - idx)
  else m.set idx ⟨p, q, n⟩

/-- Restriction of one delta's effect to the side tagged `flag`. -/
def applyDeltaSide (flag : Bool) (m : Mirror) (d : Delta) : Mirror :=
  match d with
  | .update isAsk idx qd cd => if isAsk = flag then mirrorUpdate m idx qd cd else m
  | .insert isAsk idx shift p q n =>
    if isAsk = flag then mirrorInsert m idx shift p q n else m
  | _ => m

def applyDeltasSide (flag : Bool) (m : Mirror) (ds : List Delta) : Mirror :=
  ds.foldl (applyDeltaSide flag) m

/-- The effect of `apply_deltas_to_book` on the persistent level arrays of the
mirrored snapshot: TickInfo/CrossingComplete records touch only event metadata
(modelled separately, see `receiverStep`), Update/Insert records edit the side
they are tagged with. -/
def apply_deltas_to_book (mp : Mirror × Mirror) (ds : List Delta) :
    Mirror × Mirror :=
  (applyDeltasSide false mp.1 ds, applyDeltasSide true mp.2 ds)

/-- Direct projection of one side's top-20 levels (actual prices,
zero-padded to 20 entries). -/
def padTo20 (l : List OutLevel) : Mirror :=
  l.take 20 ++ List.replicate (20 - l.length) zeroLevel

def projSide (s : PriceLevels) : Mirror :=
  padTo20 (s.levels.map fun e =>
    ⟨e.cprice * side_multiplier s.is_ask, e.aqty, e.cnt⟩)

/-! ### Index-wise characterisation of the mirror operations -/

theorem padTo20_length (l : List OutLevel) : (padTo20 l).length = 20 := by
  simp [padTo20]
  omega

theorem padTo20_getElem? (l : List OutLevel) (j : Nat) :
    (padTo20 l)[j]? = if j < 20 then some ((l[j]?).getD zeroLevel) else none := by
  unfold padTo20
  rw [List.getElem?_append]
  rcases lt_or_le j 20 with hj | hj
  · rcases lt_or_le j l.length with hl | hl
    · rw [if_pos (by simp; omega), List.getElem?_take, if_pos hj, if_pos hj]
      simp [List.getElem?_eq_getElem hl]
    · rw [if_neg (by simp; omega), List.getElem?_replicate]
      rw [if_pos (by simp; omega), if_pos hj, List.getElem?_eq_none hl]
      rfl
  · rw [if_neg (by simp; omega), List.getElem?_replicate]
    rw [if_neg (by simp; omega), if_neg (by omega)]

theorem mirrorUpdate_length (m : Mirror) (idx : Nat) (qd cd : Int)
    (hlen : m.length = 20) (hidx : idx < 20) :
    (mirrorUpdate m idx qd cd).length = 20 := by
  unfold mirrorUpdate
  split <;> simp [hlen] <;> omega

theorem mirrorUpdate_del_getElem? (m : Mirror) (idx : Nat) (qd cd : Int)
    (hlen : m.length = 20) (hidx : idx < 20)
    (hdel : (m.getD idx zeroLevel).qty + qd ≤ 0) (j : Nat) :
    (mirrorUpdate m idx qd cd)[j]? =
      if j < idx then m[j]?
      else if j < 19 then m[j + 1]?
      else if j = 19 then some zeroLevel
      else none := by
  unfold mirrorUpdate
  rw [if_pos hdel]
  rw [List.getElem?_append, List.getElem?_append, List.getElem?_take,
    List.getElem?_drop]
  simp only [List.length_append, List.length_take, List.length_drop, hlen]
  rcases lt_or_le j idx with hj | hj
  · rw [if_pos (by omega), if_pos (by omega), if_pos hj, if_pos hj]
  · rcases lt_or_le j 19 with hj2 | hj2
    · rw [if_pos (by omega), if_neg (by omega), if_neg (by omega),
        if_pos hj2]
      congr 1
      omega
    · rcases eq_or_lt_of_le hj2 with hj3 | hj3
      · rw [if_neg (by omega), if_neg (by omega), if_neg (by omega),
          if_pos (by omega)]
        have : j - (min idx 20 + (20 - (idx + 1))) = 0 := by omega
        rw [this]
        rfl
      · rw [if_neg (by omega), if_neg (by omega), if_neg (by omega),
          if_neg (by omega)]
        rw [List.getElem?_eq_none (by simp; omega)]

theorem mirrorUpdate_set_getElem? (m : Mirror) (idx : Nat) (qd cd : Int)
    (hlen : m.length = 20) (hidx : idx < 20)
    (hkeep : ¬ (m.getD idx zeroLevel).qty + qd ≤ 0) (j : Nat) :
    (mirrorUpdate m idx qd cd)[j]? =
      if j = idx then
        some ⟨(m.getD idx zeroLevel).price, (m.getD idx zeroLevel).qty + qd,
          (m.getD idx zeroLevel).num_orders + cd⟩
      else m[j]? := by
  unfold mirrorUpdate
  rw [if_neg hkeep]
  rw [List.getElem?_set]
  rcases eq_or_ne j idx with h | h
  · rw [if_pos h.symm, if_pos h, if_pos (by omega)]
  · rw [if_neg (Ne.symm h), if_neg h]

theorem mirrorInsert_length (m : Mirror) (idx : Nat) (shift : Bool) (p q n : Int)
    (hlen : m.length = 20) (hidx : idx < 20) :
    (mirrorInsert m idx shift p q n).length = 20 := by
  unfold mirrorInsert
  cases shift <;> simp [hlen] <;> omega

theorem mirrorInsert_shift_getElem? (m : Mirror) (idx : Nat) (p q n : Int)
    (hlen : m.length = 20) (hidx : idx < 20) (j : Nat) :
    (mirrorInsert m idx true p q n)[j]? =
      if j < idx then m[j]?
      else if j = idx then some ⟨p, q, n⟩
      else if j < 20 then m[j - 1]?
      else none := by
  unfold mirrorInsert
  rw [if_pos rfl]
  rw [List.getElem?_append]
  simp only [List.length_take, hlen]
  rcases lt_or_le j idx with hj | hj
  · rw [if_pos (by omega), List.getElem?_take, if_pos hj, if_pos hj]
  · rcases eq_or_lt_of_le hj with hj1 | hj1
    · rw [if_neg (by omega)]
      have : j - min idx 20 = 0 := by omega
      rw [this]
      rw [if_neg (by omega), if_pos hj1.symm]
      exact List.getElem?_cons_zero
    · rcases lt_or_le j 20 with hj2 | hj2
      · rw [if_neg (by omega)]
        have : j - min idx 20 = (j - idx - 1) + 1 := by omega
        rw [this]
        rw [List.getElem?_cons_succ, List.getElem?_take, List.getElem?_drop]
        rw [if_pos (by omega)]
        rw [if_neg (by omega), if_neg (by omega), if_pos hj2]
        congr 1
        omega
      · rw [if_neg (by omega)]
        have : j - min idx 20 = (j - idx - 1) + 1 := by omega
        rw [this]
        rw [List.getElem?_cons_succ, List.getElem?_take]
        rw [if_neg (by omega)]
        rw [if_neg (by omega), if_neg (by omega), if_neg (by omega)]

theorem mirrorInsert_noshift_getElem? (m : Mirror) (idx : Nat) (p q n : Int)
    (hlen : m.length = 20) (hidx : idx < 20) (j : Nat) :
    (mirrorInsert m idx false p q n)[j]? =
      if j = idx then some ⟨p, q, n⟩ else m[j]? := by
  unfold mirrorInsert
  simp only [Bool.false_eq_true, if_false]
  rw [List.getElem?_set]
  rcases eq_or_ne j idx with h | h
  · rw [if_pos h.symm, if_pos h, if_pos (by omega)]
  · rw [if_neg (Ne.symm h), if_neg h]

/-! ### Level-list helper lemmas -/

/-- The mapped view of one level entry as it appears in the projection. -/
def levelOut (flag : Bool) (e : LevelEntry) : OutLevel :=
  ⟨e.cprice * side_multiplier flag, e.aqty, e.cnt⟩

theorem projSide_getElem? (s : PriceLevels) (j : Nat) :
    (projSide s)[j]? =
      if j < 20 then some (((s.levels[j]?).map (levelOut s.is_ask)).getD zeroLevel)
      else none := by
  unfold projSide
  rw [padTo20_getElem?]
  rw [List.getElem?_map]
  rfl

theorem projSide_length (s : PriceLevels) : (projSide s).length = 20 :=
  padTo20_length _

theorem findLevel_some (L : List LevelEntry) (c : Int) (idx : Nat) (e : LevelEntry)
    (h : findLevel L c = some (idx, e)) : L[idx]? = some e ∧ e.cprice = c := by
  induction L generalizing idx with
  | nil => simp [findLevel] at h
  | cons x rest ih =>
    by_cases hx : x.cprice = c
    · rw [findLevel, if_pos hx, Option.some.injEq, Prod.mk.injEq] at h
      obtain ⟨h1, h2⟩ := h
      subst h2
      rw [← h1]
      simp [hx]
    · rw [findLevel, if_neg hx] at h
      match hrec : findLevel rest c with
      | none => rw [hrec] at h; simp at h
      | some (i, e') =>
        rw [hrec] at h
        rw [show (some (i, e')).map (fun r => (r.1 + 1, r.2)) = some (i + 1, e')
          from rfl, Option.some.injEq, Prod.mk.injEq] at h
        obtain ⟨h1, h2⟩ := h
        subst h1 h2
        simpa using ih i hrec

theorem insertAt_getElem? (L : List LevelEntry) (idx : Nat) (v : LevelEntry)
    (hidx : idx ≤ L.length) (j : Nat) :
    (L.take idx ++ v :: L.drop idx)[j]? =
      if j < idx then L[j]?
      else if j = idx then some v
      else L[j - 1]? := by
  rw [List.getElem?_append]
  simp only [List.length_take]
  rcases lt_or_le j idx with hj | hj
  · rw [if_pos (by omega), List.getElem?_take, if_pos hj, if_pos hj]
  · rcases eq_or_lt_of_le hj with hj1 | hj1
    · rw [if_neg (by omega)]
      have : j - min idx L.length = 0 := by omega
      rw [this, if_neg (by omega), if_pos hj1.symm]
      exact List.getElem?_cons_zero
    · rw [if_neg (by omega)]
      have : j - min idx L.length = (j - idx - 1) + 1 := by omega
      rw [this, List.getElem?_cons_succ, List.getElem?_drop]
      rw [if_neg (by omega), if_neg (by omega)]
      congr 1
      omega

theorem insertAt_length (L : List LevelEntry) (idx : Nat) (v : LevelEntry)
    (hidx : idx ≤ L.length) :
    (L.take idx ++ v :: L.drop idx).length = L.length + 1 := by
  simp
  omega

/-- Structural characterisation of `addToLevels`: either a fresh entry is
inserted at position `idx ≤ |L|`, or the entry at position `idx` is updated in
place. -/
theorem addToLevels_cases (L : List LevelEntry) (c q n : Int) :
    (∃ idx, idx ≤ L.length ∧
      addToLevels L c q n = (L.take idx ++ ⟨c, q, n⟩ :: L.drop idx, idx, true, q, n)) ∨
    (∃ idx e, L[idx]? = some e ∧ e.cprice = c ∧
      addToLevels L c q n =
        (L.set idx ⟨c, e.aqty + q, e.cnt + n⟩, idx, false, e.aqty + q, e.cnt + n)) := by
  induction L with
  | nil => exact Or.inl ⟨0, by simp [addToLevels]⟩
  | cons x rest ih =>
    by_cases h1 : c < x.cprice
    · exact Or.inl ⟨0, by simp [addToLevels, h1]⟩
    · by_cases h2 : c = x.cprice
      · refine Or.inr ⟨0, x, by simp, h2.symm, ?_⟩
        subst h2
        simp [addToLevels, h1]
      · rcases ih with ⟨idx, hle, heq⟩ | ⟨idx, e, hget, hc, heq⟩
        · refine Or.inl ⟨idx + 1, by simp; omega, ?_⟩
          simp [addToLevels, h1, h2, heq]
        · refine Or.inr ⟨idx + 1, e, by simpa using hget, hc, ?_⟩
          simp [addToLevels, h1, h2, heq]

/-! ### Delta-list predicates and application lemmas -/

/-- All Update/Insert deltas in the list are tagged with side `flag`. -/
def SideOnly (flag : Bool) (ds : List Delta) : Prop :=
  ∀ d ∈ ds, match d with
    | .update a _ _ _ => a = flag
    | .insert a _ _ _ _ _ => a = flag
    | _ => True

/-- All Update/Insert deltas in the list have a level index `< 20`
(the emitter's top-20 filter). -/
def IdxOk (ds : List Delta) : Prop :=
  ∀ d ∈ ds, match d with
    | .update _ idx _ _ => idx < 20
    | .insert _ idx _ _ _ _ => idx < 20
    | _ => True

theorem SideOnly_append {flag : Bool} {a b : List Delta}
    (ha : SideOnly flag a) (hb : SideOnly flag b) : SideOnly flag (a ++ b) := by
  intro d hd
  rcases List.mem_append.mp hd with h | h
  · exact ha d h
  · exact hb d h

theorem IdxOk_append {a b : List Delta} (ha : IdxOk a) (hb : IdxOk b) :
    IdxOk (a ++ b) := by
  intro d hd
  rcases List.mem_append.mp hd with h | h
  · exact ha d h
  · exact hb d h

theorem SideOnly_nil (flag : Bool) : SideOnly flag [] := by
  intro d hd; cases hd

theorem IdxOk_nil : IdxOk [] := by
  intro d hd; cases hd

theorem SideOnly_emit_update (flag : Bool) (idx : Nat) (qd cd : Int) :
    SideOnly flag (emit_update flag idx qd cd) := by
  unfold emit_update
  split
  · exact SideOnly_nil flag
  · intro d hd; simp at hd; subst hd; simp

theorem SideOnly_emit_insert (flag : Bool) (idx : Nat) (sh : Bool) (p q n : Int) :
    SideOnly flag (emit_insert flag idx sh p q n) := by
  unfold emit_insert
  split
  · exact SideOnly_nil flag
  · intro d hd; simp at hd; subst hd; simp

theorem IdxOk_emit_update (flag : Bool) (idx : Nat) (qd cd : Int) :
    IdxOk (emit_update flag idx qd cd) := by
  unfold emit_update
  split
  · exact IdxOk_nil
  · intro d hd; simp at hd; subst hd
    simp only []
    unfold topDepth at *
    omega

theorem IdxOk_emit_insert (flag : Bool) (idx : Nat) (sh : Bool) (p q n : Int) :
    IdxOk (emit_insert flag idx sh p q n) := by
  unfold emit_insert
  split
  · exact IdxOk_nil
  · intro d hd; simp at hd; subst hd
    simp only []
    unfold topDepth at *
    omega

theorem applyDeltasSide_append (flag : Bool) (m : Mirror) (a b : List Delta) :
    applyDeltasSide flag m (a ++ b) =
      applyDeltasSide flag (applyDeltasSide flag m a) b := by
  simp [applyDeltasSide]

theorem applyDeltasSide_other (flag g : Bool) (m : Mirror) (ds : List Delta)
    (hside : SideOnly flag ds) (hne : g ≠ flag) :
    applyDeltasSide g m ds = m := by
  induction ds generalizing m with
  | nil => rfl
  | cons d rest ih =>
    have hd := hside d (by simp)
    have hrest : SideOnly flag rest := fun d' h' => hside d' (by simp [h'])
    have : applyDeltaSide g m d = m := by
      cases d with
      | update a idx qd cd => simp at hd; simp [applyDeltaSide, hd, Ne.symm hne]
      | insert a idx sh p q n => simp at hd; simp [applyDeltaSide, hd, Ne.symm hne]
      | tickInfo => rfl
      | crossingComplete => rfl
    rw [applyDeltasSide, List.foldl_cons, this]
    exact ih _ hrest

/-! ### Per-primitive simulation: each PriceLevels mutation keeps the mirror
equal to the direct top-20 projection -/

/-- Positivity: every present level has strictly positive aggregate qty. -/
def PosLevels (L : List LevelEntry) : Prop := ∀ e ∈ L, 0 < e.aqty

/-- The level map is strictly sorted best-first (ascending canonical price). -/
def SortedLevels (L : List LevelEntry) : Prop :=
  L.Pairwise (fun a b => a.cprice < b.cprice)

/-- Simulation contract of one side operation: applying the emitted deltas to
the side's projection yields the new side's projection, the deltas are tagged
with this side only, and all their indices are `< 20`. -/
def SideSim (s s' : PriceLevels) (ds : List Delta) : Prop :=
  applyDeltasSide s.is_ask (projSide s) ds = projSide s' ∧
  SideOnly s.is_ask ds ∧ IdxOk ds ∧ s'.is_ask = s.is_ask

theorem SideSim_nil (s : PriceLevels) : SideSim s s [] :=
  ⟨rfl, SideOnly_nil _, IdxOk_nil, rfl⟩

theorem SideSim_nil' {s s' : PriceLevels} (hl : s'.levels = s.levels)
    (ha : s'.is_ask = s.is_ask) : SideSim s s' [] := by
  refine ⟨?_, SideOnly_nil _, IdxOk_nil, ha⟩
  show projSide s = projSide s'
  unfold projSide
  rw [hl, ha]

theorem SideSim_trans {s s1 s2 : PriceLevels} {ds1 ds2 : List Delta}
    (h1 : SideSim s s1 ds1) (h2 : SideSim s1 s2 ds2) :
    SideSim s s2 (ds1 ++ ds2) := by
  obtain ⟨a1, b1, c1, d1⟩ := h1
  obtain ⟨a2, b2, c2, d2⟩ := h2
  rw [d1] at a2 b2
  refine ⟨?_, SideOnly_append b1 b2, IdxOk_append c1 c2, by rw [d2, d1]⟩
  rw [applyDeltasSide_append, a1, a2]

/-- `p * m * m = p` for a side multiplier. -/
theorem side_mul_cancel (f : Bool) (p : Int) :
    p * side_multiplier f * side_multiplier f = p := by
  cases f <;> simp [side_multiplier]

theorem levelOut_cancel (f : Bool) (p q n : Int) :
    levelOut f ⟨p * side_multiplier f, q, n⟩ = ⟨p, q, n⟩ := by
  simp [levelOut, side_mul_cancel]

/-- Simulation for `add_liquidity`. -/
theorem add_liquidity_sim {s : PriceLevels} {p q cd : Int} {s' : PriceLevels}
    {ds : List Delta} (hpos : PosLevels s.levels)
    (h : add_liquidity s p q cd = some (s', ds)) : SideSim s s' ds := by
  by_cases hq : q < 0
  · simp [add_liquidity, hq] at h
  · rcases addToLevels_cases s.levels (p * side_multiplier s.is_ask) q cd with
      ⟨idx, hle, heq⟩ | ⟨idx, e, hget, hc, heq⟩
    · -- fresh insert at position idx
      simp only [add_liquidity, if_neg hq, heq, if_pos, Option.some.injEq,
        Prod.mk.injEq] at h
      obtain ⟨hs, hds⟩ := h
      subst hs hds
      by_cases hidx : idx < 20
      · have hds' : emit_insert s.is_ask idx true p q cd
            = [.insert s.is_ask idx true p q cd] := by
          unfold emit_insert topDepth
          rw [if_neg (by omega)]
        rw [hds']
        refine ⟨?_, by rw [← hds']; exact SideOnly_emit_insert s.is_ask idx true p q cd,
          by rw [← hds']; exact IdxOk_emit_insert s.is_ask idx true p q cd, rfl⟩
        have happ : applyDeltasSide s.is_ask (projSide s)
            [.insert s.is_ask idx true p q cd]
            = mirrorInsert (projSide s) idx true p q cd := by
          simp [applyDeltasSide, applyDeltaSide]
        rw [happ]
        apply List.ext_getElem?_iff.mpr
        intro j
        rw [mirrorInsert_shift_getElem? _ _ _ _ _ (projSide_length s) hidx j]
        simp only [projSide_getElem?]
        rw [insertAt_getElem? _ _ _ hle]
        split_ifs <;> first | rfl | (exfalso; omega) | simp [levelOut_cancel]
      · have hds' : emit_insert s.is_ask idx true p q cd = [] := by
          unfold emit_insert topDepth
          rw [if_pos (by omega)]
        rw [hds']
        refine ⟨?_, SideOnly_nil _, IdxOk_nil, rfl⟩
        show projSide s = _
        apply List.ext_getElem?_iff.mpr
        intro j
        simp only [projSide_getElem?]
        rw [insertAt_getElem? _ _ _ hle]
        split_ifs <;> first | rfl | (exfalso; omega)
    · -- in-place update at position idx
      simp only [add_liquidity, if_neg hq, heq, Bool.false_eq_true, if_false,
        Option.some.injEq, Prod.mk.injEq] at h
      obtain ⟨hs, hds⟩ := h
      subst hs hds
      have hmem : e ∈ s.levels := List.getElem?_mem hget
      have hepos : 0 < e.aqty := hpos e hmem
      have hlt : idx < s.levels.length := by
        by_contra hcon
        rw [List.getElem?_eq_none (by omega)] at hget
        cases hget
      by_cases hidx : idx < 20
      · have hds' : emit_update s.is_ask idx q cd = [.update s.is_ask idx q cd] := by
          unfold emit_update topDepth
          rw [if_neg (by omega)]
        rw [hds']
        refine ⟨?_, by rw [← hds']; exact SideOnly_emit_update s.is_ask idx q cd,
          by rw [← hds']; exact IdxOk_emit_update s.is_ask idx q cd, rfl⟩
        have happ : applyDeltasSide s.is_ask (projSide s) [.update s.is_ask idx q cd]
            = mirrorUpdate (projSide s) idx q cd := by
          simp [applyDeltasSide, applyDeltaSide]
        rw [happ]
        have hgetm : (projSide s).getD idx zeroLevel = levelOut s.is_ask e := by
          rw [List.getD_eq_getElem?_getD, projSide_getElem?, if_pos hidx, hget]
          rfl
        have hkeep : ¬ ((projSide s).getD idx zeroLevel).qty + q ≤ 0 := by
          rw [hgetm]
          show ¬ e.aqty + q ≤ 0
          omega
        apply List.ext_getElem?_iff.mpr
        intro j
        rw [mirrorUpdate_set_getElem? _ _ _ _ (projSide_length s) hidx hkeep j,
          hgetm]
        simp only [projSide_getElem?, List.getElem?_set]
        split_ifs <;>
          first
          | rfl
          | (exfalso; omega)
          | simp [levelOut, hc, side_mul_cancel]
      · have hds' : emit_update s.is_ask idx q cd = [] := by
          unfold emit_update topDepth
          rw [if_pos (by omega)]
        rw [hds']
        refine ⟨?_, SideOnly_nil _, IdxOk_nil, rfl⟩
        show projSide s = _
        apply List.ext_getElem?_iff.mpr
        intro j
        simp only [projSide_getElem?, List.getElem?_set]
        split_ifs <;> first | rfl | (exfalso; omega)

/-- Simulation for `remove_liquidity`. -/
theorem remove_liquidity_sim {s : PriceLevels} {p qty cd : Int} {s' : PriceLevels}
    {ds : List Delta} (hpos : PosLevels s.levels)
    (h : remove_liquidity s p qty cd = (s', ds)) : SideSim s s' ds := by
  by_cases h0 : qty = 0 ∧ cd = 0
  · rw [remove_liquidity, if_pos h0] at h
    cases h
    exact SideSim_nil s
  · match hfind : findLevel s.levels (p * side_multiplier s.is_ask) with
    | none =>
      simp only [remove_liquidity, if_neg h0, hfind] at h
      cases h
      exact SideSim_nil s
    | some (idx, e) =>
      obtain ⟨hget, hc⟩ := findLevel_some _ _ _ _ hfind
      have hmem : e ∈ s.levels := List.getElem?_mem hget
      have hepos : 0 < e.aqty := hpos e hmem
      have hlt : idx < s.levels.length := by
        by_contra hcon
        rw [List.getElem?_eq_none (by omega)] at hget
        cases hget
      simp only [remove_liquidity, if_neg h0, hfind] at h
      by_cases hdel : e.aqty - qty ≤ 0
      · rw [if_pos hdel] at h
        have hldel : (s.levels.eraseIdx idx).length = s.levels.length - 1 :=
          List.length_eraseIdx_of_lt hlt
        by_cases hidx : idx < 20
        · have hup : emit_update s.is_ask idx (-qty) (-cd)
              = [.update s.is_ask idx (-qty) (-cd)] := by
            unfold emit_update topDepth
            rw [if_neg (by omega)]
          have hgetm : (projSide s).getD idx zeroLevel = levelOut s.is_ask e := by
            rw [List.getD_eq_getElem?_getD, projSide_getElem?, if_pos hidx, hget]
            rfl
          have hdelm : ((projSide s).getD idx zeroLevel).qty + (-qty) ≤ 0 := by
            rw [hgetm]
            show e.aqty + (-qty) ≤ 0
            omega
          have hm1len : (mirrorUpdate (projSide s) idx (-qty) (-cd)).length = 20 :=
            mirrorUpdate_length _ _ _ _ (projSide_length s) hidx
          by_cases href : idx < 20 ∧ 20 ≤ (s.levels.eraseIdx idx).length
          · match hr19 : (s.levels.eraseIdx idx)[19]? with
            | none =>
              rw [List.getElem?_eq_none_iff] at hr19
              omega
            | some r =>
              rw [if_pos href, hr19] at h
              have hins : emit_insert s.is_ask 19 false
                  (r.cprice * side_multiplier s.is_ask) r.aqty r.cnt
                  = [.insert s.is_ask 19 false
                      (r.cprice * side_multiplier s.is_ask) r.aqty r.cnt] := by
                unfold emit_insert topDepth
                rw [if_neg (by omega)]
              simp only [hup, hins] at h
              cases h
              rw [List.getElem?_eraseIdx, if_neg (by omega)] at hr19
              refine ⟨?_, SideOnly_append (hup ▸ SideOnly_emit_update s.is_ask idx (-qty) (-cd))
                  (hins ▸ SideOnly_emit_insert s.is_ask 19 false _ r.aqty r.cnt),
                IdxOk_append (hup ▸ IdxOk_emit_update s.is_ask idx (-qty) (-cd))
                  (hins ▸ IdxOk_emit_insert s.is_ask 19 false _ r.aqty r.cnt), rfl⟩
              have happ : applyDeltasSide s.is_ask (projSide s)
                  ([Delta.update s.is_ask idx (-qty) (-cd)] ++
                   [Delta.insert s.is_ask 19 false
                     (r.cprice * side_multiplier s.is_ask) r.aqty r.cnt])
                  = mirrorInsert (mirrorUpdate (projSide s) idx (-qty) (-cd))
                      19 false (r.cprice * side_multiplier s.is_ask) r.aqty r.cnt := by
                simp [applyDeltasSide, applyDeltaSide]
              rw [happ]
              apply List.ext_getElem?_iff.mpr
              intro j
              rw [mirrorInsert_noshift_getElem? _ _ _ _ _ hm1len (by omega) j]
              rw [mirrorUpdate_del_getElem? _ _ _ _ (projSide_length s) hidx hdelm j]
              simp only [projSide_getElem?]
              rw [List.getElem?_eraseIdx]
              rcases lt_or_le j idx with hj | hj
              · rw [if_neg (by omega), if_pos hj, if_pos (by omega),
                  if_pos (by omega), if_pos hj]
              · rcases lt_or_le j 19 with hj2 | hj2
                · rw [if_neg (by omega), if_neg (by omega), if_pos hj2,
                    if_pos (by omega), if_pos (by omega), if_neg (by omega)]
                · rcases eq_or_lt_of_le hj2 with hj3 | hj3
                  · rw [if_pos hj3.symm, if_pos (by omega), if_neg (by omega)]
                    rw [show j + 1 = 20 by omega, hr19]
                    simp [levelOut]
                  · rw [if_neg (by omega), if_neg (by omega), if_neg (by omega),
                      if_neg (by omega), if_neg (by omega)]
          · simp only [if_neg href, hup, List.append_nil] at h
            cases h
            refine ⟨?_, hup ▸ SideOnly_emit_update s.is_ask idx (-qty) (-cd),
              hup ▸ IdxOk_emit_update s.is_ask idx (-qty) (-cd), rfl⟩
            have happ : applyDeltasSide s.is_ask (projSide s)
                [Delta.update s.is_ask idx (-qty) (-cd)]
                = mirrorUpdate (projSide s) idx (-qty) (-cd) := by
              simp [applyDeltasSide, applyDeltaSide]
            rw [happ]
            apply List.ext_getElem?_iff.mpr
            intro j
            rw [mirrorUpdate_del_getElem? _ _ _ _ (projSide_length s) hidx hdelm j]
            simp only [projSide_getElem?]
            rw [List.getElem?_eraseIdx]
            rcases lt_or_le j idx with hj | hj
            · rw [if_pos hj, if_pos (by omega), if_pos (by omega), if_pos hj]
            · rcases lt_or_le j 19 with hj2 | hj2
              · rw [if_neg (by omega), if_pos hj2, if_pos (by omega),
                  if_pos (by omega), if_neg (by omega)]
              · rcases eq_or_lt_of_le hj2 with hj3 | hj3
                · rw [if_neg (by omega), if_neg (by omega), if_pos hj3.symm,
                    if_pos (by omega), if_neg (by omega)]
                  rw [show j + 1 = 20 by omega]
                  rw [List.getElem?_eq_none (by omega)]
                  rfl
                · rw [if_neg (by omega), if_neg (by omega), if_neg (by omega),
                    if_neg (by omega)]
        · have hup : emit_update s.is_ask idx (-qty) (-cd) = [] := by
            unfold emit_update topDepth
            rw [if_pos (by omega)]
          have hnoref : ¬ (idx < 20 ∧ 20 ≤ (s.levels.eraseIdx idx).length) := by
            omega
          simp only [if_neg hnoref, hup, List.append_nil] at h
          cases h
          refine ⟨?_, SideOnly_nil _, IdxOk_nil, rfl⟩
          show projSide s = _
          apply List.ext_getElem?_iff.mpr
          intro j
          simp only [projSide_getElem?]
          rw [List.getElem?_eraseIdx]
          rcases lt_or_le j 20 with hj | hj
          · rw [if_pos hj, if_pos hj, if_pos (by omega)]
          · rw [if_neg (by omega), if_neg (by omega)]
      · rw [if_neg hdel] at h
        cases h
        by_cases hidx : idx < 20
        · have hup : emit_update s.is_ask idx (-qty) (-cd)
              = [.update s.is_ask idx (-qty) (-cd)] := by
            unfold emit_update topDepth
            rw [if_neg (by omega)]
          rw [hup]
          refine ⟨?_, hup ▸ SideOnly_emit_update s.is_ask idx (-qty) (-cd),
            hup ▸ IdxOk_emit_update s.is_ask idx (-qty) (-cd), rfl⟩
          have happ : applyDeltasSide s.is_ask (projSide s)
              [Delta.update s.is_ask idx (-qty) (-cd)]
              = mirrorUpdate (projSide s) idx (-qty) (-cd) := by
            simp [applyDeltasSide, applyDeltaSide]
          rw [happ]
          have hgetm : (projSide s).getD idx zeroLevel = levelOut s.is_ask e := by
            rw [List.getD_eq_getElem?_getD, projSide_getElem?, if_pos hidx, hget]
            rfl
          have hkeep : ¬ ((projSide s).getD idx zeroLevel).qty + (-qty) ≤ 0 := by
            rw [hgetm]
            show ¬ e.aqty + (-qty) ≤ 0
            omega
          apply List.ext_getElem?_iff.mpr
          intro j
          rw [mirrorUpdate_set_getElem? _ _ _ _ (projSide_length s) hidx hkeep j,
            hgetm]
          simp only [projSide_getElem?, List.getElem?_set]
          split_ifs <;>
            first
            | rfl
            | (exfalso; omega)
            | (simp [levelOut]; omega)
        · have hup : emit_update s.is_ask idx (-qty) (-cd) = [] := by
            unfold emit_update topDepth
            rw [if_pos (by omega)]
          rw [hup]
          refine ⟨?_, SideOnly_nil _, IdxOk_nil, rfl⟩
          show projSide s = _
          apply List.ext_getElem?_iff.mpr
          intro j
          simp only [projSide_getElem?, List.getElem?_set]
          split_ifs <;> first | rfl | (exfalso; omega)

/-! ### Positivity and sortedness preservation -/

theorem addToLevels_mem {L : List LevelEntry} {c q n : Int} {a : LevelEntry}
    (h : a ∈ (addToLevels L c q n).1) : a ∈ L ∨ a.cprice = c := by
  induction L with
  | nil =>
    simp [addToLevels] at h
    subst h
    exact Or.inr rfl
  | cons x rest ih =>
    by_cases h1 : c < x.cprice
    · simp [addToLevels, h1] at h
      rcases h with h | h | h
      · subst h; exact Or.inr rfl
      · exact Or.inl (by simp [h])
      · exact Or.inl (by simp [h])
    · by_cases h2 : c = x.cprice
      · simp [addToLevels, h1, h2] at h
        rcases h with h | h
        · subst h; exact Or.inr h2.symm
        · exact Or.inl (by simp [h])
      · simp [addToLevels, h1, h2] at h
        rcases h with h | h
        · exact Or.inl (by simp [h])
        · rcases ih h with h3 | h3
          · exact Or.inl (by simp [h3])
          · exact Or.inr h3

theorem addToLevels_sorted {L : List LevelEntry} {c q n : Int}
    (hs : SortedLevels L) : SortedLevels (addToLevels L c q n).1 := by
  induction L with
  | nil => simp [addToLevels, SortedLevels]
  | cons x rest ih =>
    rw [SortedLevels, List.pairwise_cons] at hs
    obtain ⟨hx, hrest⟩ := hs
    by_cases h1 : c < x.cprice
    · simp only [addToLevels, if_pos h1]
      rw [SortedLevels, List.pairwise_cons]
      constructor
      · intro a ha
        rcases List.mem_cons.mp ha with h | h
        · subst h; exact h1
        · exact lt_trans h1 (hx a h)
      · rw [SortedLevels] at *
        exact List.pairwise_cons.mpr ⟨hx, hrest⟩
    · by_cases h2 : c = x.cprice
      · simp only [addToLevels, if_neg h1, if_pos h2]
        rw [SortedLevels, List.pairwise_cons]
        exact ⟨hx, hrest⟩
      · simp only [addToLevels, if_neg h1, if_neg h2]
        rw [SortedLevels, List.pairwise_cons]
        constructor
        · intro a ha
          rcases addToLevels_mem ha with h | h
          · exact hx a h
          · rw [h]; omega
        · exact ih hrest

theorem addToLevels_fresh_not_mem {L : List LevelEntry} {c q n : Int}
    (hs : SortedLevels L) (hfresh : (addToLevels L c q n).2.2.1 = true) :
    ∀ e ∈ L, e.cprice ≠ c := by
  induction L with
  | nil => intro e he; cases he
  | cons x rest ih =>
    rw [SortedLevels, List.pairwise_cons] at hs
    obtain ⟨hx, hrest⟩ := hs
    by_cases h1 : c < x.cprice
    · intro e he
      rcases List.mem_cons.mp he with h | h
      · subst h; omega
      · have := hx e h
        omega
    · by_cases h2 : c = x.cprice
      · simp [addToLevels, h1, h2] at hfresh
      · simp only [addToLevels, if_neg h1, if_neg h2] at hfresh
        intro e he
        rcases List.mem_cons.mp he with h | h
        · subst h; omega
        · exact ih hrest hfresh e h

/-- A sorted-set update at the found entry's own canonical price keeps the
list sorted. -/
theorem sorted_set_same {L : List LevelEntry} {idx : Nat} {e v : LevelEntry}
    (hget : L[idx]? = some e) (hcp : v.cprice = e.cprice)
    (hs : SortedLevels L) : SortedLevels (L.set idx v) := by
  induction L generalizing idx with
  | nil => simp [SortedLevels]
  | cons x rest ih =>
    rw [SortedLevels, List.pairwise_cons] at hs
    obtain ⟨hx, hrest⟩ := hs
    match idx with
    | 0 =>
      rw [List.getElem?_cons_zero, Option.some.injEq] at hget
      subst hget
      rw [List.set_cons_zero, SortedLevels, List.pairwise_cons]
      exact ⟨fun a ha => hcp ▸ hx a ha, hrest⟩
    | idx' + 1 =>
      rw [List.getElem?_cons_succ] at hget
      rw [List.set_cons_succ, SortedLevels, List.pairwise_cons]
      constructor
      · intro a ha
        rcases List.mem_or_eq_of_mem_set ha with h | h
        · exact hx a h
        · subst h
          rw [hcp]
          exact hx e (List.getElem?_mem hget)
      · exact ih hget hrest

/-- Field bookkeeping of `add_liquidity`. -/
theorem add_liquidity_result {s : PriceLevels} {p q cd : Int} {s' : PriceLevels}
    {ds : List Delta} (h : add_liquidity s p q cd = some (s', ds)) :
    s'.levels = (addToLevels s.levels (p * side_multiplier s.is_ask) q cd).1 ∧
    s'.is_ask = s.is_ask ∧
    s'.pending_cross_fill_qty = s.pending_cross_fill_qty ∧
    s'.pending_cross_fill_count = s.pending_cross_fill_count ∧
    s'.cross_fills = s.cross_fills ∧ 0 ≤ q := by
  by_cases hq : q < 0
  · simp [add_liquidity, hq] at h
  · simp only [add_liquidity, if_neg hq] at h
    split at h <;>
    · rw [Option.some.injEq, Prod.mk.injEq] at h
      obtain ⟨hsip, _⟩ := h
      subst hsip
      exact ⟨rfl, rfl, rfl, rfl, rfl, by omega⟩

theorem add_liquidity_sorted {s : PriceLevels} {p q cd : Int} {s' : PriceLevels}
    {ds : List Delta} (hs : SortedLevels s.levels)
    (h : add_liquidity s p q cd = some (s', ds)) : SortedLevels s'.levels := by
  rw [(add_liquidity_result h).1]
  exact addToLevels_sorted hs

theorem remove_liquidity_sorted {s : PriceLevels} {p qty cd : Int}
    (hs : SortedLevels s.levels) :
    SortedLevels (remove_liquidity s p qty cd).1.levels := by
  unfold remove_liquidity
  split
  · exact hs
  · split
    · exact hs
    · rename_i idx e hfind
      obtain ⟨hget, _⟩ := findLevel_some _ _ _ _ hfind
      split
      · exact List.Pairwise.sublist (List.eraseIdx_sublist _ _) hs
      · exact sorted_set_same hget rfl hs

theorem add_liquidity_pos {s : PriceLevels} {p q cd : Int} {s' : PriceLevels}
    {ds : List Delta} (hpos : PosLevels s.levels) (hq : 0 < q)
    (h : add_liquidity s p q cd = some (s', ds)) : PosLevels s'.levels := by
  rcases addToLevels_cases s.levels (p * side_multiplier s.is_ask) q cd with
    ⟨idx, hle, heq⟩ | ⟨idx, e, hget, hc, heq⟩
  · simp only [add_liquidity, if_neg (by omega : ¬ q < 0), heq, if_pos,
      Option.some.injEq, Prod.mk.injEq] at h
    obtain ⟨hs, _⟩ := h
    subst hs
    intro a ha
    rcases List.mem_append.mp ha with h1 | h1
    · exact hpos a (List.mem_of_mem_take h1)
    · rcases List.mem_cons.mp h1 with h2 | h2
      · subst h2; exact hq
      · exact hpos a (List.mem_of_mem_drop h2)
  · have hepos : 0 < e.aqty := hpos e (List.getElem?_mem hget)
    simp only [add_liquidity, if_neg (by omega : ¬ q < 0), heq,
      Bool.false_eq_true, if_false, Option.some.injEq, Prod.mk.injEq] at h
    obtain ⟨hs, _⟩ := h
    subst hs
    intro a ha
    rcases List.mem_or_eq_of_mem_set ha with h1 | h1
    · exact hpos a h1
    · subst h1
      show 0 < e.aqty + q
      omega

theorem add_liquidity_pos_of_found {s : PriceLevels} {p q cd : Int}
    {s' : PriceLevels} {ds : List Delta} (hpos : PosLevels s.levels)
    (hsort : SortedLevels s.levels) (hq : 0 ≤ q)
    (hfound : (findLevel s.levels (p * side_multiplier s.is_ask)).isSome)
    (h : add_liquidity s p q cd = some (s', ds)) : PosLevels s'.levels := by
  rcases addToLevels_cases s.levels (p * side_multiplier s.is_ask) q cd with
    ⟨idx, hle, heq⟩ | ⟨idx, e, hget, hc, heq⟩
  · exfalso
    match hf : findLevel s.levels (p * side_multiplier s.is_ask) with
    | none => rw [hf] at hfound; simp [Option.isSome] at hfound
    | some (i, e) =>
      obtain ⟨hget, hc⟩ := findLevel_some _ _ _ _ hf
      exact addToLevels_fresh_not_mem hsort (by rw [heq]) e
        (List.getElem?_mem hget) hc
  · have hepos : 0 < e.aqty := hpos e (List.getElem?_mem hget)
    simp only [add_liquidity, if_neg (by omega : ¬ q < 0), heq,
      Bool.false_eq_true, if_false, Option.some.injEq, Prod.mk.injEq] at h
    obtain ⟨hs, _⟩ := h
    subst hs
    intro a ha
    rcases List.mem_or_eq_of_mem_set ha with h1 | h1
    · exact hpos a h1
    · subst h1
      show 0 < e.aqty + q
      omega

theorem remove_liquidity_pos {s : PriceLevels} {p qty cd : Int}
    (hpos : PosLevels s.levels) :
    PosLevels (remove_liquidity s p qty cd).1.levels := by
  unfold remove_liquidity
  split
  · exact hpos
  · split
    · exact hpos
    · rename_i idx e hfind
      split
      · intro a ha
        exact hpos a (List.mem_of_mem_eraseIdx ha)
      · rename_i hkeep
        intro a ha
        rcases List.mem_or_eq_of_mem_set ha with h1 | h1
        · exact hpos a h1
        · subst h1
          show 0 < e.aqty - qty
          omega

/-! ### Simulation for `cross` and `uncross` -/

theorem crossLoop_sim (aggP : Int) (fuel : Nat) :
    ∀ (s : PriceLevels) (remaining consumed : Int) (ds0 : List Delta),
    PosLevels s.levels → SortedLevels s.levels →
    ∃ dsNew,
      (crossLoop aggP fuel s remaining consumed ds0).2.2 = ds0 ++ dsNew ∧
      SideSim s (crossLoop aggP fuel s remaining consumed ds0).1 dsNew ∧
      PosLevels (crossLoop aggP fuel s remaining consumed ds0).1.levels ∧
      SortedLevels (crossLoop aggP fuel s remaining consumed ds0).1.levels := by
  induction fuel with
  | zero =>
    intro s remaining consumed ds0 hpos hsort
    exact ⟨[], by simp [crossLoop], SideSim_nil s, hpos, hsort⟩
  | succ fuel ih =>
    intro s remaining consumed ds0 hpos hsort
    by_cases hrem : 0 < remaining
    · match hL : s.levels with
      | [] =>
        refine ⟨[], ?_, ?_, ?_, ?_⟩ <;>
          simp [crossLoop, if_pos hrem, hL, SideSim_nil s, hL ▸ hpos, hL ▸ hsort]
      | e :: tail =>
        by_cases hbest : best_price s = 0
        · refine ⟨[], ?_, ?_, ?_, ?_⟩ <;>
            simp [crossLoop, if_pos hrem, hL, hbest, SideSim_nil s,
              hL ▸ hpos, hL ▸ hsort]
        · by_cases hcross : (if s.is_ask then best_price s ≤ aggP
              else aggP ≤ best_price s)
          · have hres : crossLoop aggP (fuel + 1) s remaining consumed ds0
                = crossLoop aggP fuel
                    (remove_liquidity (crossReserve s remaining e) (best_price s)
                      (min remaining e.aqty) 0).1
                    (remaining - min remaining e.aqty)
                    (consumed + min remaining e.aqty)
                    (ds0 ++ (remove_liquidity (crossReserve s remaining e)
                      (best_price s) (min remaining e.aqty) 0).2) := by
              conv_lhs => rw [crossLoop]
              rw [if_pos hrem]
              simp only [hL]
              rw [if_neg hbest, if_pos hcross]
            have hres0 : PosLevels (crossReserve s remaining e).levels := hpos
            have hsort0 : SortedLevels (crossReserve s remaining e).levels := hsort
            have hsim1 : SideSim s (remove_liquidity (crossReserve s remaining e)
                (best_price s) (min remaining e.aqty) 0).1
                (remove_liquidity (crossReserve s remaining e) (best_price s)
                  (min remaining e.aqty) 0).2 := by
              have h2 : SideSim (crossReserve s remaining e)
                  (remove_liquidity (crossReserve s remaining e) (best_price s)
                    (min remaining e.aqty) 0).1
                  (remove_liquidity (crossReserve s remaining e) (best_price s)
                    (min remaining e.aqty) 0).2 :=
                remove_liquidity_sim hres0 rfl
              have h1 : SideSim s (crossReserve s remaining e) [] := SideSim_nil' rfl rfl
              have := SideSim_trans h1 h2
              simpa using this
            have hpos1 : PosLevels (remove_liquidity (crossReserve s remaining e)
                (best_price s) (min remaining e.aqty) 0).1.levels :=
              remove_liquidity_pos hres0
            have hsort1 : SortedLevels (remove_liquidity (crossReserve s remaining e)
                (best_price s) (min remaining e.aqty) 0).1.levels :=
              remove_liquidity_sorted hsort0
            obtain ⟨dsNew, hds, hsim2, hpos2, hsort2⟩ := ih _
              (remaining - min remaining e.aqty) (consumed + min remaining e.aqty)
              (ds0 ++ (remove_liquidity (crossReserve s remaining e) (best_price s)
                (min remaining e.aqty) 0).2) hpos1 hsort1
            refine ⟨(remove_liquidity (crossReserve s remaining e) (best_price s)
                (min remaining e.aqty) 0).2 ++ dsNew, ?_, ?_, ?_, ?_⟩
            · rw [hres, hds, List.append_assoc]
            · rw [hres]
              exact SideSim_trans hsim1 hsim2
            · rw [hres]; exact hpos2
            · rw [hres]; exact hsort2
          · refine ⟨[], ?_, ?_, ?_, ?_⟩ <;>
              simp [crossLoop, if_pos hrem, hL, hbest, hcross, SideSim_nil s,
                hL ▸ hpos, hL ▸ hsort]
    · refine ⟨[], ?_, ?_, ?_, ?_⟩ <;>
        simp [crossLoop, if_neg hrem, SideSim_nil s, hpos, hsort]

theorem cross_sim {gc : Bool} {s : PriceLevels} {aggP aggQ : Int}
    (hpos : PosLevels s.levels) (hsort : SortedLevels s.levels) :
    SideSim s (cross gc s aggP aggQ).1 (cross gc s aggP aggQ).2.2 ∧
    PosLevels (cross gc s aggP aggQ).1.levels ∧
    SortedLevels (cross gc s aggP aggQ).1.levels := by
  by_cases hgc : gc
  · subst hgc
    unfold cross
    rw [if_pos rfl]
    have hl0 : (crossInit s).levels = s.levels := by
      unfold crossInit
      split <;> rfl
    have ha0 : (crossInit s).is_ask = s.is_ask := by
      unfold crossInit
      split <;> rfl
    obtain ⟨dsNew, hds, hsim, hpos', hsort'⟩ :=
      crossLoop_sim aggP ((crossInit s).levels.length + 1) (crossInit s) aggQ 0 []
        (by rw [hl0]; exact hpos) (by rw [hl0]; exact hsort)
    have hsim0 : SideSim s (crossInit s) [] := SideSim_nil' hl0 ha0
    have h1 := SideSim_trans hsim0 hsim
    have h2 : SideSim (crossLoop aggP ((crossInit s).levels.length + 1)
        (crossInit s) aggQ 0 []).1
        (crossFinish (crossLoop aggP ((crossInit s).levels.length + 1)
          (crossInit s) aggQ 0 [])).1 [] := SideSim_nil' rfl rfl
    have h3 := SideSim_trans h1 h2
    refine ⟨?_, hpos', hsort'⟩
    show SideSim s _ (crossLoop aggP ((crossInit s).levels.length + 1)
      (crossInit s) aggQ 0 []).2.2
    rw [hds]
    simpa using h3
  · simp only [Bool.not_eq_true] at hgc
    subst hgc
    exact ⟨SideSim_nil s, hpos, hsort⟩

theorem uncrossGo_sim :
    ∀ (fills : List CrossFill) (skipQ skipC : Int) (s : PriceLevels)
      (ds0 : List Delta) (s' : PriceLevels) (ds' : List Delta),
    PosLevels s.levels → SortedLevels s.levels →
    uncrossGo fills skipQ skipC s ds0 = some (s', ds') →
    ∃ dsNew, ds' = ds0 ++ dsNew ∧ SideSim s s' dsNew ∧
      PosLevels s'.levels ∧ SortedLevels s'.levels := by
  intro fills
  induction fills with
  | nil =>
    intro skipQ skipC s ds0 s' ds' hpos hsort h
    rw [uncrossGo, Option.some.injEq, Prod.mk.injEq] at h
    obtain ⟨h1, h2⟩ := h
    subst h1 h2
    exact ⟨[], by simp, SideSim_nil s, hpos, hsort⟩
  | cons f rest ih =>
    intro skipQ skipC s ds0 s' ds' hpos hsort h
    rw [uncrossGo] at h
    by_cases hskip : f.qty ≤ skipQ
    · rw [if_pos hskip] at h
      exact ih _ _ _ _ _ _ hpos hsort h
    · rw [if_neg hskip] at h
      have hq : 0 < f.qty - skipQ := by omega
      match hf : findLevel s.levels (f.price * side_multiplier s.is_ask) with
      | some x =>
        rw [hf] at h
        match hadd : add_liquidity s f.price (f.qty - skipQ) 0 with
        | none => rw [hadd] at h; cases h
        | some r =>
          obtain ⟨r1, r2⟩ := r
          rw [hadd] at h
          have hsim1 := add_liquidity_sim hpos hadd
          have hpos1 := add_liquidity_pos hpos hq hadd
          have hsort1 := add_liquidity_sorted hsort hadd
          obtain ⟨dsNew, hds, hsim2, hpos2, hsort2⟩ :=
            ih _ _ _ _ _ _ hpos1 hsort1 h
          refine ⟨r2 ++ dsNew, by rw [hds, List.append_assoc], ?_, hpos2, hsort2⟩
          exact SideSim_trans hsim1 hsim2
      | none =>
        rw [hf] at h
        match hadd : add_liquidity s f.price (f.qty - skipQ) (f.count - skipC) with
        | none => rw [hadd] at h; cases h
        | some r =>
          obtain ⟨r1, r2⟩ := r
          rw [hadd] at h
          have hsim1 := add_liquidity_sim hpos hadd
          have hpos1 := add_liquidity_pos hpos hq hadd
          have hsort1 := add_liquidity_sorted hsort hadd
          obtain ⟨dsNew, hds, hsim2, hpos2, hsort2⟩ :=
            ih _ _ _ _ _ _ hpos1 hsort1 h
          refine ⟨r2 ++ dsNew, by rw [hds, List.append_assoc], ?_, hpos2, hsort2⟩
          exact SideSim_trans hsim1 hsim2

theorem uncross_sim {s s' : PriceLevels} {ds : List Delta}
    (hpos : PosLevels s.levels) (hsort : SortedLevels s.levels)
    (h : uncross s = some (s', ds)) :
    SideSim s s' ds ∧ PosLevels s'.levels ∧ SortedLevels s'.levels ∧
    s'.pending_cross_fill_qty = 0 ∧ s'.pending_cross_fill_count = 0 ∧
    s'.cross_fills = [] := by
  rw [uncross] at h
  match hgo : uncrossGo s.cross_fills
      ((s.cross_fills.map (·.qty)).sum - s.pending_cross_fill_qty)
      ((s.cross_fills.map (·.count)).sum - s.pending_cross_fill_count) s [] with
  | none => rw [hgo] at h; cases h
  | some r =>
    obtain ⟨r1, r2⟩ := r
    rw [hgo, Option.some.injEq, Prod.mk.injEq] at h
    obtain ⟨h1, h2⟩ := h
    subst h1 h2
    obtain ⟨dsNew, hds, hsim, hpos1, hsort1⟩ :=
      uncrossGo_sim _ _ _ _ _ _ _ hpos hsort hgo
    simp only [List.nil_append] at hds
    subst hds
    obtain ⟨ha, hb, hc, hd⟩ := hsim
    exact ⟨⟨ha, hb, hc, hd⟩, hpos1, hsort1, rfl, rfl, rfl⟩

/-! ### Cross/uncross round trip (aggressor cancel with no confirmed trades) -/

/-- The cross-fill record of a fully consumed level. -/
def fillOf (flag : Bool) (e : LevelEntry) : CrossFill :=
  ⟨e.cprice * side_multiplier flag, e.aqty, e.cnt⟩

/-- The level re-created when a cross fill is fully restored. -/
def fillLevel (flag : Bool) (f : CrossFill) : LevelEntry :=
  ⟨f.price * side_multiplier flag, f.qty, f.count⟩

theorem fillLevel_fillOf (flag : Bool) (e : LevelEntry) :
    fillLevel flag (fillOf flag e) = e := by
  simp [fillLevel, fillOf, side_mul_cancel]

theorem findLevel_eq_none {L : List LevelEntry} {c : Int}
    (h : ∀ e ∈ L, e.cprice ≠ c) : findLevel L c = none := by
  induction L with
  | nil => rfl
  | cons x rest ih =>
    rw [findLevel, if_neg (h x (by simp)), ih (fun e he => h e (by simp [he]))]
    rfl

/-- `addToLevels` inserts exactly between a strictly smaller prefix and a
strictly larger suffix. -/
theorem addToLevels_middle {P R : List LevelEntry} {c q n : Int}
    (hP : ∀ p ∈ P, p.cprice < c) (hR : ∀ r ∈ R, c < r.cprice) :
    addToLevels (P ++ R) c q n = (P ++ ⟨c, q, n⟩ :: R, P.length, true, q, n) := by
  induction P with
  | nil =>
    match R with
    | [] => rfl
    | r :: R' =>
      have := hR r (by simp)
      simp [addToLevels, this]
  | cons p P' ih =>
    have hp := hP p (by simp)
    simp only [List.cons_append, addToLevels, if_neg (by omega : ¬ c < p.cprice),
      if_neg (by omega : ¬ c = p.cprice), List.append_eq]
    rw [ih (fun x hx => hP x (by simp [hx])) ]
    simp

/-- With zero skip and positive fill quantities, `uncrossGo` distributes over
list append. -/
theorem uncrossGo_append (C1 C2 : List CrossFill) :
    ∀ (s : PriceLevels) (ds : List Delta),
    (∀ f ∈ C1, 0 < f.qty) →
    uncrossGo (C1 ++ C2) 0 0 s ds =
      match uncrossGo C1 0 0 s ds with
      | none => none
      | some r => uncrossGo C2 0 0 r.1 r.2 := by
  induction C1 with
  | nil => intro s ds _; simp [uncrossGo]
  | cons f C1' ih =>
    intro s ds hpos
    have hf : ¬ f.qty ≤ (0 : Int) := by
      have := hpos f (by simp)
      omega
    rw [List.cons_append, uncrossGo, if_neg hf, uncrossGo, if_neg hf]
    match findLevel s.levels (f.price * side_multiplier s.is_ask) with
    | some x =>
      match add_liquidity s f.price (f.qty - 0) 0 with
      | none => rfl
      | some r => exact ih r.1 (ds ++ r.2) (fun g hg => hpos g (by simp [hg]))
    | none =>
      match add_liquidity s f.price (f.qty - 0) (f.count - 0) with
      | none => rfl
      | some r => exact ih r.1 (ds ++ r.2) (fun g hg => hpos g (by simp [hg]))

/-- Full restore: `uncrossGo` with zero skip re-creates the fully consumed
levels `C` between a better prefix `P` and a worse suffix `R`. -/
theorem uncrossGo_restore (C : List CrossFill) :
    ∀ (P R : List LevelEntry) (s : PriceLevels) (ds0 : List Delta),
    s.levels = P ++ R →
    (∀ f ∈ C, 0 < f.qty) →
    (∀ p ∈ P, ∀ f ∈ C, p.cprice < f.price * side_multiplier s.is_ask) →
    (∀ f ∈ C, ∀ r ∈ R, f.price * side_multiplier s.is_ask < r.cprice) →
    C.Pairwise (fun f g =>
      f.price * side_multiplier s.is_ask < g.price * side_multiplier s.is_ask) →
    ∃ t ds', uncrossGo C 0 0 s ds0 = some (t, ds') ∧
      t.levels = P ++ C.map (fillLevel s.is_ask) ++ R ∧
      t.is_ask = s.is_ask ∧
      t.pending_cross_fill_qty = s.pending_cross_fill_qty ∧
      t.pending_cross_fill_count = s.pending_cross_fill_count ∧
      t.cross_fills = s.cross_fills := by
  induction C with
  | nil =>
    intro P R s ds0 hlev _ _ _ _
    exact ⟨s, ds0, rfl, by simp [hlev], rfl, rfl, rfl, rfl⟩
  | cons f C' ih =>
    intro P R s ds0 hlev hpos hPC hCR hsort
    have hf : ¬ f.qty ≤ (0 : Int) := by
      have := hpos f (by simp)
      omega
    rw [uncrossGo, if_neg hf]
    have hnone : findLevel s.levels (f.price * side_multiplier s.is_ask) = none := by
      apply findLevel_eq_none
      intro e he
      rw [hlev] at he
      rcases List.mem_append.mp he with h1 | h1
      · have := hPC e h1 f (by simp)
        omega
      · have := hCR f (by simp) e h1
        omega
    rw [hnone]
    have hmid := addToLevels_middle (P := P) (R := R)
      (c := f.price * side_multiplier s.is_ask) (q := f.qty - 0) (n := f.count - 0)
      (fun p hp => hPC p hp f (by simp)) (fun r hr => hCR f (by simp) r hr)
    have hadd : add_liquidity s f.price (f.qty - 0) (f.count - 0)
        = some ({ s with levels := P ++ ⟨f.price * side_multiplier s.is_ask,
            f.qty - 0, f.count - 0⟩ :: R },
          emit_insert s.is_ask P.length true f.price (f.qty - 0) (f.count - 0)) := by
      have hq0 : ¬ (f.qty - 0 < 0) := by
        have := hpos f (by simp)
        omega
      rw [add_liquidity, if_neg hq0]
      simp only [hlev, hmid, if_true]
    rw [hadd]
    have hlev2 : ({ s with levels := P ++ ⟨f.price * side_multiplier s.is_ask,
        f.qty - 0, f.count - 0⟩ :: R } : PriceLevels).levels
        = (P ++ [fillLevel s.is_ask f]) ++ R := by
      simp [fillLevel]
    obtain ⟨t, ds', hgo, hl, hia, hq, hc, hcf⟩ := ih (P ++ [fillLevel s.is_ask f]) R
      _ _ hlev2 (fun g hg => hpos g (by simp [hg]))
      (by
        intro p hp g hg
        rcases List.mem_append.mp hp with h1 | h1
        · exact hPC p h1 g (by simp [hg])
        · rw [List.mem_singleton] at h1
          subst h1
          rw [List.pairwise_cons] at hsort
          exact hsort.1 g hg)
      (fun g hg r hr => hCR g (by simp [hg]) r hr)
      ((List.pairwise_cons.mp hsort).2)
    refine ⟨t, ds', hgo, ?_, hia, hq, hc, hcf⟩
    rw [hl]
    simp

theorem findLevel_middle {P R : List LevelEntry} {v : LevelEntry} {c : Int}
    (hP : ∀ p ∈ P, p.cprice ≠ c) (hv : v.cprice = c) :
    findLevel (P ++ v :: R) c = some (P.length, v) := by
  induction P with
  | nil => simp [findLevel, hv]
  | cons p P' ih =>
    rw [List.cons_append, findLevel, if_neg (hP p (by simp)),
      ih (fun x hx => hP x (by simp [hx]))]
    rfl

theorem addToLevels_update_middle {P R : List LevelEntry} {v : LevelEntry}
    {c q n : Int} (hP : ∀ p ∈ P, p.cprice < c) (hv : v.cprice = c) :
    addToLevels (P ++ v :: R) c q n =
      (P ++ ⟨v.cprice, v.aqty + q, v.cnt + n⟩ :: R, P.length, false,
        v.aqty + q, v.cnt + n) := by
  induction P with
  | nil =>
    simp only [List.nil_append, addToLevels, if_neg (by omega : ¬ c < v.cprice),
      if_pos hv.symm]
    simp
  | cons p P' ih =>
    have hp := hP p (by simp)
    simp only [List.cons_append, addToLevels, if_neg (by omega : ¬ c < p.cprice),
      if_neg (by omega : ¬ c = p.cprice), List.append_eq]
    rw [ih (fun x hx => hP x (by simp [hx]))]
    simp

/-- Partial restore: re-adding the partially consumed head portion returns
the level to its original state. -/
theorem uncrossGo_restore_partial {P R : List LevelEntry} {e : LevelEntry}
    {x : Int} (s : PriceLevels) (ds0 : List Delta)
    (hlev : s.levels = P ++ ⟨e.cprice, e.aqty - x, e.cnt⟩ :: R)
    (hx : 0 < x)
    (hP : ∀ p ∈ P, p.cprice < e.cprice) :
    ∃ t ds', uncrossGo [⟨e.cprice * side_multiplier s.is_ask, x, e.cnt⟩] 0 0 s ds0
        = some (t, ds') ∧
      t.levels = P ++ e :: R ∧
      t.is_ask = s.is_ask ∧
      t.pending_cross_fill_qty = s.pending_cross_fill_qty ∧
      t.pending_cross_fill_count = s.pending_cross_fill_count ∧
      t.cross_fills = s.cross_fills := by
  rw [uncrossGo, if_neg (by simp; omega)]
  have hcanon : (e.cprice * side_multiplier s.is_ask) * side_multiplier s.is_ask
      = e.cprice := side_mul_cancel _ _
  simp only [hcanon, hlev]
  rw [findLevel_middle (v := ⟨e.cprice, e.aqty - x, e.cnt⟩)
    (fun p hp => by have := hP p hp; simp; omega) rfl]
  have hmid := addToLevels_update_middle (P := P) (R := R)
    (v := ⟨e.cprice, e.aqty - x, e.cnt⟩) (c := e.cprice) (q := x - 0) (n := 0)
    hP rfl
  have hadd : add_liquidity s (e.cprice * side_multiplier s.is_ask) (x - 0) 0
      = some ({ s with levels := P ++ ⟨e.cprice, e.aqty - x + (x - 0),
          e.cnt + 0⟩ :: R },
        emit_update s.is_ask P.length (x - 0) 0) := by
    rw [add_liquidity, if_neg (by omega)]
    simp only [hcanon, hlev, hmid]
    rfl
  rw [hadd]
  refine ⟨_, _, rfl, ?_, rfl, rfl, rfl, rfl⟩
  show P ++ ⟨e.cprice, e.aqty - x + (x - 0), e.cnt + 0⟩ :: R = P ++ e :: R
  have : (⟨e.cprice, e.aqty - x + (x - 0), e.cnt + 0⟩ : LevelEntry) = e := by
    cases e
    simp only [LevelEntry.mk.injEq]
    refine ⟨trivial, by omega, by omega⟩
  rw [this]

theorem crossLoop_nonpos (aggP : Int) (fuel : Nat) (s : PriceLevels)
    (rem con : Int) (ds0 : List Delta) (hrem : ¬ 0 < rem) :
    crossLoop aggP fuel s rem con ds0 = (s, con, ds0) := by
  cases fuel with
  | zero => rfl
  | succ fuel => rw [crossLoop, if_neg hrem]

theorem best_price_cons {s : PriceLevels} {e : LevelEntry} {tail : List LevelEntry}
    (hL : s.levels = e :: tail) :
    best_price s = e.cprice * side_multiplier s.is_ask := by
  simp only [best_price, hL]

theorem remove_head_full {s : PriceLevels} {e : LevelEntry} {tail : List LevelEntry}
    (hL : s.levels = e :: tail) (hq : 0 < e.aqty) :
    (remove_liquidity s (e.cprice * side_multiplier s.is_ask) e.aqty 0).1
      = { s with levels := tail } := by
  have hdel : e.aqty - e.aqty ≤ (0 : Int) := by omega
  rw [remove_liquidity, if_neg (by omega : ¬ (e.aqty = 0 ∧ (0 : Int) = 0))]
  rw [side_mul_cancel]
  rw [hL, findLevel, if_pos rfl]
  simp [hdel, hL]

theorem remove_head_partial {s : PriceLevels} {e : LevelEntry}
    {tail : List LevelEntry} {x : Int} (hL : s.levels = e :: tail)
    (hx : 0 < x) (hlt : x < e.aqty) :
    (remove_liquidity s (e.cprice * side_multiplier s.is_ask) x 0).1
      = { s with levels := ⟨e.cprice, e.aqty - x, e.cnt⟩ :: tail } := by
  have hkeep : ¬ (e.aqty - x ≤ (0 : Int)) := by omega
  rw [remove_liquidity, if_neg (by omega : ¬ (x = 0 ∧ (0 : Int) = 0))]
  rw [side_mul_cancel]
  rw [hL, findLevel, if_pos rfl]
  simp [hkeep, hL]

/-- Structural characterisation of the `cross` loop on a positive book:
either it fully consumes the best `k` levels, or it fully consumes `k` levels
and then partially consumes level `k` by `x`. -/
theorem crossLoop_char (aggP : Int) :
    ∀ (fuel : Nat) (s : PriceLevels) (rem con : Int) (ds0 : List Delta),
    PosLevels s.levels → s.levels.length < fuel →
    (∃ k, k ≤ s.levels.length ∧
      (crossLoop aggP fuel s rem con ds0).1 =
        { s with
          levels := s.levels.drop k
          cross_fills := s.cross_fills ++ (s.levels.take k).map (fillOf s.is_ask)
          pending_cross_fill_count := s.pending_cross_fill_count +
            ((s.levels.take k).map (·.cnt)).sum } ∧
      (crossLoop aggP fuel s rem con ds0).2.1 =
        con + ((s.levels.take k).map (·.aqty)).sum) ∨
    (∃ k x e, s.levels[k]? = some e ∧ 0 < x ∧ x < e.aqty ∧
      (crossLoop aggP fuel s rem con ds0).1 =
        { s with
          levels := ⟨e.cprice, e.aqty - x, e.cnt⟩ :: s.levels.drop (k + 1)
          cross_fills := s.cross_fills ++ (s.levels.take k).map (fillOf s.is_ask)
            ++ [⟨e.cprice * side_multiplier s.is_ask, x, e.cnt⟩]
          pending_cross_fill_count := s.pending_cross_fill_count +
            ((s.levels.take k).map (·.cnt)).sum + e.cnt } ∧
      (crossLoop aggP fuel s rem con ds0).2.1 =
        con + ((s.levels.take k).map (·.aqty)).sum + x) := by
  intro fuel
  induction fuel with
  | zero =>
    intro s rem con ds0 _ hlen
    omega
  | succ fuel ih =>
    intro s rem con ds0 hpos hlen
    by_cases hrem : 0 < rem
    · match hL : s.levels with
      | [] =>
        have hexit : crossLoop aggP (fuel + 1) s rem con ds0 = (s, con, ds0) := by
          rw [crossLoop, if_pos hrem]
          simp only [hL]
        refine Or.inl ⟨0, by omega, ?_, ?_⟩ <;>
          (rw [hexit]
           simp only [List.drop_zero, List.take_zero, List.map_nil,
             List.append_nil, List.sum_nil, add_zero]
           try rw [← hL]
           try rfl)
      | e :: tail =>
        have hbestval : best_price s = e.cprice * side_multiplier s.is_ask :=
          best_price_cons hL
        have hepos : 0 < e.aqty := hpos e (by rw [hL]; simp)
        by_cases hbest : best_price s = 0
        · have hexit : crossLoop aggP (fuel + 1) s rem con ds0 = (s, con, ds0) := by
            rw [crossLoop, if_pos hrem]
            simp only [hL]
            rw [if_pos hbest]
          refine Or.inl ⟨0, by omega, ?_, ?_⟩ <;>
          (rw [hexit]
           simp only [List.drop_zero, List.take_zero, List.map_nil,
             List.append_nil, List.sum_nil, add_zero]
           try rw [← hL]
           try rfl)
        · by_cases hcross : (if s.is_ask then best_price s ≤ aggP
              else aggP ≤ best_price s)
          · by_cases hfull : e.aqty ≤ rem
            · -- full consumption of the best level, then recurse
              have hmin : min rem e.aqty = e.aqty := min_eq_right hfull
              have hres : crossLoop aggP (fuel + 1) s rem con ds0
                  = crossLoop aggP fuel
                      (remove_liquidity (crossReserve s rem e) (best_price s)
                        e.aqty 0).1
                      (rem - e.aqty) (con + e.aqty)
                      (ds0 ++ (remove_liquidity (crossReserve s rem e)
                        (best_price s) e.aqty 0).2) := by
                conv_lhs => rw [crossLoop]
                rw [if_pos hrem]
                simp only [hL]
                rw [if_neg hbest, if_pos hcross]
                simp only [hmin]
              have hrm : (remove_liquidity (crossReserve s rem e) (best_price s)
                  e.aqty 0).1 = { s with
                    levels := tail
                    cross_fills := s.cross_fills ++ [fillOf s.is_ask e]
                    pending_cross_fill_count :=
                      s.pending_cross_fill_count + e.cnt } := by
                have hL2 : (crossReserve s rem e).levels = e :: tail := hL
                have := remove_head_full (s := crossReserve s rem e) hL2 hepos
                rw [hbestval]
                rw [show (crossReserve s rem e).is_ask = s.is_ask from rfl] at this
                rw [this]
                unfold crossReserve
                simp only [hbestval, hmin, fillOf]
              rw [hres, hrm]
              have hposT : PosLevels tail := by
                intro a ha
                exact hpos a (by rw [hL]; simp [ha])
              have hlenT : tail.length < fuel := by
                rw [hL] at hlen
                simp at hlen
                omega
              rcases ih { s with
                  levels := tail
                  cross_fills := s.cross_fills ++ [fillOf s.is_ask e]
                  pending_cross_fill_count := s.pending_cross_fill_count + e.cnt }
                (rem - e.aqty) (con + e.aqty)
                (ds0 ++ (remove_liquidity (crossReserve s rem e) (best_price s)
                  e.aqty 0).2) hposT hlenT with
                ⟨k, hk, hrec, hcon⟩ | ⟨k, x, e', hget, hx, hxe, hrec, hcon⟩
              · refine Or.inl ⟨k + 1, by
                  have hk2 : k ≤ tail.length := hk
                  simp
                  omega, ?_, ?_⟩
                · rw [hrec]
                  simp only [List.drop_succ_cons, List.take_succ_cons,
                    List.map_cons, List.sum_cons, PriceLevels.mk.injEq, fillOf,
                    List.append_assoc, List.cons_append, List.singleton_append]
                  and_intros <;> first | trivial | omega | simp
                · rw [hcon]
                  simp only [List.take_succ_cons, List.map_cons,
                    List.sum_cons]
                  omega
              · refine Or.inr ⟨k + 1, x, e', by simpa using hget,
                  hx, hxe, ?_, ?_⟩
                · rw [hrec]
                  simp only [List.drop_succ_cons, List.take_succ_cons,
                    List.map_cons, List.sum_cons, PriceLevels.mk.injEq, fillOf,
                    List.append_assoc, List.cons_append, List.singleton_append]
                  and_intros <;> first | trivial | omega | simp
                · rw [hcon]
                  simp only [List.take_succ_cons, List.map_cons,
                    List.sum_cons]
                  omega
            · -- partial consumption of the best level, loop exits
              have hmin : min rem e.aqty = rem := min_eq_left (by omega)
              have hres : crossLoop aggP (fuel + 1) s rem con ds0
                  = crossLoop aggP fuel
                      (remove_liquidity (crossReserve s rem e) (best_price s)
                        rem 0).1
                      (rem - rem) (con + rem)
                      (ds0 ++ (remove_liquidity (crossReserve s rem e)
                        (best_price s) rem 0).2) := by
                conv_lhs => rw [crossLoop]
                rw [if_pos hrem]
                simp only [hL]
                rw [if_neg hbest, if_pos hcross]
                simp only [hmin]
              have hrm : (remove_liquidity (crossReserve s rem e) (best_price s)
                  rem 0).1 = { s with
                    levels := ⟨e.cprice, e.aqty - rem, e.cnt⟩ :: tail
                    cross_fills := s.cross_fills ++
                      [⟨e.cprice * side_multiplier s.is_ask, rem, e.cnt⟩]
                    pending_cross_fill_count :=
                      s.pending_cross_fill_count + e.cnt } := by
                have hL2 : (crossReserve s rem e).levels = e :: tail := hL
                have := remove_head_partial (s := crossReserve s rem e) hL2 hrem
                  (by omega)
                rw [hbestval]
                rw [show (crossReserve s rem e).is_ask = s.is_ask from rfl] at this
                rw [this]
                unfold crossReserve
                simp only [hbestval, hmin]
              rw [hres, hrm, crossLoop_nonpos _ _ _ _ _ _ (by omega)]
              refine Or.inr ⟨0, rem, e, by simp, hrem, by omega, ?_, ?_⟩
              · simp
              · simp
          · have hexit : crossLoop aggP (fuel + 1) s rem con ds0
                = (s, con, ds0) := by
              rw [crossLoop, if_pos hrem]
              simp only [hL]
              rw [if_neg hbest, if_neg hcross]
            refine Or.inl ⟨0, by omega, ?_, ?_⟩ <;>
          (rw [hexit]
           simp only [List.drop_zero, List.take_zero, List.map_nil,
             List.append_nil, List.sum_nil, add_zero]
           try rw [← hL]
           try rfl)
    · refine Or.inl ⟨0, by omega, ?_, ?_⟩ <;>
        (rw [crossLoop_nonpos _ _ _ _ _ _ hrem]
         simp only [List.drop_zero, List.take_zero, List.map_nil,
           List.append_nil, List.sum_nil, add_zero]
         try rfl)

theorem side_mul_sq (f : Bool) :
    side_multiplier f * side_multiplier f = 1 := by
  cases f <;> rfl

theorem crossLoop_uncross_aux (aggP aggQ : Int) (fuel : Nat) (s0 : PriceLevels)
    (hpos : PosLevels s0.levels) (hsort : SortedLevels s0.levels)
    (hfuel : s0.levels.length < fuel)
    (hcf : s0.cross_fills = []) (hpq : s0.pending_cross_fill_qty = 0)
    (hpc : s0.pending_cross_fill_count = 0) :
    ∃ t ds, uncross (crossFinish (crossLoop aggP fuel s0 aggQ 0 [])).1
        = some (t, ds) ∧
      t.levels = s0.levels ∧ t.is_ask = s0.is_ask ∧
      t.pending_cross_fill_qty = 0 ∧ t.pending_cross_fill_count = 0 ∧
      t.cross_fills = [] := by
  have hsort2 := hsort
  rcases crossLoop_char aggP fuel s0 aggQ 0 [] hpos hfuel with
    ⟨k, hk, hstate, hcon⟩ | ⟨k, x, e, hget, hx0, hxe, hstate, hcon⟩
  · -- full consumption of the best k levels
    rw [← List.take_append_drop k s0.levels] at hsort2
    have hcross := (List.pairwise_append.mp hsort2).2.2
    have hsortTake := (List.pairwise_append.mp hsort2).1
    have hF : (crossFinish (crossLoop aggP fuel s0 aggQ 0 [])).1 =
        { s0 with
          levels := s0.levels.drop k
          cross_fills := (s0.levels.take k).map (fillOf s0.is_ask)
          pending_cross_fill_qty := ((s0.levels.take k).map (·.aqty)).sum
          pending_cross_fill_count := ((s0.levels.take k).map (·.cnt)).sum } := by
      rw [crossFinish, hstate, hcon]
      simp [hcf, hpq, hpc]
    have hqsum :
        (((crossFinish (crossLoop aggP fuel s0 aggQ 0 [])).1.cross_fills.map
            (·.qty)).sum
          - (crossFinish (crossLoop aggP fuel s0 aggQ 0 [])).1.pending_cross_fill_qty)
          = 0 := by
      rw [hF]
      simp only [List.map_map, Function.comp_def, fillOf, List.map_append,
        List.sum_append, List.map_cons, List.sum_cons, List.map_nil,
        List.sum_nil]
      omega
    have hcsum :
        (((crossFinish (crossLoop aggP fuel s0 aggQ 0 [])).1.cross_fills.map
            (·.count)).sum
          - (crossFinish (crossLoop aggP fuel s0 aggQ 0 [])).1.pending_cross_fill_count)
          = 0 := by
      rw [hF]
      simp only [List.map_map, Function.comp_def, fillOf, List.map_append,
        List.sum_append, List.map_cons, List.sum_cons, List.map_nil,
        List.sum_nil]
      omega
    have hFcf : (crossFinish (crossLoop aggP fuel s0 aggQ 0 [])).1.cross_fills
        = (s0.levels.take k).map (fillOf s0.is_ask) := by rw [hF]
    have hFia : (crossFinish (crossLoop aggP fuel s0 aggQ 0 [])).1.is_ask
        = s0.is_ask := by rw [hF]
    have hFlev : (crossFinish (crossLoop aggP fuel s0 aggQ 0 [])).1.levels
        = [] ++ s0.levels.drop k := by rw [hF]; rfl
    obtain ⟨t0, ds', hgo, hlev', hia', _, _, _⟩ := uncrossGo_restore
      ((s0.levels.take k).map (fillOf s0.is_ask)) [] (s0.levels.drop k)
      (crossFinish (crossLoop aggP fuel s0 aggQ 0 [])).1 [] hFlev
      (by
        intro f hf
        obtain ⟨a, ha, rfl⟩ := List.mem_map.mp hf
        simpa [fillOf] using hpos a (List.mem_of_mem_take ha))
      (by intro p hp; simp at hp)
      (by
        intro f hf r hr
        obtain ⟨a, ha, rfl⟩ := List.mem_map.mp hf
        rw [hFia]
        simpa [fillOf, mul_assoc, side_mul_sq] using hcross a ha r hr)
      (by
        rw [hFia, List.pairwise_map]
        exact hsortTake.imp (by
          intro a b h
          simpa [fillOf, mul_assoc, side_mul_sq] using h))
    have hscrut : uncrossGo
        (crossFinish (crossLoop aggP fuel s0 aggQ 0 [])).1.cross_fills 0 0
        (crossFinish (crossLoop aggP fuel s0 aggQ 0 [])).1 [] = some (t0, ds') := by
      rw [hFcf]; exact hgo
    rw [uncross, hqsum, hcsum, hscrut]
    refine ⟨_, ds', rfl, ?_, ?_, rfl, rfl, rfl⟩
    · show t0.levels = s0.levels
      rw [hlev', hFia]
      simp [List.map_map, Function.comp_def, fillLevel_fillOf,
        List.take_append_drop]
    · show t0.is_ask = s0.is_ask
      rw [hia', hFia]
  · -- k full levels plus a partial fill x at level k
    have hklen : k < s0.levels.length := by
      by_contra hge
      rw [List.getElem?_eq_none (by omega)] at hget
      cases hget
    have hdropk : s0.levels.drop k = e :: s0.levels.drop (k + 1) := by
      rw [List.drop_eq_getElem_cons hklen]
      have : s0.levels[k] = e := by
        have := List.getElem?_eq_getElem hklen
        rw [hget] at this
        exact (Option.some.injEq _ _ ▸ this).symm
      rw [this]
    rw [← List.take_append_drop k s0.levels] at hsort2
    have hcross := (List.pairwise_append.mp hsort2).2.2
    have hsortTake := (List.pairwise_append.mp hsort2).1
    have hTakeE : ∀ a ∈ s0.levels.take k, a.cprice < e.cprice := by
      intro a ha
      exact hcross a ha e (by rw [hdropk]; simp)
    have hTakeDrop : ∀ a ∈ s0.levels.take k, ∀ b ∈ s0.levels.drop (k + 1),
        a.cprice < b.cprice := by
      intro a ha b hb
      exact hcross a ha b (by rw [hdropk]; simp [hb])
    have hF : (crossFinish (crossLoop aggP fuel s0 aggQ 0 [])).1 =
        { s0 with
          levels := ⟨e.cprice, e.aqty - x, e.cnt⟩ :: s0.levels.drop (k + 1)
          cross_fills := (s0.levels.take k).map (fillOf s0.is_ask)
            ++ [⟨e.cprice * side_multiplier s0.is_ask, x, e.cnt⟩]
          pending_cross_fill_qty := ((s0.levels.take k).map (·.aqty)).sum + x
          pending_cross_fill_count := ((s0.levels.take k).map (·.cnt)).sum + e.cnt } := by
      rw [crossFinish, hstate, hcon]
      simp [hcf, hpq, hpc]
    have hqsum :
        (((crossFinish (crossLoop aggP fuel s0 aggQ 0 [])).1.cross_fills.map
            (·.qty)).sum
          - (crossFinish (crossLoop aggP fuel s0 aggQ 0 [])).1.pending_cross_fill_qty)
          = 0 := by
      rw [hF]
      simp only [List.map_map, Function.comp_def, fillOf, List.map_append,
        List.sum_append, List.map_cons, List.sum_cons, List.map_nil,
        List.sum_nil]
      omega
    have hcsum :
        (((crossFinish (crossLoop aggP fuel s0 aggQ 0 [])).1.cross_fills.map
            (·.count)).sum
          - (crossFinish (crossLoop aggP fuel s0 aggQ 0 [])).1.pending_cross_fill_count)
          = 0 := by
      rw [hF]
      simp only [List.map_map, Function.comp_def, fillOf, List.map_append,
        List.sum_append, List.map_cons, List.sum_cons, List.map_nil,
        List.sum_nil]
      omega
    have hFcf : (crossFinish (crossLoop aggP fuel s0 aggQ 0 [])).1.cross_fills
        = (s0.levels.take k).map (fillOf s0.is_ask)
          ++ [⟨e.cprice * side_multiplier s0.is_ask, x, e.cnt⟩] := by rw [hF]
    have hFia : (crossFinish (crossLoop aggP fuel s0 aggQ 0 [])).1.is_ask
        = s0.is_ask := by rw [hF]
    have hFlev : (crossFinish (crossLoop aggP fuel s0 aggQ 0 [])).1.levels
        = [] ++ ⟨e.cprice, e.aqty - x, e.cnt⟩ :: s0.levels.drop (k + 1) := by
      rw [hF]; rfl
    obtain ⟨t1, ds1, hgo1, hlev1, hia1, _, _, _⟩ := uncrossGo_restore
      ((s0.levels.take k).map (fillOf s0.is_ask)) []
      (⟨e.cprice, e.aqty - x, e.cnt⟩ :: s0.levels.drop (k + 1))
      (crossFinish (crossLoop aggP fuel s0 aggQ 0 [])).1 [] hFlev
      (by
        intro f hf
        obtain ⟨a, ha, rfl⟩ := List.mem_map.mp hf
        simpa [fillOf] using hpos a (List.mem_of_mem_take ha))
      (by intro p hp; simp at hp)
      (by
        intro f hf r hr
        obtain ⟨a, ha, rfl⟩ := List.mem_map.mp hf
        rw [hFia]
        rcases List.mem_cons.mp hr with h1 | h1
        · subst h1
          simpa [fillOf, mul_assoc, side_mul_sq] using hTakeE a ha
        · simpa [fillOf, mul_assoc, side_mul_sq] using hTakeDrop a ha r h1)
      (by
        rw [hFia, List.pairwise_map]
        exact hsortTake.imp (by
          intro a b h
          simpa [fillOf, mul_assoc, side_mul_sq] using h))
    have hlev1' : t1.levels = s0.levels.take k
        ++ ⟨e.cprice, e.aqty - x, e.cnt⟩ :: s0.levels.drop (k + 1) := by
      rw [hlev1, hFia]
      simp [List.map_map, Function.comp_def, fillLevel_fillOf,
        List.take_append_drop]
    obtain ⟨t2, ds2, hgo2, hlev2, hia2, _, _, _⟩ := uncrossGo_restore_partial
      (P := s0.levels.take k) (R := s0.levels.drop (k + 1)) (e := e) (x := x)
      t1 ds1 hlev1' hx0 hTakeE
    rw [hia1, hFia] at hgo2
    have hscrut : uncrossGo
        (crossFinish (crossLoop aggP fuel s0 aggQ 0 [])).1.cross_fills 0 0
        (crossFinish (crossLoop aggP fuel s0 aggQ 0 [])).1 [] = some (t2, ds2) := by
      rw [hFcf, uncrossGo_append _ _ _ _
        (by
          intro f hf
          obtain ⟨a, ha, rfl⟩ := List.mem_map.mp hf
          simpa [fillOf] using hpos a (List.mem_of_mem_take ha)),
        hgo1]
      exact hgo2
    rw [uncross, hqsum, hcsum, hscrut]
    refine ⟨_, ds2, rfl, ?_, ?_, rfl, rfl, rfl⟩
    · show t2.levels = s0.levels
      rw [hlev2, ← hdropk, List.take_append_drop]
    · show t2.is_ask = s0.is_ask
      rw [hia2, hia1, hFia]

/-- C2: crossing a side with a positive, sorted book and no pending cross,
then uncrossing with no confirmed trades in between, restores the side's
level list exactly (same prices, aggregate quantities and order counts) and
leaves the pending totals and fills log clear. -/
theorem cross_then_uncross_restores (s : PriceLevels) (aggP aggQ : Int)
    (hpos : PosLevels s.levels) (hsort : SortedLevels s.levels)
    (hpend : s.pending_cross_fill_qty = 0) :
    ∃ t ds, uncross (cross true s aggP aggQ).1 = some (t, ds) ∧
      t.levels = s.levels ∧ t.is_ask = s.is_ask ∧
      t.pending_cross_fill_qty = 0 ∧ t.pending_cross_fill_count = 0 ∧
      t.cross_fills = [] := by
  have hinit : crossInit s
      = { s with cross_fills := [], pending_cross_fill_count := 0 } := by
    rw [crossInit, if_pos hpend]
  rw [cross, if_pos rfl, hinit]
  exact crossLoop_uncross_aux aggP aggQ _ _ hpos hsort (Nat.lt_succ_self _)
    rfl hpend rfl

theorem cross_then_uncross_restores_witness :
    ∃ t ds,
      uncross (cross true ⟨true, [⟨10, 5, 2⟩, ⟨12, 3, 1⟩], 0, 0, []⟩ 11 4).1
        = some (t, ds) ∧
      t.levels = [⟨10, 5, 2⟩, ⟨12, 3, 1⟩] ∧ t.is_ask = true ∧
      t.pending_cross_fill_qty = 0 ∧ t.pending_cross_fill_count = 0 ∧
      t.cross_fills = [] :=
  cross_then_uncross_restores ⟨true, [⟨10, 5, 2⟩, ⟨12, 3, 1⟩], 0, 0, []⟩ 11 4
    (by unfold PosLevels; decide) (by unfold SortedLevels; decide) rfl

/-- A 21-level ask book used to exercise the refill path concretely. -/
def refillBook : PriceLevels :=
  ⟨true, (List.range 21).map (fun i => ⟨(i : Int) + 1, 1, 1⟩), 0, 0, []⟩

/-- C6: an erasing `remove_liquidity` emits a refill Insert (shift = false,
index 19) iff the erased index was below 20 and at least 21 levels existed
before the erasure; the refill carries the 21st-best level's price (decoded),
aggregate qty and count. -/
theorem remove_liquidity_refill (s : PriceLevels) (p qty cd : Int)
    (idx : Nat) (e : LevelEntry)
    (hne : ¬ (qty = 0 ∧ cd = 0))
    (hfind : findLevel s.levels (p * side_multiplier s.is_ask) = some (idx, e))
    (herase : e.aqty - qty ≤ 0) :
    ((idx < 20 ∧ 21 ≤ s.levels.length) →
      ∃ r, s.levels[20]? = some r ∧
        (remove_liquidity s p qty cd).2
          = emit_update s.is_ask idx (-qty) (-cd)
            ++ [.insert s.is_ask 19 false
                (r.cprice * side_multiplier s.is_ask) r.aqty r.cnt]) ∧
    (¬ (idx < 20 ∧ 21 ≤ s.levels.length) →
      (remove_liquidity s p qty cd).2
        = emit_update s.is_ask idx (-qty) (-cd)) := by
  have hidx := (findLevel_some _ _ _ _ hfind).1
  have hidxlt : idx < s.levels.length := by
    by_contra hge
    rw [List.getElem?_eq_none (by omega)] at hidx
    cases hidx
  have hlen : (s.levels.eraseIdx idx).length = s.levels.length - 1 :=
    List.length_eraseIdx_of_lt hidxlt
  constructor
  · rintro ⟨h20, h21⟩
    have h20lt : 20 < s.levels.length := by omega
    refine ⟨s.levels[20], List.getElem?_eq_getElem h20lt, ?_⟩
    rw [remove_liquidity, if_neg hne]
    simp only [hfind]
    rw [if_pos herase]
    have hcond : idx < 20 ∧ 20 ≤ (s.levels.eraseIdx idx).length :=
      ⟨h20, by omega⟩
    rw [if_pos hcond]
    have h19 : (s.levels.eraseIdx idx)[19]? = s.levels[20]? :=
      List.getElem?_eraseIdx_of_ge _ _ _ (by omega)
    rw [h19, List.getElem?_eq_getElem h20lt]
    simp [emit_insert, topDepth]
  · intro hnot
    rw [remove_liquidity, if_neg hne]
    simp only [hfind]
    rw [if_pos herase]
    have hcond : ¬ (idx < 20 ∧ 20 ≤ (s.levels.eraseIdx idx).length) := by
      rintro ⟨a, b⟩
      exact hnot ⟨a, by omega⟩
    rw [if_neg hcond]
    simp

theorem remove_liquidity_refill_witness :
    ((0 < 20 ∧ 21 ≤ refillBook.levels.length) →
      ∃ r, refillBook.levels[20]? = some r ∧
        (remove_liquidity refillBook 1 1 1).2
          = emit_update refillBook.is_ask 0 (-1) (-1)
            ++ [.insert refillBook.is_ask 19 false
                (r.cprice * side_multiplier refillBook.is_ask) r.aqty r.cnt]) ∧
    (¬ (0 < 20 ∧ 21 ≤ refillBook.levels.length) →
      (remove_liquidity refillBook 1 1 1).2
        = emit_update refillBook.is_ask 0 (-1) (-1)) :=
  remove_liquidity_refill refillBook 1 1 1 0 ⟨1, 1, 1⟩ (by decide) (by decide)
    (by decide)

theorem emit_update_counts (f : Bool) (idx : Nat) (qd cd : Int) :
    ((emit_update f idx qd cd).filter isUpdateClass).length ≤ 1 ∧
    (emit_update f idx qd cd).filter isRefill = [] ∧
    (emit_update f idx qd cd).length ≤ 1 := by
  rw [emit_update]
  split <;> simp [isUpdateClass, isRefill]

theorem emit_insert_true_counts (f : Bool) (idx : Nat) (p q n : Int) :
    ((emit_insert f idx true p q n).filter isUpdateClass).length ≤ 1 ∧
    (emit_insert f idx true p q n).filter isRefill = [] ∧
    (emit_insert f idx true p q n).length ≤ 1 := by
  rw [emit_insert]
  split <;> simp [isUpdateClass, isRefill]

theorem emit_insert_false_counts (f : Bool) (idx : Nat) (p q n : Int) :
    (emit_insert f idx false p q n).filter isUpdateClass = [] ∧
    ((emit_insert f idx false p q n).filter isRefill).length ≤ 1 ∧
    (emit_insert f idx false p q n).length ≤ 1 := by
  rw [emit_insert]
  split <;> simp [isUpdateClass, isRefill]

/-- Per-call emission counts of `remove_liquidity`: at most one update-class
delta, at most one refill Insert, at most two deltas in total. -/
theorem remove_liquidity_counts (s : PriceLevels) (p q cd : Int) :
    (((remove_liquidity s p q cd).2).filter isUpdateClass).length ≤ 1 ∧
    (((remove_liquidity s p q cd).2).filter isRefill).length ≤ 1 ∧
    (remove_liquidity s p q cd).2.length ≤ 2 := by
  rw [remove_liquidity]
  split
  · simp
  · split
    · simp
    · rename_i idx e heq
      split
      · have hA := emit_update_counts s.is_ask idx (-q) (-cd)
        have hB :
            ((if idx < 20 ∧ 20 ≤ (s.levels.eraseIdx idx).length then
                match (s.levels.eraseIdx idx)[19]? with
                | some r => emit_insert s.is_ask 19 false
                    (r.cprice * side_multiplier s.is_ask) r.aqty r.cnt
                | none => []
              else []).filter isUpdateClass) = [] ∧
            ((if idx < 20 ∧ 20 ≤ (s.levels.eraseIdx idx).length then
                match (s.levels.eraseIdx idx)[19]? with
                | some r => emit_insert s.is_ask 19 false
                    (r.cprice * side_multiplier s.is_ask) r.aqty r.cnt
                | none => []
              else []).filter isRefill).length ≤ 1 ∧
            (if idx < 20 ∧ 20 ≤ (s.levels.eraseIdx idx).length then
                match (s.levels.eraseIdx idx)[19]? with
                | some r => emit_insert s.is_ask 19 false
                    (r.cprice * side_multiplier s.is_ask) r.aqty r.cnt
                | none => []
              else []).length ≤ 1 := by
          split
          · split
            · rename_i r _
              exact emit_insert_false_counts s.is_ask 19
                (r.cprice * side_multiplier s.is_ask) r.aqty r.cnt
            · simp
          · simp
        obtain ⟨hA1, hA2, hA3⟩ := hA
        obtain ⟨hB1, hB2, hB3⟩ := hB
        refine ⟨?_, ?_, ?_⟩ <;>
          simp only [List.filter_append, List.length_append, hA2, hB1] <;>
          first
            | (simp only [List.length_nil, List.length_append]; omega)
            | omega
      · have hA := emit_update_counts s.is_ask idx (-q) (-cd)
        refine ⟨hA.1, ?_, ?_⟩
        · show ((emit_update s.is_ask idx (-q) (-cd)).filter isRefill).length ≤ 1
          rw [hA.2.1]
          simp
        · show (emit_update s.is_ask idx (-q) (-cd)).length ≤ 2
          have := hA.2.2
          omega

/-- `crossInit` never touches the level list. -/
theorem crossInit_levels (s : PriceLevels) : (crossInit s).levels = s.levels := by
  rw [crossInit]
  split <;> rfl

/-- The delta output of the cross loop grows by at most two deltas per level
it touches. -/
theorem crossLoop_ds_len (aggP : Int) :
    ∀ (fuel : Nat) (s : PriceLevels) (rem con : Int) (ds0 : List Delta),
    PosLevels s.levels →
    (crossLoop aggP fuel s rem con ds0).2.2.length
      ≤ ds0.length + 2 * s.levels.length := by
  intro fuel
  induction fuel with
  | zero =>
    intro s rem con ds0 _
    simp [crossLoop]
  | succ fuel ih =>
    intro s rem con ds0 hpos
    by_cases hrem : 0 < rem
    · match hL : s.levels with
      | [] =>
        rw [crossLoop, if_pos hrem]
        simp only [hL]
        simp
      | e :: tail =>
        have hbestval : best_price s = e.cprice * side_multiplier s.is_ask :=
          best_price_cons hL
        have hepos : 0 < e.aqty := hpos e (by rw [hL]; simp)
        by_cases hbest : best_price s = 0
        · rw [crossLoop, if_pos hrem]
          simp only [hL]
          rw [if_pos hbest]
          simp
        · by_cases hcross : (if s.is_ask then best_price s ≤ aggP
              else aggP ≤ best_price s)
          · by_cases hfull : e.aqty ≤ rem
            · have hmin : min rem e.aqty = e.aqty := min_eq_right hfull
              have hres : crossLoop aggP (fuel + 1) s rem con ds0
                  = crossLoop aggP fuel
                      (remove_liquidity (crossReserve s rem e) (best_price s)
                        e.aqty 0).1
                      (rem - e.aqty) (con + e.aqty)
                      (ds0 ++ (remove_liquidity (crossReserve s rem e)
                        (best_price s) e.aqty 0).2) := by
                conv_lhs => rw [crossLoop]
                rw [if_pos hrem]
                simp only [hL]
                rw [if_neg hbest, if_pos hcross]
                simp only [hmin]
              have hL2 : (crossReserve s rem e).levels = e :: tail := hL
              have hrm := remove_head_full (s := crossReserve s rem e) hL2 hepos
              rw [show (crossReserve s rem e).is_ask = s.is_ask from rfl] at hrm
              rw [← hbestval] at hrm
              have hlev1 : (remove_liquidity (crossReserve s rem e)
                  (best_price s) e.aqty 0).1.levels = tail := by
                rw [hrm]
              have hposT : PosLevels (remove_liquidity (crossReserve s rem e)
                  (best_price s) e.aqty 0).1.levels := by
                rw [hlev1]
                intro a ha
                exact hpos a (by rw [hL]; simp [ha])
              have hih := ih (remove_liquidity (crossReserve s rem e)
                  (best_price s) e.aqty 0).1 (rem - e.aqty) (con + e.aqty)
                (ds0 ++ (remove_liquidity (crossReserve s rem e)
                  (best_price s) e.aqty 0).2) hposT
              rw [hlev1] at hih
              have hem := (remove_liquidity_counts (crossReserve s rem e)
                (best_price s) e.aqty 0).2.2
              rw [hres]
              refine le_trans hih ?_
              rw [List.length_append]
              simp only [List.length_cons]
              omega
            · have hmin : min rem e.aqty = rem := min_eq_left (by omega)
              have hres : crossLoop aggP (fuel + 1) s rem con ds0
                  = crossLoop aggP fuel
                      (remove_liquidity (crossReserve s rem e) (best_price s)
                        rem 0).1
                      (rem - rem) (con + rem)
                      (ds0 ++ (remove_liquidity (crossReserve s rem e)
                        (best_price s) rem 0).2) := by
                conv_lhs => rw [crossLoop]
                rw [if_pos hrem]
                simp only [hL]
                rw [if_neg hbest, if_pos hcross]
                simp only [hmin]
              rw [hres, crossLoop_nonpos _ _ _ _ _ _ (by omega)]
              have hem := (remove_liquidity_counts (crossReserve s rem e)
                (best_price s) rem 0).2.2
              simp only [List.length_append, List.length_cons]
              omega
          · rw [crossLoop, if_pos hrem]
            simp only [hL]
            rw [if_neg hbest, if_neg hcross]
            simp
    · rw [crossLoop_nonpos _ _ _ _ _ _ hrem]
      simp

/-- C4 counterexample: a single `cross` call that consumes two price levels
emits two update-class deltas, not at most one. -/
theorem cross_emits_two_update_deltas :
    (((cross true ⟨true, [⟨10, 2, 1⟩, ⟨11, 2, 1⟩], 0, 0, []⟩ 11 4).2.2).filter
      isUpdateClass).length = 2 := by
  decide

/-- C4 (amended): each `add_liquidity` call emits at most one update-class
delta and no refill; each `remove_liquidity` call emits at most one
update-class delta plus at most one refill; a `cross` call is bounded per
level touched (at most two deltas each), not per call. -/
theorem per_call_emission_bounds :
    (∀ s p q cd s' ds, add_liquidity s p q cd = some (s', ds) →
      (ds.filter isUpdateClass).length ≤ 1 ∧ ds.filter isRefill = []) ∧
    (∀ s p q cd,
      (((remove_liquidity s p q cd).2).filter isUpdateClass).length ≤ 1 ∧
      (((remove_liquidity s p q cd).2).filter isRefill).length ≤ 1) ∧
    (∀ s aggP aggQ, PosLevels s.levels →
      (cross true s aggP aggQ).2.2.length ≤ 2 * s.levels.length) := by
  refine ⟨?_, ?_, ?_⟩
  · intro s p q cd s' ds h
    simp only [add_liquidity] at h
    split at h
    · cases h
    · split at h <;>
        (simp only [Option.some.injEq, Prod.mk.injEq] at h
         obtain ⟨-, hds⟩ := h
         subst hds)
      · exact ⟨(emit_insert_true_counts _ _ _ _ _).1,
          (emit_insert_true_counts _ _ _ _ _).2.1⟩
      · exact ⟨(emit_update_counts _ _ _ _).1, (emit_update_counts _ _ _ _).2.1⟩
  · intro s p q cd
    exact ⟨(remove_liquidity_counts s p q cd).1,
      (remove_liquidity_counts s p q cd).2.1⟩
  · intro s aggP aggQ hpos
    rw [cross, if_pos rfl, crossInit_levels]
    have h := crossLoop_ds_len aggP ((crossInit s).levels.length + 1)
      (crossInit s) aggQ 0 [] (by rw [crossInit_levels]; exact hpos)
    rw [crossInit_levels] at h
    simpa [crossFinish] using h

/-- A one-bid book with one mapped order, for exercising the regular-cancel
path concretely. -/
def cancelBook : MBO :=
  ⟨⟨false, [⟨-100, 5, 1⟩], 0, 0, []⟩, PriceLevels.init true,
    [(1, ⟨false, 100, 5⟩)], 1, PendingCross.init⟩

/-- C7 counterexample: a regular cancel's X TickInfo carries is_exch = false
(the spec says the flag is true). -/
theorem cancel_regular_emits_nonexchange_tick :
    ((cancel_order false cancelBook 1).map (fun r => r.2.head?))
      = some (some (Delta.tickInfo 'X' false false 100 5 1 0)) := by
  decide

/-- C7 (amended): a regular cancel (order present, no active crossing) emits
one X TickInfo with is_exch = false carrying the order's recorded price and
qty, followed by the removal of that qty from the order's level with
count_delta 1, and erases the order from the map. -/
theorem cancel_regular (gc : Bool) (m : MBO) (oid : Int) (info : OrderInfo)
    (hfind : omFind m.order_map oid = some info)
    (hpc : m.pending_cross.is_active = false) :
    cancel_order gc m oid = some
      ({ (m.setSide info.is_ask
            (remove_liquidity (m.side info.is_ask) info.price info.qty 1).1) with
          order_map := omErase m.order_map oid },
        emit_tick_info 'X' info.is_ask false info.price info.qty oid
          ++ (remove_liquidity (m.side info.is_ask) info.price info.qty 1).2) := by
  simp only [cancel_order, hfind, hpc, Bool.false_and, Bool.false_eq_true,
    if_false]

theorem cancel_regular_witness :
    cancel_order false cancelBook 1 = some
      ({ (cancelBook.setSide false
            (remove_liquidity (cancelBook.side false) 100 5 1).1) with
          order_map := omErase cancelBook.order_map 1 },
        emit_tick_info 'X' false false 100 5 1
          ++ (remove_liquidity (cancelBook.side false) 100 5 1).2) :=
  cancel_regular false cancelBook 1 ⟨false, 100, 5⟩ rfl rfl

theorem side_setSide_same (m : MBO) (f : Bool) (s : PriceLevels) :
    (m.setSide f s).side f = s := by
  cases f <;> rfl

theorem side_setSide_other (m : MBO) (f : Bool) (s : PriceLevels) :
    (m.setSide f s).side (!f) = m.side (!f) := by
  cases f <;> rfl

theorem setSide_order_map (m : MBO) (f : Bool) (s : PriceLevels) :
    (m.setSide f s).order_map = m.order_map := by
  cases f <;> rfl

theorem setSide_pending_cross (m : MBO) (f : Bool) (s : PriceLevels) :
    (m.setSide f s).pending_cross = m.pending_cross := by
  cases f <;> rfl

theorem omFind_not_mem (om : List (Int × OrderInfo)) (k : Int)
    (h : k ∉ om.map Prod.fst) : omFind om k = none := by
  induction om with
  | nil => rfl
  | cons a rest ih =>
    rw [omFind, if_neg (by simp at h; exact fun he => h.1 he.symm)]
    exact ih (by simp at h ⊢; exact h.2)

theorem omFind_insert_ne (om : List (Int × OrderInfo)) (k k' : Int)
    (v : OrderInfo) (h : k ≠ k') :
    omFind (omInsert om k v) k' = omFind om k' := by
  induction om with
  | nil => simp [omInsert, omFind, if_neg h]
  | cons a rest ih =>
    by_cases ha : a.1 = k
    · rw [show (a : Int × OrderInfo) = (a.1, a.2) from rfl, omInsert, if_pos ha,
        omFind, omFind, if_neg (by omega : ¬ a.1 = k'), if_neg (by omega)]
    · rw [show (a : Int × OrderInfo) = (a.1, a.2) from rfl, omInsert, if_neg ha,
        omFind, omFind]
      split
      · rfl
      · exact ih

theorem omFind_erase_ne (om : List (Int × OrderInfo)) (k k' : Int)
    (h : k ≠ k') : omFind (omErase om k) k' = omFind om k' := by
  induction om with
  | nil => rfl
  | cons a rest ih =>
    by_cases ha : a.1 = k
    · rw [show (a : Int × OrderInfo) = (a.1, a.2) from rfl, omErase, if_pos ha,
        omFind, if_neg (by omega)]
    · rw [show (a : Int × OrderInfo) = (a.1, a.2) from rfl, omErase, if_neg ha,
        omFind, omFind]
      split
      · rfl
      · exact ih

theorem omInsert_keys (om : List (Int × OrderInfo)) (k : Int) (v : OrderInfo) :
    (omInsert om k v).map Prod.fst = om.map Prod.fst
      ∨ (omInsert om k v).map Prod.fst = om.map Prod.fst ++ [k] := by
  induction om with
  | nil => right; simp [omInsert]
  | cons a rest ih =>
    by_cases ha : a.1 = k
    · left
      rw [show (a : Int × OrderInfo) = (a.1, a.2) from rfl, omInsert, if_pos ha]
      simp
    · rw [show (a : Int × OrderInfo) = (a.1, a.2) from rfl, omInsert, if_neg ha]
      rcases ih with ih | ih
      · left; simp [ih]
      · right; simp [ih]

theorem omFind_erase_insert_self (om : List (Int × OrderInfo)) (k : Int)
    (v : OrderInfo) (hnd : (om.map Prod.fst).Nodup) :
    omFind (omErase (omInsert om k v) k) k = none := by
  induction om with
  | nil => simp [omInsert, omErase, omFind]
  | cons a rest ih =>
    by_cases ha : a.1 = k
    · rw [show (a : Int × OrderInfo) = (a.1, a.2) from rfl, omInsert, if_pos ha,
        omErase, if_pos ha]
      apply omFind_not_mem
      simp only [List.map_cons, List.nodup_cons] at hnd
      rw [← ha]
      exact hnd.1
    · rw [show (a : Int × OrderInfo) = (a.1, a.2) from rfl, omInsert, if_neg ha,
        omErase, if_neg ha, omFind, if_neg ha]
      exact ih (by simp only [List.map_cons, List.nodup_cons] at hnd; exact hnd.2)

theorem remove_liquidity_fields (s : PriceLevels) (p q cd : Int) :
    (remove_liquidity s p q cd).1.is_ask = s.is_ask ∧
    (remove_liquidity s p q cd).1.pending_cross_fill_qty
      = s.pending_cross_fill_qty ∧
    (remove_liquidity s p q cd).1.pending_cross_fill_count
      = s.pending_cross_fill_count ∧
    (remove_liquidity s p q cd).1.cross_fills = s.cross_fills := by
  rw [remove_liquidity]
  split
  · exact ⟨rfl, rfl, rfl, rfl⟩
  · split
    · exact ⟨rfl, rfl, rfl, rfl⟩
    · split <;> exact ⟨rfl, rfl, rfl, rfl⟩

theorem remove_liquidity_no_cc (s : PriceLevels) (p q cd : Int) :
    Delta.crossingComplete ∉ (remove_liquidity s p q cd).2 := by
  rw [remove_liquidity]
  split
  · simp
  · split
    · simp
    · rename_i idx e heq
      split
      · simp only [List.mem_append, not_or]
        constructor
        · rw [emit_update]; split <;> simp
        · split
          · split
            · rw [emit_insert]; split <;> simp
            · simp
          · simp
      · rw [emit_update]; split <;> simp

/-- The book state after `trade`'s reconcile step and both order legs, written
exactly as the handler computes it before its completion logic runs. -/
def tradePostLegs (m : MBO) (bid_id ask_id fill_qty : Int) : Option MBO :=
  let rr := reconcile_cross_fill
    (m.side (!aggSide m bid_id ask_id)) fill_qty
  let m1 := m.setSide (!aggSide m bid_id ask_id) rr.1
  match tradeLeg m1 (omLookup m bid_id) bid_id (fill_qty - rr.2) rr.2
      (aggSide m bid_id ask_id) fill_qty m.pending_cross with
  | none => none
  | some rA =>
    match tradeLeg rA.1 (omLookup m ask_id) ask_id (fill_qty - rr.2) rr.2
        (aggSide m bid_id ask_id) fill_qty m.pending_cross with
    | none => none
    | some rB => some rB.1

theorem no_cc_tick (t : Char) (a e : Bool) (p q o1 o2 : Int) :
    Delta.crossingComplete ∉ emit_tick_info t a e p q o1 o2 := by
  simp [emit_tick_info]

theorem no_cc_emit_update (f : Bool) (i : Nat) (q c : Int) :
    Delta.crossingComplete ∉ emit_update f i q c := by
  unfold emit_update
  split <;> simp

theorem no_cc_append {a b : List Delta} (ha : Delta.crossingComplete ∉ a)
    (hb : Delta.crossingComplete ∉ b) : Delta.crossingComplete ∉ a ++ b := by
  intro hmem
  rcases List.mem_append.mp hmem with hmem | hmem
  · exact ha hmem
  · exact hb hmem

/-- A trade leg only emits `remove_liquidity` deltas, never CrossingComplete. -/
theorem tradeLeg_no_cc {m : MBO} {orig : Option OrderInfo} {oid : Int}
    {remaining reconciled : Int} {agg : Bool} {fill_qty : Int}
    {pc : PendingCross} {r : MBO × List Delta}
    (h : tradeLeg m orig oid remaining reconciled agg fill_qty pc = some r) :
    Delta.crossingComplete ∉ r.2 := by
  cases orig
  · simp only [tradeLeg] at h
    cases h
    simp
  · rcases hfind : omFind m.order_map oid with _ | info
    · simp only [tradeLeg, hfind] at h
      cases h
    · simp only [tradeLeg, hfind] at h
      repeat' split at h
      all_goals cases h
      all_goals first
      | exact remove_liquidity_no_cc _ _ _ _
      | simp

def C3post : MBO := (tradePostLegs tradeBook 1 2 4).getD MBO.init

def C3res : MBO × List Delta :=
  (trade tradeBook 1 2 100 4).getD (MBO.init, [])

set_option maxHeartbeats 1600000 in
/-- C3: every trade that leaves the passive side's pending crossed qty at
zero while a modify-origin crossing is active and the aggressor order retains
no quantity ends its delta stream with an X TickInfo carrying the crossing's
original resting price and original qty, followed by a zero-delta Update at
the original affected level, and emits no CrossingComplete. -/
theorem trade_modify_completion {m : MBO} {bid_id ask_id price fill_qty : Int}
    {m' : MBO} {ds : List Delta} {mB : MBO}
    (hB : tradePostLegs m bid_id ask_id fill_qty = some mB)
    (hactive : mB.pending_cross.is_active = true)
    (hdrain : (MBO.side mB
      (!mB.pending_cross.aggressor_is_ask)).pending_cross_fill_qty = 0)
    (hnores : ∀ x, omFind mB.order_map mB.pending_cross.aggressor_id = some x →
      x.qty ≤ 0)
    (hM : mB.pending_cross.residual_tick_type = 'M')
    (h : trade m bid_id ask_id price fill_qty = some (m', ds)) :
    (∃ pre, ds = pre
        ++ emit_tick_info 'X' mB.pending_cross.aggressor_is_ask false
            mB.pending_cross.original_resting_price
            mB.pending_cross.aggressor_original_qty
            mB.pending_cross.aggressor_id 0
        ++ emit_update mB.pending_cross.aggressor_is_ask
            mB.pending_cross.original_affected_lvl 0 0) ∧
    Delta.crossingComplete ∉ ds := by
  simp only [trade] at h
  repeat' split at h
  all_goals cases h
  all_goals first
  | -- crossing inactive after the legs: contradicts hactive
    (rename_i xA rA hlegA xB rB hlegB hact hds2
     simp only [tradePostLegs, hlegA, hlegB] at hB
     cases hB
     exact absurd hactive hact)
  | -- pending qty not drained: contradicts hdrain
    (rename_i xA rA hlegA xB rB hlegB hact hfq hds2
     simp only [tradePostLegs, hlegA, hlegB] at hB
     cases hB
     exact absurd hdrain hfq)
  | -- the completion branch itself
    (rename_i xA rA hlegA xB rB hlegB hact hfq hX hds2
     simp only [tradePostLegs, hlegA, hlegB] at hB
     cases hB
     refine ⟨⟨_, rfl⟩, ?_⟩
     first
     | exact no_cc_append (no_cc_append (no_cc_append (no_cc_append
         (no_cc_append (no_cc_tick _ _ _ _ _ _ _)
           (no_cc_append (no_cc_emit_update _ _ _ _)
             (no_cc_emit_update _ _ _ _)))
         (tradeLeg_no_cc hlegA)) (tradeLeg_no_cc hlegB))
         (no_cc_tick _ _ _ _ _ _ _)) (no_cc_emit_update _ _ _ _)
     | exact no_cc_append (no_cc_append (no_cc_append (no_cc_append
         (no_cc_append (no_cc_tick _ _ _ _ _ _ _) (by simp))
         (tradeLeg_no_cc hlegA)) (tradeLeg_no_cc hlegB))
         (no_cc_tick _ _ _ _ _ _ _)) (no_cc_emit_update _ _ _ _))
  | -- residual or non-modify branch conditions: contradict hnores and hM
    (rename_i xA rA hlegA xB rB hlegB hact hfq hXneg hcc hds2
     simp only [tradePostLegs, hlegA, hlegB] at hB
     cases hB
     refine absurd ⟨?_, hM⟩ hXneg
     rw [setSide_order_map]
     rcases hx : omFind rB.1.order_map rB.1.pending_cross.aggressor_id
         with _ | x
     · simp
     · exact fun hq => absurd (of_decide_eq_true hq)
         (by have := hnores x hx; omega))

theorem trade_modify_completion_witness :
    (∃ pre, C3res.2 = pre
        ++ emit_tick_info 'X' C3post.pending_cross.aggressor_is_ask false
            C3post.pending_cross.original_resting_price
            C3post.pending_cross.aggressor_original_qty
            C3post.pending_cross.aggressor_id 0
        ++ emit_update C3post.pending_cross.aggressor_is_ask
            C3post.pending_cross.original_affected_lvl 0 0) ∧
    Delta.crossingComplete ∉ C3res.2 :=
  @trade_modify_completion tradeBook 1 2 100 4 C3res.1 C3res.2 C3post rfl
    (by decide) (by decide)
    (by intro x hx
        rw [show omFind C3post.order_map C3post.pending_cross.aggressor_id
          = none from rfl] at hx
        cases hx)
    (by decide) rfl

theorem IdxOk_tick (t : Char) (a e : Bool) (p q o1 o2 : Int) :
    IdxOk (emit_tick_info t a e p q o1 o2) := by
  intro d hd
  simp [emit_tick_info] at hd
  subst hd
  trivial

theorem IdxOk_cc : IdxOk emit_crossing_complete := by
  intro d hd
  simp [emit_crossing_complete] at hd
  subst hd
  trivial

theorem IdxOk_add {s : PriceLevels} {p q cd : Int} {s' : PriceLevels}
    {ds : List Delta} (h : add_liquidity s p q cd = some (s', ds)) :
    IdxOk ds := by
  simp only [add_liquidity] at h
  split at h
  · cases h
  · split at h <;>
      (simp only [Option.some.injEq, Prod.mk.injEq] at h
       obtain ⟨-, hds⟩ := h
       subst hds)
    · exact IdxOk_emit_insert _ _ _ _ _ _
    · exact IdxOk_emit_update _ _ _ _

theorem IdxOk_remove (s : PriceLevels) (p q cd : Int) :
    IdxOk (remove_liquidity s p q cd).2 := by
  rw [remove_liquidity]
  split
  · exact IdxOk_nil
  · split
    · exact IdxOk_nil
    · rename_i idx e heq
      split
      · refine IdxOk_append (IdxOk_emit_update _ _ _ _) ?_
        split
        · split
          · exact IdxOk_emit_insert _ _ _ _ _ _
          · exact IdxOk_nil
        · exact IdxOk_nil
      · exact IdxOk_emit_update _ _ _ _

theorem IdxOk_crossLoop (aggP : Int) (fuel : Nat) :
    ∀ (s : PriceLevels) (rem con : Int) (ds0 : List Delta), IdxOk ds0 →
    IdxOk (crossLoop aggP fuel s rem con ds0).2.2 := by
  induction fuel with
  | zero => intro s rem con ds0 h0; exact h0
  | succ fuel ih =>
    intro s rem con ds0 h0
    rw [crossLoop]
    split
    · split
      · exact h0
      · split
        · exact h0
        · split <;> split <;>
            first
            | exact ih _ _ _ _ (IdxOk_append h0 (IdxOk_remove _ _ _ _))
            | exact h0
    · exact h0

theorem IdxOk_cross (gc : Bool) (s : PriceLevels) (aggP aggQ : Int) :
    IdxOk (cross gc s aggP aggQ).2.2 := by
  rw [cross]
  split
  · exact IdxOk_crossLoop _ _ _ _ _ _ IdxOk_nil
  · exact IdxOk_nil

theorem IdxOk_uncrossGo :
    ∀ (C : List CrossFill) (skQ skC : Int) (s : PriceLevels) (ds0 : List Delta),
    IdxOk ds0 → ∀ {t : PriceLevels} {ds' : List Delta},
    uncrossGo C skQ skC s ds0 = some (t, ds') → IdxOk ds' := by
  intro C
  induction C with
  | nil =>
    intro skQ skC s ds0 h0 t ds' h
    rw [uncrossGo] at h
    simp only [Option.some.injEq, Prod.mk.injEq] at h
    obtain ⟨-, hds⟩ := h
    subst hds
    exact h0
  | cons f rest ih =>
    intro skQ skC s ds0 h0 t ds' h
    rw [uncrossGo] at h
    split at h
    · exact ih _ _ _ _ h0 h
    · split at h
      · split at h
        · cases h
        · rename_i r hr
          exact ih _ _ _ _ (IdxOk_append h0 (IdxOk_add hr)) h
      · split at h
        · cases h
        · rename_i r hr
          exact ih _ _ _ _ (IdxOk_append h0 (IdxOk_add hr)) h

theorem IdxOk_uncross {s t : PriceLevels} {ds : List Delta}
    (h : uncross s = some (t, ds)) : IdxOk ds := by
  rw [uncross] at h
  split at h
  · cases h
  · rename_i r hr
    simp only [Option.some.injEq, Prod.mk.injEq] at h
    obtain ⟨-, hds⟩ := h
    subst hds
    exact IdxOk_uncrossGo _ _ _ _ _ IdxOk_nil hr

theorem IdxOk_tradeLeg {m : MBO} {orig : Option OrderInfo} {oid : Int}
    {remaining reconciled : Int} {agg : Bool} {fq : Int} {pc : PendingCross}
    {m2 : MBO} {ds : List Delta}
    (h : tradeLeg m orig oid remaining reconciled agg fq pc = some (m2, ds)) :
    IdxOk ds := by
  simp only [tradeLeg] at h
  repeat' split at h
  all_goals cases h
  all_goals
    first
    | exact IdxOk_nil
    | exact IdxOk_remove _ _ _ _

theorem IdxOk_new_order {gc : Bool} {m : MBO} {oid : Int} {a : Bool}
    {p q : Int} {m' : MBO} {ds : List Delta}
    (h : new_order gc m oid a p q = some (m', ds)) : IdxOk ds := by
  simp only [new_order] at h
  repeat' split at h
  all_goals cases h
  all_goals
    repeat'
      first
      | exact IdxOk_nil
      | exact IdxOk_tick _ _ _ _ _ _ _
      | exact IdxOk_cc
      | exact IdxOk_cross _ _ _ _
      | exact IdxOk_remove _ _ _ _
      | exact IdxOk_emit_update _ _ _ _
      | exact IdxOk_emit_insert _ _ _ _ _ _
      | exact IdxOk_ite_updates _ _ _
      | exact IdxOk_add (by assumption)
      | exact IdxOk_optionalAdd (by assumption)
      | exact IdxOk_uncross (by assumption)
      | exact IdxOk_tradeLeg (by assumption)
      | apply IdxOk_append
      | split

theorem IdxOk_modify_order {gc : Bool} {m : MBO} {oid p q : Int}
    {m' : MBO} {ds : List Delta}
    (h : modify_order gc m oid p q = some (m', ds)) : IdxOk ds := by
  simp only [modify_order] at h
  repeat' split at h
  all_goals cases h
  all_goals
    repeat'
      first
      | exact IdxOk_nil
      | exact IdxOk_tick _ _ _ _ _ _ _
      | exact IdxOk_cc
      | exact IdxOk_cross _ _ _ _
      | exact IdxOk_remove _ _ _ _
      | exact IdxOk_emit_update _ _ _ _
      | exact IdxOk_emit_insert _ _ _ _ _ _
      | exact IdxOk_ite_updates _ _ _
      | exact IdxOk_add (by assumption)
      | exact IdxOk_optionalAdd (by assumption)
      | exact IdxOk_uncross (by assumption)
      | exact IdxOk_tradeLeg (by assumption)
      | apply IdxOk_append
      | split

theorem IdxOk_optionalAdd {s : PriceLevels} {p q cd : Int} {c : Prop}
    [Decidable c] {alt : PriceLevels} {r : PriceLevels × List Delta}
    (h : (if c then add_liquidity s p q cd else some (alt, [])) = some r) :
    IdxOk r.2 := by
  split at h
  · exact IdxOk_add (show add_liquidity s p q cd = some (r.1, r.2) from h)
  · cases h
    exact IdxOk_nil

theorem IdxOk_cancel_order {gc : Bool} {m : MBO} {oid : Int}
    {m' : MBO} {ds : List Delta}
    (h : cancel_order gc m oid = some (m', ds)) : IdxOk ds := by
  simp only [cancel_order] at h
  repeat' split at h
  all_goals cases h
  all_goals
    repeat'
      first
      | exact IdxOk_nil
      | exact IdxOk_tick _ _ _ _ _ _ _
      | exact IdxOk_cc
      | exact IdxOk_cross _ _ _ _
      | exact IdxOk_remove _ _ _ _
      | exact IdxOk_emit_update _ _ _ _
      | exact IdxOk_emit_insert _ _ _ _ _ _
      | exact IdxOk_ite_updates _ _ _
      | exact IdxOk_add (by assumption)
      | exact IdxOk_optionalAdd (by assumption)
      | exact IdxOk_uncross (by assumption)
      | exact IdxOk_tradeLeg (by assumption)
      | apply IdxOk_append
      | split

theorem IdxOk_ite_updates (c : Prop) [Decidable c] (f1 f2 : Bool) :
    IdxOk (if c then emit_update f1 0 0 0 ++ emit_update f2 0 0 0 else []) := by
  split
  · exact IdxOk_append (IdxOk_emit_update _ _ _ _) (IdxOk_emit_update _ _ _ _)
  · exact IdxOk_nil

theorem IdxOk_trade {m : MBO} {b a p fq : Int} {m' : MBO} {ds : List Delta}
    (h : trade m b a p fq = some (m', ds)) : IdxOk ds := by
  simp only [trade] at h
  split at h
  · cases h
  · split at h
    · cases h
    · split at h
      · cases h
      · rename_i rA hA
        split at h
        · cases h
        · rename_i rB hB
          repeat' split at h
          all_goals cases h
          all_goals
            repeat'
              first
              | exact IdxOk_nil
              | exact IdxOk_tick _ _ _ _ _ _ _
              | exact IdxOk_cc
              | exact IdxOk_emit_update _ _ _ _
              | exact IdxOk_ite_updates _ _ _
              | exact IdxOk_tradeLeg hA
              | exact IdxOk_tradeLeg hB
              | apply IdxOk_append
              | split

/-- C8: no Update or Insert delta with level index ≥ 20 appears in any chunk
produced for any event — the emitters drop such deltas. -/
theorem chunks_respect_top20 (gc : Bool) (m : MBO) (e : Event) (tok : Int)
    (m' : MBO) (ds : List Delta)
    (h : processEvent gc m e = some (m', ds)) :
    ∀ c ∈ packChunks tok ds, IdxOk c.deltas := by
  intro c hc d hd
  have hmem : d ∈ ds := by
    rw [← packChunks_flatten tok ds, chunkDeltas]
    exact List.mem_flatMap.mpr ⟨c, hc, hd⟩
  have hids : IdxOk ds := by
    cases e with
    | newO oid a p q => exact IdxOk_new_order h
    | modO oid p q => exact IdxOk_modify_order h
    | canO oid => exact IdxOk_cancel_order h
    | trd b a p q => exact IdxOk_trade h
  exact hids d hmem

theorem chunks_respect_top20_witness :
    IdxOk (DeltaChunk.mk 7 true [Delta.tickInfo 'X' false false 100 5 1 0,
      Delta.update false 0 (-5) (-1)]).deltas :=
  chunks_respect_top20 false cancelBook (.canO 1) 7 _ _ rfl
    ⟨7, true, [Delta.tickInfo 'X' false false 100 5 1 0,
      Delta.update false 0 (-5) (-1)]⟩ (by decide)

/-- C9 refutation: a single new-order event that crosses a 45-level book
emits 31 chunks, exceeding the emitter's static capacity of 20 — the
static_vector append past capacity is out of bounds. -/
theorem deep_cross_chunk_overflow :
    ∃ n, deepRun = some n ∧ maxChunks < n :=
  ⟨31, by decide, by decide⟩

theorem mboFind_insert_same (l : List (Int × MBO)) (k : Int) (v : MBO) :
    mboFind (mboInsert l k v) k = some v := by
  induction l with
  | nil => simp [mboInsert, mboFind]
  | cons a rest ih =>
    by_cases ha : a.1 = k
    · rw [show (a : Int × MBO) = (a.1, a.2) from rfl, mboInsert, if_pos ha,
        mboFind, if_pos ha]
    · rw [show (a : Int × MBO) = (a.1, a.2) from rfl, mboInsert, if_neg ha,
        mboFind, if_neg ha, ih]

theorem mboFind_insert_ne (l : List (Int × MBO)) (k t : Int) (v : MBO)
    (h : t ≠ k) : mboFind (mboInsert l k v) t = mboFind l t := by
  induction l with
  | nil =>
    show (if k = t then some v else mboFind [] t) = mboFind [] t
    rw [if_neg (by omega)]
  | cons a rest ih =>
    by_cases ha : a.1 = k
    · rw [show (a : Int × MBO) = (a.1, a.2) from rfl, mboInsert, if_pos ha,
        mboFind, mboFind, if_neg (by omega), if_neg (by omega)]
    · rw [show (a : Int × MBO) = (a.1, a.2) from rfl, mboInsert, if_neg ha,
        mboFind, mboFind]
      split
      · rfl
      · exact ih

/-- C10: a record whose tick type is none of N/M/X/T produces no chunks,
changes no existing book (at most the token's empty book is lazily created),
and the subsequent `process_deltas` delivers no record. -/
theorem ignored_tick_no_effect (gc : Bool) (mbos : List (Int × MBO))
    (rec : InputRecord)
    (hN : rec.tick_type ≠ 'N') (hM : rec.tick_type ≠ 'M')
    (hX : rec.tick_type ≠ 'X') (hT : rec.tick_type ≠ 'T') :
    ∃ mbos', process_record gc mbos rec = some (mbos', []) ∧
      (∀ t m0, mboFind mbos t = some m0 → mboFind mbos' t = some m0) ∧
      (∀ t, mboFind mbos t = none → t ≠ rec.token →
        mboFind mbos' t = none) ∧
      (mboFind mbos rec.token = none →
        mboFind mbos' rec.token = some MBO.init) ∧
      (∀ agg pt pid, process_deltas_delivered [] agg pt pid = 0) := by
  have hrec : process_record gc mbos rec
      = some (mboInsert mbos rec.token
          ((mboFind mbos rec.token).getD MBO.init), []) := by
    rw [process_record]
    simp only [if_neg hN, if_neg hM, if_neg hX, if_neg hT]
    rfl
  refine ⟨_, hrec, ?_, ?_, ?_, fun agg pt pid => rfl⟩
  · intro t m0 hfound
    by_cases ht : t = rec.token
    · subst ht
      rw [mboFind_insert_same, hfound]
      rfl
    · rw [mboFind_insert_ne _ _ _ _ ht, hfound]
  · intro t hnone ht
    rw [mboFind_insert_ne _ _ _ _ ht, hnone]
  · intro hnone
    rw [mboFind_insert_same, hnone]
    rfl

theorem ignored_tick_no_effect_witness :
    ∃ mbos', process_record true [] ⟨5, 'S', 1, 0, false, 10, 2⟩
        = some (mbos', []) ∧
      (∀ t m0, mboFind [] t = some m0 → mboFind mbos' t = some m0) ∧
      (∀ t, mboFind [] t = none → t ≠ (5 : Int) → mboFind mbos' t = none) ∧
      (mboFind [] (5 : Int) = none → mboFind mbos' 5 = some MBO.init) ∧
      (∀ agg pt pid, process_deltas_delivered [] agg pt pid = 0) :=
  ignored_tick_no_effect true [] ⟨5, 'S', 1, 0, false, 10, 2⟩
    (by decide) (by decide) (by decide) (by decide)

/-- The structural invariant of an MBO's two sides: positive sorted levels
with correctly tagged flags. -/
def Inv (m : MBO) : Prop :=
  PosLevels m.bids.levels ∧ SortedLevels m.bids.levels ∧
  PosLevels m.asks.levels ∧ SortedLevels m.asks.levels ∧
  m.bids.is_ask = false ∧ m.asks.is_ask = true

/-- Direct projection of both sides' top-20 windows. -/
def projPair (m : MBO) : Mirror × Mirror := (projSide m.bids, projSide m.asks)

def pairGet (mp : Mirror × Mirror) (f : Bool) : Mirror :=
  if f then mp.2 else mp.1

def pairPut (mp : Mirror × Mirror) (f : Bool) (M : Mirror) : Mirror × Mirror :=
  if f then (mp.1, M) else (M, mp.2)

theorem pairGet_put_same (mp : Mirror × Mirror) (f : Bool) (M : Mirror) :
    pairGet (pairPut mp f M) f = M := by
  cases f <;> rfl

theorem pairGet_put_other (mp : Mirror × Mirror) (f : Bool) (M : Mirror) :
    pairGet (pairPut mp f M) (!f) = pairGet mp (!f) := by
  cases f <;> rfl

theorem projPair_side (m : MBO) (f : Bool) :
    pairGet (projPair m) f = projSide (m.side f) := by
  cases f <;> rfl

theorem projPair_setSide (m : MBO) (f : Bool) (s : PriceLevels) :
    projPair (m.setSide f s) = pairPut (projPair m) f (projSide s) := by
  cases f <;> rfl

theorem pair_append (mp : Mirror × Mirror) (a b : List Delta) :
    apply_deltas_to_book mp (a ++ b)
      = apply_deltas_to_book (apply_deltas_to_book mp a) b := by
  unfold apply_deltas_to_book
  rw [applyDeltasSide_append, applyDeltasSide_append]

theorem pair_tick (mp : Mirror × Mirror) (t : Char) (a e : Bool)
    (p q o1 o2 : Int) :
    apply_deltas_to_book mp (emit_tick_info t a e p q o1 o2) = mp := rfl

theorem pair_cc (mp : Mirror × Mirror) :
    apply_deltas_to_book mp emit_crossing_complete = mp := rfl

theorem pair_nil (mp : Mirror × Mirror) :
    apply_deltas_to_book mp [] = mp := rfl

/-- A side-simulation segment applied to a pair touches only its side. -/
theorem pair_side {s s' : PriceLevels} {ds : List Delta} {f : Bool}
    (mp : Mirror × Mirror) (h : SideSim s s' ds) (hf : s.is_ask = f)
    (hm : pairGet mp f = projSide s) :
    apply_deltas_to_book mp ds = pairPut mp f (projSide s') := by
  obtain ⟨happ, hside, _, _⟩ := h
  rw [hf] at happ hside
  cases f
  · show (applyDeltasSide false mp.1 ds, applyDeltasSide true mp.2 ds) = _
    rw [show mp.1 = projSide s from hm, happ,
      applyDeltasSide_other false true mp.2 ds hside (by simp)]
    rfl
  · show (applyDeltasSide false mp.1 ds, applyDeltasSide true mp.2 ds) = _
    rw [show mp.2 = projSide s from hm, happ,
      applyDeltasSide_other true false mp.1 ds hside (by simp)]
    rfl

theorem Inv_side_pos {m : MBO} (inv : Inv m) (f : Bool) :
    PosLevels (m.side f).levels := by
  cases f
  · exact inv.1
  · exact inv.2.2.1

theorem Inv_side_sorted {m : MBO} (inv : Inv m) (f : Bool) :
    SortedLevels (m.side f).levels := by
  cases f
  · exact inv.2.1
  · exact inv.2.2.2.1

theorem Inv_side_flag {m : MBO} (inv : Inv m) (f : Bool) :
    (m.side f).is_ask = f := by
  cases f
  · exact inv.2.2.2.2.1
  · exact inv.2.2.2.2.2

theorem Inv_setSide {m : MBO} {f : Bool} {s : PriceLevels} (inv : Inv m)
    (hp : PosLevels s.levels) (hs : SortedLevels s.levels)
    (hf : s.is_ask = f) : Inv (m.setSide f s) := by
  obtain ⟨pb, sb, pa, sa, fb, fa⟩ := inv
  cases f
  · exact ⟨hp, hs, pa, sa, hf, fa⟩
  · exact ⟨pb, sb, hp, hs, fb, hf⟩

theorem Inv_of_eq_sides {m m' : MBO} (inv : Inv m) (hb : m'.bids = m.bids)
    (ha : m'.asks = m.asks) : Inv m' := by
  rw [Inv, hb, ha]
  exact inv

theorem projPair_of_eq_sides {m m' : MBO} (hb : m'.bids = m.bids)
    (ha : m'.asks = m.asks) : projPair m' = projPair m := by
  rw [projPair, hb, ha]
  rfl

theorem side_setSide_flip (m : MBO) (f : Bool) (s : PriceLevels) :
    (m.setSide (!f) s).side f = m.side f := by
  cases f <;> rfl

theorem setSide_bids_asks (m : MBO) (f : Bool) (s : PriceLevels) :
    ((m.setSide f s).bids = (if f then m.bids else s)) ∧
    ((m.setSide f s).asks = (if f then s else m.asks)) := by
  cases f <;> exact ⟨rfl, rfl⟩

/-- One crossing-capable new order preserves the invariant and the mirror
correspondence. -/
theorem new_order_sim {gc : Bool} {m : MBO} {oid : Int} {a : Bool} {p q : Int}
    {m' : MBO} {ds : List Delta} (inv : Inv m)
    (h : new_order gc m oid a p q = some (m', ds)) :
    Inv m' ∧ apply_deltas_to_book (projPair m) ds = projPair m' := by
  cases a
  all_goals simp only [new_order, Bool.not_false, Bool.not_true,
    Bool.false_eq_true, eq_self_iff_true, if_true, if_false] at h
  all_goals repeat' split at h
  all_goals cases h
  all_goals first
  | exact ⟨inv, pair_nil _⟩
  | -- bid aggressor, residual rests on the book
    (rename_i r hr hc1 hc2
     refine ⟨?_, ?_⟩
     · exact ⟨add_liquidity_pos inv.1 (by assumption) hr,
         add_liquidity_sorted inv.2.1 hr,
         (@cross_sim gc (MBO.side { m with last_order_id := oid } true) p q
           inv.2.2.1 inv.2.2.2.1).2.1,
         (@cross_sim gc (MBO.side { m with last_order_id := oid } true) p q
           inv.2.2.1 inv.2.2.2.1).2.2,
         (add_liquidity_sim inv.1 hr).2.2.2.trans inv.2.2.2.2.1,
         ((@cross_sim gc (MBO.side { m with last_order_id := oid } true) p q
           inv.2.2.1 inv.2.2.2.1).1.2.2.2).trans inv.2.2.2.2.2⟩
     · rw [pair_append, pair_append, pair_tick]
       rw [pair_side (projPair m)
         (@cross_sim gc (MBO.side { m with last_order_id := oid } true) p q
           inv.2.2.1 inv.2.2.2.1).1 inv.2.2.2.2.2 rfl]
       rw [pair_side (pairPut (projPair m) true
           (projSide (cross gc
             (MBO.side { m with last_order_id := oid } true) p q).1))
         (add_liquidity_sim inv.1 hr) inv.2.2.2.2.1 rfl]
       rfl)
  | -- ask aggressor, residual rests on the book
    (rename_i r hr hc1 hc2
     refine ⟨?_, ?_⟩
     · exact ⟨(@cross_sim gc (MBO.side { m with last_order_id := oid } false)
           p q inv.1 inv.2.1).2.1,
         (@cross_sim gc (MBO.side { m with last_order_id := oid } false) p q
           inv.1 inv.2.1).2.2,
         add_liquidity_pos inv.2.2.1 (by assumption) hr,
         add_liquidity_sorted inv.2.2.2.1 hr,
         ((@cross_sim gc (MBO.side { m with last_order_id := oid } false) p q
           inv.1 inv.2.1).1.2.2.2).trans inv.2.2.2.2.1,
         (add_liquidity_sim inv.2.2.1 hr).2.2.2.trans inv.2.2.2.2.2⟩
     · rw [pair_append, pair_append, pair_tick]
       rw [pair_side (projPair m)
         (@cross_sim gc (MBO.side { m with last_order_id := oid } false) p q
           inv.1 inv.2.1).1 inv.2.2.2.2.1 rfl]
       rw [pair_side (pairPut (projPair m) false
           (projSide (cross gc
             (MBO.side { m with last_order_id := oid } false) p q).1))
         (add_liquidity_sim inv.2.2.1 hr) inv.2.2.2.2.2 rfl]
       rfl)
  | -- bid aggressor, fully consumed by the cross
    (refine ⟨?_, ?_⟩
     · exact ⟨inv.1, inv.2.1,
         (@cross_sim gc (MBO.side { m with last_order_id := oid } true) p q
           inv.2.2.1 inv.2.2.2.1).2.1,
         (@cross_sim gc (MBO.side { m with last_order_id := oid } true) p q
           inv.2.2.1 inv.2.2.2.1).2.2,
         inv.2.2.2.2.1,
         ((@cross_sim gc (MBO.side { m with last_order_id := oid } true) p q
           inv.2.2.1 inv.2.2.2.1).1.2.2.2).trans inv.2.2.2.2.2⟩
     · rw [pair_append, pair_tick]
       rw [pair_side (projPair m)
         (@cross_sim gc (MBO.side { m with last_order_id := oid } true) p q
           inv.2.2.1 inv.2.2.2.1).1 inv.2.2.2.2.2 rfl]
       rfl)
  | -- ask aggressor, fully consumed by the cross
    (refine ⟨?_, ?_⟩
     · exact ⟨(@cross_sim gc (MBO.side { m with last_order_id := oid } false)
           p q inv.1 inv.2.1).2.1,
         (@cross_sim gc (MBO.side { m with last_order_id := oid } false) p q
           inv.1 inv.2.1).2.2,
         inv.2.2.1, inv.2.2.2.1,
         ((@cross_sim gc (MBO.side { m with last_order_id := oid } false) p q
           inv.1 inv.2.1).1.2.2.2).trans inv.2.2.2.2.1,
         inv.2.2.2.2.2⟩
     · rw [pair_append, pair_tick]
       rw [pair_side (projPair m)
         (@cross_sim gc (MBO.side { m with last_order_id := oid } false) p q
           inv.1 inv.2.1).1 inv.2.2.2.2.1 rfl]
       rfl)

set_option maxHeartbeats 1600000 in
/-- One modify preserves the invariant and the mirror correspondence.  The
`hcorner` hypothesis excludes the qty-unchanged modify of an order whose level
is absent from the book (there the engine books a zero-quantity level). -/
theorem modify_order_sim {gc : Bool} {m : MBO} {oid np nq : Int}
    {m' : MBO} {ds : List Delta} (inv : Inv m) (hq : 0 < nq)
    (hcorner : gc ≠ true → ∀ info, omFind m.order_map oid = some info →
      info.price = np → info.qty = nq →
      (findLevel (MBO.side m info.is_ask).levels
        (info.price * side_multiplier (MBO.side m info.is_ask).is_ask)).isSome)
    (h : modify_order gc m oid np nq = some (m', ds)) :
    Inv m' ∧ apply_deltas_to_book (projPair m) ds = projPair m' := by
  rcases hfind : omFind m.order_map oid with _ | ⟨ia, ip, iq⟩
  · simp only [modify_order, hfind] at h
    cases h
    exact ⟨inv, pair_nil _⟩
  · cases ia
    all_goals simp only [modify_order, hfind, Bool.not_false, Bool.not_true,
      Bool.false_eq_true, eq_self_iff_true, if_true, if_false] at h
    all_goals repeat' split at h
    all_goals cases h
    all_goals first
  | -- crossing modify with residual (bid order)
    (rename_i hres hx r hr hc1 hc2
     refine ⟨?_, ?_⟩
     · exact ⟨add_liquidity_pos (remove_liquidity_pos inv.1) hres hr,
         add_liquidity_sorted (remove_liquidity_sorted inv.2.1) hr,
         (@cross_sim gc (MBO.side (MBO.setSide { m with last_order_id := oid } false (remove_liquidity (MBO.side { m with last_order_id := oid } false) ip iq 1).1) true) np nq inv.2.2.1 inv.2.2.2.1).2.1,
         (@cross_sim gc (MBO.side (MBO.setSide { m with last_order_id := oid } false (remove_liquidity (MBO.side { m with last_order_id := oid } false) ip iq 1).1) true) np nq inv.2.2.1 inv.2.2.2.1).2.2,
         ((add_liquidity_sim (remove_liquidity_pos inv.1) hr).2.2.2.trans ((@remove_liquidity_sim (MBO.side { m with last_order_id := oid } false) ip iq 1 (remove_liquidity (MBO.side { m with last_order_id := oid } false) ip iq 1).1 (remove_liquidity (MBO.side { m with last_order_id := oid } false) ip iq 1).2 inv.1 rfl).2.2.2.trans inv.2.2.2.2.1)),
         ((@cross_sim gc (MBO.side (MBO.setSide { m with last_order_id := oid } false (remove_liquidity (MBO.side { m with last_order_id := oid } false) ip iq 1).1) true) np nq inv.2.2.1 inv.2.2.2.1).1.2.2.2.trans inv.2.2.2.2.2)⟩
     · rw [pair_append, pair_append, pair_append, pair_tick]
       rw [pair_side (projPair m) (@remove_liquidity_sim (MBO.side { m with last_order_id := oid } false) ip iq 1 (remove_liquidity (MBO.side { m with last_order_id := oid } false) ip iq 1).1 (remove_liquidity (MBO.side { m with last_order_id := oid } false) ip iq 1).2 inv.1 rfl) inv.2.2.2.2.1 rfl]
       rw [pair_side (pairPut (projPair m) false (projSide (remove_liquidity (MBO.side { m with last_order_id := oid } false) ip iq 1).1)) (@cross_sim gc (MBO.side (MBO.setSide { m with last_order_id := oid } false (remove_liquidity (MBO.side { m with last_order_id := oid } false) ip iq 1).1) true) np nq inv.2.2.1 inv.2.2.2.1).1 inv.2.2.2.2.2 rfl]
       rw [pair_side (pairPut (pairPut (projPair m) false (projSide (remove_liquidity (MBO.side { m with last_order_id := oid } false) ip iq 1).1)) true (projSide (cross gc (MBO.side (MBO.setSide { m with last_order_id := oid } false (remove_liquidity (MBO.side { m with last_order_id := oid } false) ip iq 1).1) true) np nq).1))
         (add_liquidity_sim (remove_liquidity_pos inv.1) hr) ((@remove_liquidity_sim (MBO.side { m with last_order_id := oid } false) ip iq 1 (remove_liquidity (MBO.side { m with last_order_id := oid } false) ip iq 1).1 (remove_liquidity (MBO.side { m with last_order_id := oid } false) ip iq 1).2 inv.1 rfl).2.2.2.trans inv.2.2.2.2.1) rfl]
       rfl)
  | -- crossing modify fully consumed (bid order)
    (refine ⟨?_, ?_⟩
     · exact ⟨remove_liquidity_pos inv.1,
         remove_liquidity_sorted inv.2.1,
         (@cross_sim gc (MBO.side (MBO.setSide { m with last_order_id := oid } false (remove_liquidity (MBO.side { m with last_order_id := oid } false) ip iq 1).1) true) np nq inv.2.2.1 inv.2.2.2.1).2.1,
         (@cross_sim gc (MBO.side (MBO.setSide { m with last_order_id := oid } false (remove_liquidity (MBO.side { m with last_order_id := oid } false) ip iq 1).1) true) np nq inv.2.2.1 inv.2.2.2.1).2.2,
         ((@remove_liquidity_sim (MBO.side { m with last_order_id := oid } false) ip iq 1 (remove_liquidity (MBO.side { m with last_order_id := oid } false) ip iq 1).1 (remove_liquidity (MBO.side { m with last_order_id := oid } false) ip iq 1).2 inv.1 rfl).2.2.2.trans inv.2.2.2.2.1),
         ((@cross_sim gc (MBO.side (MBO.setSide { m with last_order_id := oid } false (remove_liquidity (MBO.side { m with last_order_id := oid } false) ip iq 1).1) true) np nq inv.2.2.1 inv.2.2.2.1).1.2.2.2.trans inv.2.2.2.2.2)⟩
     · rw [pair_append, pair_append, pair_tick]
       rw [pair_side (projPair m) (@remove_liquidity_sim (MBO.side { m with last_order_id := oid } false) ip iq 1 (remove_liquidity (MBO.side { m with last_order_id := oid } false) ip iq 1).1 (remove_liquidity (MBO.side { m with last_order_id := oid } false) ip iq 1).2 inv.1 rfl) inv.2.2.2.2.1 rfl]
       rw [pair_side (pairPut (projPair m) false (projSide (remove_liquidity (MBO.side { m with last_order_id := oid } false) ip iq 1).1)) (@cross_sim gc (MBO.side (MBO.setSide { m with last_order_id := oid } false (remove_liquidity (MBO.side { m with last_order_id := oid } false) ip iq 1).1) true) np nq inv.2.2.1 inv.2.2.2.1).1 inv.2.2.2.2.2 rfl]
       rfl)
  | -- plain modify to a new price (bid order)
    (rename_i r hr
     refine ⟨?_, ?_⟩
     · exact ⟨add_liquidity_pos (remove_liquidity_pos inv.1) hq hr,
         add_liquidity_sorted (remove_liquidity_sorted inv.2.1) hr,
         inv.2.2.1,
         inv.2.2.2.1,
         ((add_liquidity_sim (remove_liquidity_pos inv.1) hr).2.2.2.trans ((@remove_liquidity_sim (MBO.side { m with last_order_id := oid } false) ip iq 1 (remove_liquidity (MBO.side { m with last_order_id := oid } false) ip iq 1).1 (remove_liquidity (MBO.side { m with last_order_id := oid } false) ip iq 1).2 inv.1 rfl).2.2.2.trans inv.2.2.2.2.1)),
         inv.2.2.2.2.2⟩
     · rw [pair_append, pair_append, pair_tick]
       rw [pair_side (projPair m) (@remove_liquidity_sim (MBO.side { m with last_order_id := oid } false) ip iq 1 (remove_liquidity (MBO.side { m with last_order_id := oid } false) ip iq 1).1 (remove_liquidity (MBO.side { m with last_order_id := oid } false) ip iq 1).2 inv.1 rfl) inv.2.2.2.2.1 rfl]
       rw [pair_side (pairPut (projPair m) false (projSide (remove_liquidity (MBO.side { m with last_order_id := oid } false) ip iq 1).1))
         (add_liquidity_sim (remove_liquidity_pos inv.1) hr) ((@remove_liquidity_sim (MBO.side { m with last_order_id := oid } false) ip iq 1 (remove_liquidity (MBO.side { m with last_order_id := oid } false) ip iq 1).1 (remove_liquidity (MBO.side { m with last_order_id := oid } false) ip iq 1).2 inv.1 rfl).2.2.2.trans inv.2.2.2.2.1) rfl]
       rfl)
  | -- plain modify shrinking quantity (bid order)
    (refine ⟨?_, ?_⟩
     · exact ⟨remove_liquidity_pos inv.1,
         remove_liquidity_sorted inv.2.1,
         inv.2.2.1,
         inv.2.2.2.1,
         ((@remove_liquidity_sim (MBO.side { m with last_order_id := oid } false) ip (-(nq - iq)) 0 (remove_liquidity (MBO.side { m with last_order_id := oid } false) ip (-(nq - iq)) 0).1 (remove_liquidity (MBO.side { m with last_order_id := oid } false) ip (-(nq - iq)) 0).2 inv.1 rfl).2.2.2.trans inv.2.2.2.2.1),
         inv.2.2.2.2.2⟩
     · rw [pair_append, pair_tick]
       rw [pair_side (projPair m) (@remove_liquidity_sim (MBO.side { m with last_order_id := oid } false) ip (-(nq - iq)) 0 (remove_liquidity (MBO.side { m with last_order_id := oid } false) ip (-(nq - iq)) 0).1 (remove_liquidity (MBO.side { m with last_order_id := oid } false) ip (-(nq - iq)) 0).2 inv.1 rfl) inv.2.2.2.2.1 rfl]
       rfl)
  | -- plain modify growing quantity in place (bid order)
    (rename_i r hr
     refine ⟨?_, ?_⟩
     · exact ⟨by
         by_cases hdelta : 0 < nq - iq
         · exact add_liquidity_pos inv.1 hdelta hr
         · exact add_liquidity_pos_of_found inv.1 inv.2.1 (by omega)
             (hcorner (by assumption) ⟨false, ip, iq⟩ hfind
               (not_not.mp (by assumption)) (by show iq = nq; omega)) hr,
         add_liquidity_sorted inv.2.1 hr,
         inv.2.2.1,
         inv.2.2.2.1,
         ((add_liquidity_sim inv.1 hr).2.2.2.trans inv.2.2.2.2.1),
         inv.2.2.2.2.2⟩
     · rw [pair_append, pair_tick]
       rw [pair_side (projPair m) (add_liquidity_sim inv.1 hr) inv.2.2.2.2.1 rfl]
       rfl)
  | -- crossing modify with residual (ask order)
    (rename_i hres hx r hr hc1 hc2
     refine ⟨?_, ?_⟩
     · exact ⟨(@cross_sim gc (MBO.side (MBO.setSide { m with last_order_id := oid } true (remove_liquidity (MBO.side { m with last_order_id := oid } true) ip iq 1).1) false) np nq inv.1 inv.2.1).2.1,
         (@cross_sim gc (MBO.side (MBO.setSide { m with last_order_id := oid } true (remove_liquidity (MBO.side { m with last_order_id := oid } true) ip iq 1).1) false) np nq inv.1 inv.2.1).2.2,
         add_liquidity_pos (remove_liquidity_pos inv.2.2.1) hres hr,
         add_liquidity_sorted (remove_liquidity_sorted inv.2.2.2.1) hr,
         ((@cross_sim gc (MBO.side (MBO.setSide { m with last_order_id := oid } true (remove_liquidity (MBO.side { m with last_order_id := oid } true) ip iq 1).1) false) np nq inv.1 inv.2.1).1.2.2.2.trans inv.2.2.2.2.1),
         ((add_liquidity_sim (remove_liquidity_pos inv.2.2.1) hr).2.2.2.trans ((@remove_liquidity_sim (MBO.side { m with last_order_id := oid } true) ip iq 1 (remove_liquidity (MBO.side { m with last_order_id := oid } true) ip iq 1).1 (remove_liquidity (MBO.side { m with last_order_id := oid } true) ip iq 1).2 inv.2.2.1 rfl).2.2.2.trans inv.2.2.2.2.2))⟩
     · rw [pair_append, pair_append, pair_append, pair_tick]
       rw [pair_side (projPair m) (@remove_liquidity_sim (MBO.side { m with last_order_id := oid } true) ip iq 1 (remove_liquidity (MBO.side { m with last_order_id := oid } true) ip iq 1).1 (remove_liquidity (MBO.side { m with last_order_id := oid } true) ip iq 1).2 inv.2.2.1 rfl) inv.2.2.2.2.2 rfl]
       rw [pair_side (pairPut (projPair m) true (projSide (remove_liquidity (MBO.side { m with last_order_id := oid } true) ip iq 1).1)) (@cross_sim gc (MBO.side (MBO.setSide { m with last_order_id := oid } true (remove_liquidity (MBO.side { m with last_order_id := oid } true) ip iq 1).1) false) np nq inv.1 inv.2.1).1 inv.2.2.2.2.1 rfl]
       rw [pair_side (pairPut (pairPut (projPair m) true (projSide (remove_liquidity (MBO.side { m with last_order_id := oid } true) ip iq 1).1)) false (projSide (cross gc (MBO.side (MBO.setSide { m with last_order_id := oid } true (remove_liquidity (MBO.side { m with last_order_id := oid } true) ip iq 1).1) false) np nq).1))
         (add_liquidity_sim (remove_liquidity_pos inv.2.2.1) hr) ((@remove_liquidity_sim (MBO.side { m with last_order_id := oid } true) ip iq 1 (remove_liquidity (MBO.side { m with last_order_id := oid } true) ip iq 1).1 (remove_liquidity (MBO.side { m with last_order_id := oid } true) ip iq 1).2 inv.2.2.1 rfl).2.2.2.trans inv.2.2.2.2.2) rfl]
       rfl)
  | -- crossing modify fully consumed (ask order)
    (refine ⟨?_, ?_⟩
     · exact ⟨(@cross_sim gc (MBO.side (MBO.setSide { m with last_order_id := oid } true (remove_liquidity (MBO.side { m with last_order_id := oid } true) ip iq 1).1) false) np nq inv.1 inv.2.1).2.1,
         (@cross_sim gc (MBO.side (MBO.setSide { m with last_order_id := oid } true (remove_liquidity (MBO.side { m with last_order_id := oid } true) ip iq 1).1) false) np nq inv.1 inv.2.1).2.2,
         remove_liquidity_pos inv.2.2.1,
         remove_liquidity_sorted inv.2.2.2.1,
         ((@cross_sim gc (MBO.side (MBO.setSide { m with last_order_id := oid } true (remove_liquidity (MBO.side { m with last_order_id := oid } true) ip iq 1).1) false) np nq inv.1 inv.2.1).1.2.2.2.trans inv.2.2.2.2.1),
         ((@remove_liquidity_sim (MBO.side { m with last_order_id := oid } true) ip iq 1 (remove_liquidity (MBO.side { m with last_order_id := oid } true) ip iq 1).1 (remove_liquidity (MBO.side { m with last_order_id := oid } true) ip iq 1).2 inv.2.2.1 rfl).2.2.2.trans inv.2.2.2.2.2)⟩
     · rw [pair_append, pair_append, pair_tick]
       rw [pair_side (projPair m) (@remove_liquidity_sim (MBO.side { m with last_order_id := oid } true) ip iq 1 (remove_liquidity (MBO.side { m with last_order_id := oid } true) ip iq 1).1 (remove_liquidity (MBO.side { m with last_order_id := oid } true) ip iq 1).2 inv.2.2.1 rfl) inv.2.2.2.2.2 rfl]
       rw [pair_side (pairPut (projPair m) true (projSide (remove_liquidity (MBO.side { m with last_order_id := oid } true) ip iq 1).1)) (@cross_sim gc (MBO.side (MBO.setSide { m with last_order_id := oid } true (remove_liquidity (MBO.side { m with last_order_id := oid } true) ip iq 1).1) false) np nq inv.1 inv.2.1).1 inv.2.2.2.2.1 rfl]
       rfl)
  | -- plain modify to a new price (ask order)
    (rename_i r hr
     refine ⟨?_, ?_⟩
     · exact ⟨inv.1,
         inv.2.1,
         add_liquidity_pos (remove_liquidity_pos inv.2.2.1) hq hr,
         add_liquidity_sorted (remove_liquidity_sorted inv.2.2.2.1) hr,
         inv.2.2.2.2.1,
         ((add_liquidity_sim (remove_liquidity_pos inv.2.2.1) hr).2.2.2.trans ((@remove_liquidity_sim (MBO.side { m with last_order_id := oid } true) ip iq 1 (remove_liquidity (MBO.side { m with last_order_id := oid } true) ip iq 1).1 (remove_liquidity (MBO.side { m with last_order_id := oid } true) ip iq 1).2 inv.2.2.1 rfl).2.2.2.trans inv.2.2.2.2.2))⟩
     · rw [pair_append, pair_append, pair_tick]
       rw [pair_side (projPair m) (@remove_liquidity_sim (MBO.side { m with last_order_id := oid } true) ip iq 1 (remove_liquidity (MBO.side { m with last_order_id := oid } true) ip iq 1).1 (remove_liquidity (MBO.side { m with last_order_id := oid } true) ip iq 1).2 inv.2.2.1 rfl) inv.2.2.2.2.2 rfl]
       rw [pair_side (pairPut (projPair m) true (projSide (remove_liquidity (MBO.side { m with last_order_id := oid } true) ip iq 1).1))
         (add_liquidity_sim (remove_liquidity_pos inv.2.2.1) hr) ((@remove_liquidity_sim (MBO.side { m with last_order_id := oid } true) ip iq 1 (remove_liquidity (MBO.side { m with last_order_id := oid } true) ip iq 1).1 (remove_liquidity (MBO.side { m with last_order_id := oid } true) ip iq 1).2 inv.2.2.1 rfl).2.2.2.trans inv.2.2.2.2.2) rfl]
       rfl)
  | -- plain modify shrinking quantity (ask order)
    (refine ⟨?_, ?_⟩
     · exact ⟨inv.1,
         inv.2.1,
         remove_liquidity_pos inv.2.2.1,
         remove_liquidity_sorted inv.2.2.2.1,
         inv.2.2.2.2.1,
         ((@remove_liquidity_sim (MBO.side { m with last_order_id := oid } true) ip (-(nq - iq)) 0 (remove_liquidity (MBO.side { m with last_order_id := oid } true) ip (-(nq - iq)) 0).1 (remove_liquidity (MBO.side { m with last_order_id := oid } true) ip (-(nq - iq)) 0).2 inv.2.2.1 rfl).2.2.2.trans inv.2.2.2.2.2)⟩
     · rw [pair_append, pair_tick]
       rw [pair_side (projPair m) (@remove_liquidity_sim (MBO.side { m with last_order_id := oid } true) ip (-(nq - iq)) 0 (remove_liquidity (MBO.side { m with last_order_id := oid } true) ip (-(nq - iq)) 0).1 (remove_liquidity (MBO.side { m with last_order_id := oid } true) ip (-(nq - iq)) 0).2 inv.2.2.1 rfl) inv.2.2.2.2.2 rfl]
       rfl)
  | -- plain modify growing quantity in place (ask order)
    (rename_i r hr
     refine ⟨?_, ?_⟩
     · exact ⟨inv.1,
         inv.2.1,
         by
         by_cases hdelta : 0 < nq - iq
         · exact add_liquidity_pos inv.2.2.1 hdelta hr
         · exact add_liquidity_pos_of_found inv.2.2.1 inv.2.2.2.1 (by omega)
             (hcorner (by assumption) ⟨true, ip, iq⟩ hfind
               (not_not.mp (by assumption)) (by show iq = nq; omega)) hr,
         add_liquidity_sorted inv.2.2.2.1 hr,
         inv.2.2.2.2.1,
         ((add_liquidity_sim inv.2.2.1 hr).2.2.2.trans inv.2.2.2.2.2)⟩
     · rw [pair_append, pair_tick]
       rw [pair_side (projPair m) (add_liquidity_sim inv.2.2.1 hr) inv.2.2.2.2.2 rfl]
       rfl)


set_option maxHeartbeats 1600000 in
/-- One cancel preserves the invariant and the mirror correspondence. -/
theorem cancel_order_sim {gc : Bool} {m : MBO} {oid : Int} {m' : MBO}
    {ds : List Delta} (inv : Inv m)
    (h : cancel_order gc m oid = some (m', ds)) :
    Inv m' ∧ apply_deltas_to_book (projPair m) ds = projPair m' := by
  rcases hfind : omFind m.order_map oid with _ | ⟨ia, ip, iq⟩
  · simp only [cancel_order, hfind] at h
    cases h
    exact ⟨inv, rfl⟩
  · cases ia
    all_goals cases hA : m.pending_cross.aggressor_is_ask
    · simp only [cancel_order, hfind, hA, Bool.not_false, Bool.not_true,
        Bool.false_eq_true, eq_self_iff_true, if_true, if_false,
        bne_self_eq_false, Bool.bne_true, Bool.bne_false, Bool.and_false,
        Bool.false_and, Bool.and_true] at h
      repeat' split at h
      all_goals cases h
      all_goals first
      | (refine ⟨?_, ?_⟩
         · exact ⟨remove_liquidity_pos inv.1,
             remove_liquidity_sorted inv.2.1,
             inv.2.2.1,
             inv.2.2.2.1,
             ((@remove_liquidity_sim (MBO.side m false) ip iq 1 (remove_liquidity (MBO.side m false) ip iq 1).1 (remove_liquidity (MBO.side m false) ip iq 1).2 inv.1 rfl).2.2.2.trans inv.2.2.2.2.1),
             inv.2.2.2.2.2⟩
         · simp only [pair_append, pair_nil, pair_tick, pair_cc]
           rw [pair_side (projPair m) (@remove_liquidity_sim (MBO.side m false) ip iq 1 (remove_liquidity (MBO.side m false) ip iq 1).1 (remove_liquidity (MBO.side m false) ip iq 1).2 inv.1 rfl) inv.2.2.2.2.1 rfl]
           rfl)
      | (rename_i hself hx u hu hrr
         refine ⟨?_, ?_⟩
         · exact ⟨remove_liquidity_pos inv.1,
             remove_liquidity_sorted inv.2.1,
             (uncross_sim inv.2.2.1 inv.2.2.2.1 hu).2.1,
             (uncross_sim inv.2.2.1 inv.2.2.2.1 hu).2.2.1,
             ((@remove_liquidity_sim (MBO.side (MBO.setSide m true u.1) false) ip (iq - (MBO.side m true).pending_cross_fill_qty) 1 (remove_liquidity (MBO.side (MBO.setSide m true u.1) false) ip (iq - (MBO.side m true).pending_cross_fill_qty) 1).1 (remove_liquidity (MBO.side (MBO.setSide m true u.1) false) ip (iq - (MBO.side m true).pending_cross_fill_qty) 1).2 inv.1 rfl).2.2.2.trans inv.2.2.2.2.1),
             ((uncross_sim inv.2.2.1 inv.2.2.2.1 hu).1.2.2.2.trans inv.2.2.2.2.2)⟩
         · simp only [pair_append, pair_nil, pair_tick, pair_cc]
           rw [pair_side (projPair m) (uncross_sim inv.2.2.1 inv.2.2.2.1 hu).1 inv.2.2.2.2.2 rfl]
           rw [pair_side (pairPut (projPair m) true (projSide u.1)) (@remove_liquidity_sim (MBO.side (MBO.setSide m true u.1) false) ip (iq - (MBO.side m true).pending_cross_fill_qty) 1 (remove_liquidity (MBO.side (MBO.setSide m true u.1) false) ip (iq - (MBO.side m true).pending_cross_fill_qty) 1).1 (remove_liquidity (MBO.side (MBO.setSide m true u.1) false) ip (iq - (MBO.side m true).pending_cross_fill_qty) 1).2 inv.1 rfl) inv.2.2.2.2.1 rfl]
           rfl)
      | (rename_i hself hx u hu hrr
         refine ⟨?_, ?_⟩
         · exact ⟨inv.1,
             inv.2.1,
             (uncross_sim inv.2.2.1 inv.2.2.2.1 hu).2.1,
             (uncross_sim inv.2.2.1 inv.2.2.2.1 hu).2.2.1,
             inv.2.2.2.2.1,
             ((uncross_sim inv.2.2.1 inv.2.2.2.1 hu).1.2.2.2.trans inv.2.2.2.2.2)⟩
         · simp only [pair_append, pair_nil, pair_tick, pair_cc]
           rw [pair_side (projPair m) (uncross_sim inv.2.2.1 inv.2.2.2.1 hu).1 inv.2.2.2.2.2 rfl]
           rfl)
    · simp only [cancel_order, hfind, hA, Bool.not_false, Bool.not_true,
        Bool.false_eq_true, eq_self_iff_true, if_true, if_false,
        bne_self_eq_false, Bool.bne_true, Bool.bne_false, Bool.and_false,
        Bool.false_and, Bool.and_true] at h
      repeat' split at h
      all_goals cases h
      all_goals first
      | (refine ⟨?_, ?_⟩
         · exact ⟨remove_liquidity_pos inv.1,
             remove_liquidity_sorted inv.2.1,
             inv.2.2.1,
             inv.2.2.2.1,
             ((@remove_liquidity_sim (MBO.side m false) ip iq 1 (remove_liquidity (MBO.side m false) ip iq 1).1 (remove_liquidity (MBO.side m false) ip iq 1).2 inv.1 rfl).2.2.2.trans inv.2.2.2.2.1),
             inv.2.2.2.2.2⟩
         · simp only [pair_append, pair_nil, pair_tick, pair_cc]
           rw [pair_side (projPair m) (@remove_liquidity_sim (MBO.side m false) ip iq 1 (remove_liquidity (MBO.side m false) ip iq 1).1 (remove_liquidity (MBO.side m false) ip iq 1).2 inv.1 rfl) inv.2.2.2.2.1 rfl]
           rfl)
      | (rename_i hself hx u hu hrr
         refine ⟨?_, ?_⟩
         · exact ⟨remove_liquidity_pos (uncross_sim inv.1 inv.2.1 hu).2.1,
             remove_liquidity_sorted (uncross_sim inv.1 inv.2.1 hu).2.2.1,
             inv.2.2.1,
             inv.2.2.2.1,
             ((@remove_liquidity_sim (MBO.side (MBO.setSide m false u.1) false) ip (iq - (MBO.side m false).pending_cross_fill_qty) 1 (remove_liquidity (MBO.side (MBO.setSide m false u.1) false) ip (iq - (MBO.side m false).pending_cross_fill_qty) 1).1 (remove_liquidity (MBO.side (MBO.setSide m false u.1) false) ip (iq - (MBO.side m false).pending_cross_fill_qty) 1).2 (uncross_sim inv.1 inv.2.1 hu).2.1 rfl).2.2.2.trans ((uncross_sim inv.1 inv.2.1 hu).1.2.2.2.trans inv.2.2.2.2.1)),
             inv.2.2.2.2.2⟩
         · simp only [pair_append, pair_nil, pair_tick, pair_cc]
           rw [pair_side (projPair m) (uncross_sim inv.1 inv.2.1 hu).1 inv.2.2.2.2.1 rfl]
           rw [pair_side (pairPut (projPair m) false (projSide u.1)) (@remove_liquidity_sim (MBO.side (MBO.setSide m false u.1) false) ip (iq - (MBO.side m false).pending_cross_fill_qty) 1 (remove_liquidity (MBO.side (MBO.setSide m false u.1) false) ip (iq - (MBO.side m false).pending_cross_fill_qty) 1).1 (remove_liquidity (MBO.side (MBO.setSide m false u.1) false) ip (iq - (MBO.side m false).pending_cross_fill_qty) 1).2 (uncross_sim inv.1 inv.2.1 hu).2.1 rfl) ((uncross_sim inv.1 inv.2.1 hu).1.2.2.2.trans inv.2.2.2.2.1) rfl]
           rfl)
      | (rename_i hself hx u hu hrr
         refine ⟨?_, ?_⟩
         · exact ⟨(uncross_sim inv.1 inv.2.1 hu).2.1,
             (uncross_sim inv.1 inv.2.1 hu).2.2.1,
             inv.2.2.1,
             inv.2.2.2.1,
             ((uncross_sim inv.1 inv.2.1 hu).1.2.2.2.trans inv.2.2.2.2.1),
             inv.2.2.2.2.2⟩
         · simp only [pair_append, pair_nil, pair_tick, pair_cc]
           rw [pair_side (projPair m) (uncross_sim inv.1 inv.2.1 hu).1 inv.2.2.2.2.1 rfl]
           rfl)
      | (rename_i hx r hr hcc hres
         rw [if_pos hres] at hr
         refine ⟨?_, ?_⟩
         · exact ⟨(@cross_sim gc (MBO.side (MBO.setSide (MBO.setSide m false (remove_liquidity (MBO.side m false) ip (iq - (min iq (MBO.side m false).pending_cross_fill_qty)) 1).1) false (unreserve_cross_fill (MBO.side (MBO.setSide m false (remove_liquidity (MBO.side m false) ip (iq - (min iq (MBO.side m false).pending_cross_fill_qty)) 1).1) false) (min iq (MBO.side m false).pending_cross_fill_qty))) false) m.pending_cross.aggressor_price (min iq (MBO.side m false).pending_cross_fill_qty) (remove_liquidity_pos inv.1) (remove_liquidity_sorted inv.2.1)).2.1,
             (@cross_sim gc (MBO.side (MBO.setSide (MBO.setSide m false (remove_liquidity (MBO.side m false) ip (iq - (min iq (MBO.side m false).pending_cross_fill_qty)) 1).1) false (unreserve_cross_fill (MBO.side (MBO.setSide m false (remove_liquidity (MBO.side m false) ip (iq - (min iq (MBO.side m false).pending_cross_fill_qty)) 1).1) false) (min iq (MBO.side m false).pending_cross_fill_qty))) false) m.pending_cross.aggressor_price (min iq (MBO.side m false).pending_cross_fill_qty) (remove_liquidity_pos inv.1) (remove_liquidity_sorted inv.2.1)).2.2,
             add_liquidity_pos inv.2.2.1 hres hr,
             add_liquidity_sorted inv.2.2.2.1 hr,
             ((@cross_sim gc (MBO.side (MBO.setSide (MBO.setSide m false (remove_liquidity (MBO.side m false) ip (iq - (min iq (MBO.side m false).pending_cross_fill_qty)) 1).1) false (unreserve_cross_fill (MBO.side (MBO.setSide m false (remove_liquidity (MBO.side m false) ip (iq - (min iq (MBO.side m false).pending_cross_fill_qty)) 1).1) false) (min iq (MBO.side m false).pending_cross_fill_qty))) false) m.pending_cross.aggressor_price (min iq (MBO.side m false).pending_cross_fill_qty) (remove_liquidity_pos inv.1) (remove_liquidity_sorted inv.2.1)).1.2.2.2.trans ((@remove_liquidity_sim (MBO.side m false) ip (iq - (min iq (MBO.side m false).pending_cross_fill_qty)) 1 (remove_liquidity (MBO.side m false) ip (iq - (min iq (MBO.side m false).pending_cross_fill_qty)) 1).1 (remove_liquidity (MBO.side m false) ip (iq - (min iq (MBO.side m false).pending_cross_fill_qty)) 1).2 inv.1 rfl).2.2.2.trans inv.2.2.2.2.1)),
             ((add_liquidity_sim inv.2.2.1 hr).2.2.2.trans inv.2.2.2.2.2)⟩
         · simp only [pair_append, pair_nil, pair_tick, pair_cc]
           rw [pair_side (projPair m) (@remove_liquidity_sim (MBO.side m false) ip (iq - (min iq (MBO.side m false).pending_cross_fill_qty)) 1 (remove_liquidity (MBO.side m false) ip (iq - (min iq (MBO.side m false).pending_cross_fill_qty)) 1).1 (remove_liquidity (MBO.side m false) ip (iq - (min iq (MBO.side m false).pending_cross_fill_qty)) 1).2 inv.1 rfl) inv.2.2.2.2.1 rfl]
           rw [pair_side (pairPut (projPair m) false (projSide (remove_liquidity (MBO.side m false) ip (iq - (min iq (MBO.side m false).pending_cross_fill_qty)) 1).1)) (@cross_sim gc (MBO.side (MBO.setSide (MBO.setSide m false (remove_liquidity (MBO.side m false) ip (iq - (min iq (MBO.side m false).pending_cross_fill_qty)) 1).1) false (unreserve_cross_fill (MBO.side (MBO.setSide m false (remove_liquidity (MBO.side m false) ip (iq - (min iq (MBO.side m false).pending_cross_fill_qty)) 1).1) false) (min iq (MBO.side m false).pending_cross_fill_qty))) false) m.pending_cross.aggressor_price (min iq (MBO.side m false).pending_cross_fill_qty) (remove_liquidity_pos inv.1) (remove_liquidity_sorted inv.2.1)).1 ((@remove_liquidity_sim (MBO.side m false) ip (iq - (min iq (MBO.side m false).pending_cross_fill_qty)) 1 (remove_liquidity (MBO.side m false) ip (iq - (min iq (MBO.side m false).pending_cross_fill_qty)) 1).1 (remove_liquidity (MBO.side m false) ip (iq - (min iq (MBO.side m false).pending_cross_fill_qty)) 1).2 inv.1 rfl).2.2.2.trans inv.2.2.2.2.1) rfl]
           rw [pair_side (pairPut (pairPut (projPair m) false (projSide (remove_liquidity (MBO.side m false) ip (iq - (min iq (MBO.side m false).pending_cross_fill_qty)) 1).1)) false (projSide (cross gc (MBO.side (MBO.setSide (MBO.setSide m false (remove_liquidity (MBO.side m false) ip (iq - (min iq (MBO.side m false).pending_cross_fill_qty)) 1).1) false (unreserve_cross_fill (MBO.side (MBO.setSide m false (remove_liquidity (MBO.side m false) ip (iq - (min iq (MBO.side m false).pending_cross_fill_qty)) 1).1) false) (min iq (MBO.side m false).pending_cross_fill_qty))) false) m.pending_cross.aggressor_price (min iq (MBO.side m false).pending_cross_fill_qty)).1)) (add_liquidity_sim inv.2.2.1 hr) inv.2.2.2.2.2 rfl]
           rfl)
      | (rename_i hx r hr hcc hres
         rw [if_neg hres] at hr
         cases hr
         refine ⟨?_, ?_⟩
         · exact ⟨(@cross_sim gc (MBO.side (MBO.setSide (MBO.setSide m false (remove_liquidity (MBO.side m false) ip (iq - (min iq (MBO.side m false).pending_cross_fill_qty)) 1).1) false (unreserve_cross_fill (MBO.side (MBO.setSide m false (remove_liquidity (MBO.side m false) ip (iq - (min iq (MBO.side m false).pending_cross_fill_qty)) 1).1) false) (min iq (MBO.side m false).pending_cross_fill_qty))) false) m.pending_cross.aggressor_price (min iq (MBO.side m false).pending_cross_fill_qty) (remove_liquidity_pos inv.1) (remove_liquidity_sorted inv.2.1)).2.1,
             (@cross_sim gc (MBO.side (MBO.setSide (MBO.setSide m false (remove_liquidity (MBO.side m false) ip (iq - (min iq (MBO.side m false).pending_cross_fill_qty)) 1).1) false (unreserve_cross_fill (MBO.side (MBO.setSide m false (remove_liquidity (MBO.side m false) ip (iq - (min iq (MBO.side m false).pending_cross_fill_qty)) 1).1) false) (min iq (MBO.side m false).pending_cross_fill_qty))) false) m.pending_cross.aggressor_price (min iq (MBO.side m false).pending_cross_fill_qty) (remove_liquidity_pos inv.1) (remove_liquidity_sorted inv.2.1)).2.2,
             inv.2.2.1,
             inv.2.2.2.1,
             ((@cross_sim gc (MBO.side (MBO.setSide (MBO.setSide m false (remove_liquidity (MBO.side m false) ip (iq - (min iq (MBO.side m false).pending_cross_fill_qty)) 1).1) false (unreserve_cross_fill (MBO.side (MBO.setSide m false (remove_liquidity (MBO.side m false) ip (iq - (min iq (MBO.side m false).pending_cross_fill_qty)) 1).1) false) (min iq (MBO.side m false).pending_cross_fill_qty))) false) m.pending_cross.aggressor_price (min iq (MBO.side m false).pending_cross_fill_qty) (remove_liquidity_pos inv.1) (remove_liquidity_sorted inv.2.1)).1.2.2.2.trans ((@remove_liquidity_sim (MBO.side m false) ip (iq - (min iq (MBO.side m false).pending_cross_fill_qty)) 1 (remove_liquidity (MBO.side m false) ip (iq - (min iq (MBO.side m false).pending_cross_fill_qty)) 1).1 (remove_liquidity (MBO.side m false) ip (iq - (min iq (MBO.side m false).pending_cross_fill_qty)) 1).2 inv.1 rfl).2.2.2.trans inv.2.2.2.2.1)),
             inv.2.2.2.2.2⟩
         · simp only [pair_append, pair_nil, pair_tick, pair_cc]
           rw [pair_side (projPair m) (@remove_liquidity_sim (MBO.side m false) ip (iq - (min iq (MBO.side m false).pending_cross_fill_qty)) 1 (remove_liquidity (MBO.side m false) ip (iq - (min iq (MBO.side m false).pending_cross_fill_qty)) 1).1 (remove_liquidity (MBO.side m false) ip (iq - (min iq (MBO.side m false).pending_cross_fill_qty)) 1).2 inv.1 rfl) inv.2.2.2.2.1 rfl]
           rw [pair_side (pairPut (projPair m) false (projSide (remove_liquidity (MBO.side m false) ip (iq - (min iq (MBO.side m false).pending_cross_fill_qty)) 1).1)) (@cross_sim gc (MBO.side (MBO.setSide (MBO.setSide m false (remove_liquidity (MBO.side m false) ip (iq - (min iq (MBO.side m false).pending_cross_fill_qty)) 1).1) false (unreserve_cross_fill (MBO.side (MBO.setSide m false (remove_liquidity (MBO.side m false) ip (iq - (min iq (MBO.side m false).pending_cross_fill_qty)) 1).1) false) (min iq (MBO.side m false).pending_cross_fill_qty))) false) m.pending_cross.aggressor_price (min iq (MBO.side m false).pending_cross_fill_qty) (remove_liquidity_pos inv.1) (remove_liquidity_sorted inv.2.1)).1 ((@remove_liquidity_sim (MBO.side m false) ip (iq - (min iq (MBO.side m false).pending_cross_fill_qty)) 1 (remove_liquidity (MBO.side m false) ip (iq - (min iq (MBO.side m false).pending_cross_fill_qty)) 1).1 (remove_liquidity (MBO.side m false) ip (iq - (min iq (MBO.side m false).pending_cross_fill_qty)) 1).2 inv.1 rfl).2.2.2.trans inv.2.2.2.2.1) rfl]
           rfl)
    · simp only [cancel_order, hfind, hA, Bool.not_false, Bool.not_true,
        Bool.false_eq_true, eq_self_iff_true, if_true, if_false,
        bne_self_eq_false, Bool.bne_true, Bool.bne_false, Bool.and_false,
        Bool.false_and, Bool.and_true] at h
      repeat' split at h
      all_goals cases h
      all_goals first
      | (refine ⟨?_, ?_⟩
         · exact ⟨inv.1,
             inv.2.1,
             remove_liquidity_pos inv.2.2.1,
             remove_liquidity_sorted inv.2.2.2.1,
             inv.2.2.2.2.1,
             ((@remove_liquidity_sim (MBO.side m true) ip iq 1 (remove_liquidity (MBO.side m true) ip iq 1).1 (remove_liquidity (MBO.side m true) ip iq 1).2 inv.2.2.1 rfl).2.2.2.trans inv.2.2.2.2.2)⟩
         · simp only [pair_append, pair_nil, pair_tick, pair_cc]
           rw [pair_side (projPair m) (@remove_liquidity_sim (MBO.side m true) ip iq 1 (remove_liquidity (MBO.side m true) ip iq 1).1 (remove_liquidity (MBO.side m true) ip iq 1).2 inv.2.2.1 rfl) inv.2.2.2.2.2 rfl]
           rfl)
      | (rename_i hself hx u hu hrr
         refine ⟨?_, ?_⟩
         · exact ⟨inv.1,
             inv.2.1,
             remove_liquidity_pos (uncross_sim inv.2.2.1 inv.2.2.2.1 hu).2.1,
             remove_liquidity_sorted (uncross_sim inv.2.2.1 inv.2.2.2.1 hu).2.2.1,
             inv.2.2.2.2.1,
             ((@remove_liquidity_sim (MBO.side (MBO.setSide m true u.1) true) ip (iq - (MBO.side m true).pending_cross_fill_qty) 1 (remove_liquidity (MBO.side (MBO.setSide m true u.1) true) ip (iq - (MBO.side m true).pending_cross_fill_qty) 1).1 (remove_liquidity (MBO.side (MBO.setSide m true u.1) true) ip (iq - (MBO.side m true).pending_cross_fill_qty) 1).2 (uncross_sim inv.2.2.1 inv.2.2.2.1 hu).2.1 rfl).2.2.2.trans ((uncross_sim inv.2.2.1 inv.2.2.2.1 hu).1.2.2.2.trans inv.2.2.2.2.2))⟩
         · simp only [pair_append, pair_nil, pair_tick, pair_cc]
           rw [pair_side (projPair m) (uncross_sim inv.2.2.1 inv.2.2.2.1 hu).1 inv.2.2.2.2.2 rfl]
           rw [pair_side (pairPut (projPair m) true (projSide u.1)) (@remove_liquidity_sim (MBO.side (MBO.setSide m true u.1) true) ip (iq - (MBO.side m true).pending_cross_fill_qty) 1 (remove_liquidity (MBO.side (MBO.setSide m true u.1) true) ip (iq - (MBO.side m true).pending_cross_fill_qty) 1).1 (remove_liquidity (MBO.side (MBO.setSide m true u.1) true) ip (iq - (MBO.side m true).pending_cross_fill_qty) 1).2 (uncross_sim inv.2.2.1 inv.2.2.2.1 hu).2.1 rfl) ((uncross_sim inv.2.2.1 inv.2.2.2.1 hu).1.2.2.2.trans inv.2.2.2.2.2) rfl]
           rfl)
      | (rename_i hself hx u hu hrr
         refine ⟨?_, ?_⟩
         · exact ⟨inv.1,
             inv.2.1,
             (uncross_sim inv.2.2.1 inv.2.2.2.1 hu).2.1,
             (uncross_sim inv.2.2.1 inv.2.2.2.1 hu).2.2.1,
             inv.2.2.2.2.1,
             ((uncross_sim inv.2.2.1 inv.2.2.2.1 hu).1.2.2.2.trans inv.2.2.2.2.2)⟩
         · simp only [pair_append, pair_nil, pair_tick, pair_cc]
           rw [pair_side (projPair m) (uncross_sim inv.2.2.1 inv.2.2.2.1 hu).1 inv.2.2.2.2.2 rfl]
           rfl)
      | (rename_i hx r hr hcc hres
         rw [if_pos hres] at hr
         refine ⟨?_, ?_⟩
         · exact ⟨add_liquidity_pos inv.1 hres hr,
             add_liquidity_sorted inv.2.1 hr,
             (@cross_sim gc (MBO.side (MBO.setSide (MBO.setSide m true (remove_liquidity (MBO.side m true) ip (iq - (min iq (MBO.side m true).pending_cross_fill_qty)) 1).1) true (unreserve_cross_fill (MBO.side (MBO.setSide m true (remove_liquidity (MBO.side m true) ip (iq - (min iq (MBO.side m true).pending_cross_fill_qty)) 1).1) true) (min iq (MBO.side m true).pending_cross_fill_qty))) true) m.pending_cross.aggressor_price (min iq (MBO.side m true).pending_cross_fill_qty) (remove_liquidity_pos inv.2.2.1) (remove_liquidity_sorted inv.2.2.2.1)).2.1,
             (@cross_sim gc (MBO.side (MBO.setSide (MBO.setSide m true (remove_liquidity (MBO.side m true) ip (iq - (min iq (MBO.side m true).pending_cross_fill_qty)) 1).1) true (unreserve_cross_fill (MBO.side (MBO.setSide m true (remove_liquidity (MBO.side m true) ip (iq - (min iq (MBO.side m true).pending_cross_fill_qty)) 1).1) true) (min iq (MBO.side m true).pending_cross_fill_qty))) true) m.pending_cross.aggressor_price (min iq (MBO.side m true).pending_cross_fill_qty) (remove_liquidity_pos inv.2.2.1) (remove_liquidity_sorted inv.2.2.2.1)).2.2,
             ((add_liquidity_sim inv.1 hr).2.2.2.trans inv.2.2.2.2.1),
             ((@cross_sim gc (MBO.side (MBO.setSide (MBO.setSide m true (remove_liquidity (MBO.side m true) ip (iq - (min iq (MBO.side m true).pending_cross_fill_qty)) 1).1) true (unreserve_cross_fill (MBO.side (MBO.setSide m true (remove_liquidity (MBO.side m true) ip (iq - (min iq (MBO.side m true).pending_cross_fill_qty)) 1).1) true) (min iq (MBO.side m true).pending_cross_fill_qty))) true) m.pending_cross.aggressor_price (min iq (MBO.side m true).pending_cross_fill_qty) (remove_liquidity_pos inv.2.2.1) (remove_liquidity_sorted inv.2.2.2.1)).1.2.2.2.trans ((@remove_liquidity_sim (MBO.side m true) ip (iq - (min iq (MBO.side m true).pending_cross_fill_qty)) 1 (remove_liquidity (MBO.side m true) ip (iq - (min iq (MBO.side m true).pending_cross_fill_qty)) 1).1 (remove_liquidity (MBO.side m true) ip (iq - (min iq (MBO.side m true).pending_cross_fill_qty)) 1).2 inv.2.2.1 rfl).2.2.2.trans inv.2.2.2.2.2))⟩
         · simp only [pair_append, pair_nil, pair_tick, pair_cc]
           rw [pair_side (projPair m) (@remove_liquidity_sim (MBO.side m true) ip (iq - (min iq (MBO.side m true).pending_cross_fill_qty)) 1 (remove_liquidity (MBO.side m true) ip (iq - (min iq (MBO.side m true).pending_cross_fill_qty)) 1).1 (remove_liquidity (MBO.side m true) ip (iq - (min iq (MBO.side m true).pending_cross_fill_qty)) 1).2 inv.2.2.1 rfl) inv.2.2.2.2.2 rfl]
           rw [pair_side (pairPut (projPair m) true (projSide (remove_liquidity (MBO.side m true) ip (iq - (min iq (MBO.side m true).pending_cross_fill_qty)) 1).1)) (@cross_sim gc (MBO.side (MBO.setSide (MBO.setSide m true (remove_liquidity (MBO.side m true) ip (iq - (min iq (MBO.side m true).pending_cross_fill_qty)) 1).1) true (unreserve_cross_fill (MBO.side (MBO.setSide m true (remove_liquidity (MBO.side m true) ip (iq - (min iq (MBO.side m true).pending_cross_fill_qty)) 1).1) true) (min iq (MBO.side m true).pending_cross_fill_qty))) true) m.pending_cross.aggressor_price (min iq (MBO.side m true).pending_cross_fill_qty) (remove_liquidity_pos inv.2.2.1) (remove_liquidity_sorted inv.2.2.2.1)).1 ((@remove_liquidity_sim (MBO.side m true) ip (iq - (min iq (MBO.side m true).pending_cross_fill_qty)) 1 (remove_liquidity (MBO.side m true) ip (iq - (min iq (MBO.side m true).pending_cross_fill_qty)) 1).1 (remove_liquidity (MBO.side m true) ip (iq - (min iq (MBO.side m true).pending_cross_fill_qty)) 1).2 inv.2.2.1 rfl).2.2.2.trans inv.2.2.2.2.2) rfl]
           rw [pair_side (pairPut (pairPut (projPair m) true (projSide (remove_liquidity (MBO.side m true) ip (iq - (min iq (MBO.side m true).pending_cross_fill_qty)) 1).1)) true (projSide (cross gc (MBO.side (MBO.setSide (MBO.setSide m true (remove_liquidity (MBO.side m true) ip (iq - (min iq (MBO.side m true).pending_cross_fill_qty)) 1).1) true (unreserve_cross_fill (MBO.side (MBO.setSide m true (remove_liquidity (MBO.side m true) ip (iq - (min iq (MBO.side m true).pending_cross_fill_qty)) 1).1) true) (min iq (MBO.side m true).pending_cross_fill_qty))) true) m.pending_cross.aggressor_price (min iq (MBO.side m true).pending_cross_fill_qty)).1)) (add_liquidity_sim inv.1 hr) inv.2.2.2.2.1 rfl]
           rfl)
      | (rename_i hx r hr hcc hres
         rw [if_neg hres] at hr
         cases hr
         refine ⟨?_, ?_⟩
         · exact ⟨inv.1,
             inv.2.1,
             (@cross_sim gc (MBO.side (MBO.setSide (MBO.setSide m true (remove_liquidity (MBO.side m true) ip (iq - (min iq (MBO.side m true).pending_cross_fill_qty)) 1).1) true (unreserve_cross_fill (MBO.side (MBO.setSide m true (remove_liquidity (MBO.side m true) ip (iq - (min iq (MBO.side m true).pending_cross_fill_qty)) 1).1) true) (min iq (MBO.side m true).pending_cross_fill_qty))) true) m.pending_cross.aggressor_price (min iq (MBO.side m true).pending_cross_fill_qty) (remove_liquidity_pos inv.2.2.1) (remove_liquidity_sorted inv.2.2.2.1)).2.1,
             (@cross_sim gc (MBO.side (MBO.setSide (MBO.setSide m true (remove_liquidity (MBO.side m true) ip (iq - (min iq (MBO.side m true).pending_cross_fill_qty)) 1).1) true (unreserve_cross_fill (MBO.side (MBO.setSide m true (remove_liquidity (MBO.side m true) ip (iq - (min iq (MBO.side m true).pending_cross_fill_qty)) 1).1) true) (min iq (MBO.side m true).pending_cross_fill_qty))) true) m.pending_cross.aggressor_price (min iq (MBO.side m true).pending_cross_fill_qty) (remove_liquidity_pos inv.2.2.1) (remove_liquidity_sorted inv.2.2.2.1)).2.2,
             inv.2.2.2.2.1,
             ((@cross_sim gc (MBO.side (MBO.setSide (MBO.setSide m true (remove_liquidity (MBO.side m true) ip (iq - (min iq (MBO.side m true).pending_cross_fill_qty)) 1).1) true (unreserve_cross_fill (MBO.side (MBO.setSide m true (remove_liquidity (MBO.side m true) ip (iq - (min iq (MBO.side m true).pending_cross_fill_qty)) 1).1) true) (min iq (MBO.side m true).pending_cross_fill_qty))) true) m.pending_cross.aggressor_price (min iq (MBO.side m true).pending_cross_fill_qty) (remove_liquidity_pos inv.2.2.1) (remove_liquidity_sorted inv.2.2.2.1)).1.2.2.2.trans ((@remove_liquidity_sim (MBO.side m true) ip (iq - (min iq (MBO.side m true).pending_cross_fill_qty)) 1 (remove_liquidity (MBO.side m true) ip (iq - (min iq (MBO.side m true).pending_cross_fill_qty)) 1).1 (remove_liquidity (MBO.side m true) ip (iq - (min iq (MBO.side m true).pending_cross_fill_qty)) 1).2 inv.2.2.1 rfl).2.2.2.trans inv.2.2.2.2.2))⟩
         · simp only [pair_append, pair_nil, pair_tick, pair_cc]
           rw [pair_side (projPair m) (@remove_liquidity_sim (MBO.side m true) ip (iq - (min iq (MBO.side m true).pending_cross_fill_qty)) 1 (remove_liquidity (MBO.side m true) ip (iq - (min iq (MBO.side m true).pending_cross_fill_qty)) 1).1 (remove_liquidity (MBO.side m true) ip (iq - (min iq (MBO.side m true).pending_cross_fill_qty)) 1).2 inv.2.2.1 rfl) inv.2.2.2.2.2 rfl]
           rw [pair_side (pairPut (projPair m) true (projSide (remove_liquidity (MBO.side m true) ip (iq - (min iq (MBO.side m true).pending_cross_fill_qty)) 1).1)) (@cross_sim gc (MBO.side (MBO.setSide (MBO.setSide m true (remove_liquidity (MBO.side m true) ip (iq - (min iq (MBO.side m true).pending_cross_fill_qty)) 1).1) true (unreserve_cross_fill (MBO.side (MBO.setSide m true (remove_liquidity (MBO.side m true) ip (iq - (min iq (MBO.side m true).pending_cross_fill_qty)) 1).1) true) (min iq (MBO.side m true).pending_cross_fill_qty))) true) m.pending_cross.aggressor_price (min iq (MBO.side m true).pending_cross_fill_qty) (remove_liquidity_pos inv.2.2.1) (remove_liquidity_sorted inv.2.2.2.1)).1 ((@remove_liquidity_sim (MBO.side m true) ip (iq - (min iq (MBO.side m true).pending_cross_fill_qty)) 1 (remove_liquidity (MBO.side m true) ip (iq - (min iq (MBO.side m true).pending_cross_fill_qty)) 1).1 (remove_liquidity (MBO.side m true) ip (iq - (min iq (MBO.side m true).pending_cross_fill_qty)) 1).2 inv.2.2.1 rfl).2.2.2.trans inv.2.2.2.2.2) rfl]
           rfl)
    · simp only [cancel_order, hfind, hA, Bool.not_false, Bool.not_true,
        Bool.false_eq_true, eq_self_iff_true, if_true, if_false,
        bne_self_eq_false, Bool.bne_true, Bool.bne_false, Bool.and_false,
        Bool.false_and, Bool.and_true] at h
      repeat' split at h
      all_goals cases h
      all_goals first
      | (refine ⟨?_, ?_⟩
         · exact ⟨inv.1,
             inv.2.1,
             remove_liquidity_pos inv.2.2.1,
             remove_liquidity_sorted inv.2.2.2.1,
             inv.2.2.2.2.1,
             ((@remove_liquidity_sim (MBO.side m true) ip iq 1 (remove_liquidity (MBO.side m true) ip iq 1).1 (remove_liquidity (MBO.side m true) ip iq 1).2 inv.2.2.1 rfl).2.2.2.trans inv.2.2.2.2.2)⟩
         · simp only [pair_append, pair_nil, pair_tick, pair_cc]
           rw [pair_side (projPair m) (@remove_liquidity_sim (MBO.side m true) ip iq 1 (remove_liquidity (MBO.side m true) ip iq 1).1 (remove_liquidity (MBO.side m true) ip iq 1).2 inv.2.2.1 rfl) inv.2.2.2.2.2 rfl]
           rfl)
      | (rename_i hself hx u hu hrr
         refine ⟨?_, ?_⟩
         · exact ⟨(uncross_sim inv.1 inv.2.1 hu).2.1,
             (uncross_sim inv.1 inv.2.1 hu).2.2.1,
             remove_liquidity_pos inv.2.2.1,
             remove_liquidity_sorted inv.2.2.2.1,
             ((uncross_sim inv.1 inv.2.1 hu).1.2.2.2.trans inv.2.2.2.2.1),
             ((@remove_liquidity_sim (MBO.side (MBO.setSide m false u.1) true) ip (iq - (MBO.side m false).pending_cross_fill_qty) 1 (remove_liquidity (MBO.side (MBO.setSide m false u.1) true) ip (iq - (MBO.side m false).pending_cross_fill_qty) 1).1 (remove_liquidity (MBO.side (MBO.setSide m false u.1) true) ip (iq - (MBO.side m false).pending_cross_fill_qty) 1).2 inv.2.2.1 rfl).2.2.2.trans inv.2.2.2.2.2)⟩
         · simp only [pair_append, pair_nil, pair_tick, pair_cc]
           rw [pair_side (projPair m) (uncross_sim inv.1 inv.2.1 hu).1 inv.2.2.2.2.1 rfl]
           rw [pair_side (pairPut (projPair m) false (projSide u.1)) (@remove_liquidity_sim (MBO.side (MBO.setSide m false u.1) true) ip (iq - (MBO.side m false).pending_cross_fill_qty) 1 (remove_liquidity (MBO.side (MBO.setSide m false u.1) true) ip (iq - (MBO.side m false).pending_cross_fill_qty) 1).1 (remove_liquidity (MBO.side (MBO.setSide m false u.1) true) ip (iq - (MBO.side m false).pending_cross_fill_qty) 1).2 inv.2.2.1 rfl) inv.2.2.2.2.2 rfl]
           rfl)
      | (rename_i hself hx u hu hrr
         refine ⟨?_, ?_⟩
         · exact ⟨(uncross_sim inv.1 inv.2.1 hu).2.1,
             (uncross_sim inv.1 inv.2.1 hu).2.2.1,
             inv.2.2.1,
             inv.2.2.2.1,
             ((uncross_sim inv.1 inv.2.1 hu).1.2.2.2.trans inv.2.2.2.2.1),
             inv.2.2.2.2.2⟩
         · simp only [pair_append, pair_nil, pair_tick, pair_cc]
           rw [pair_side (projPair m) (uncross_sim inv.1 inv.2.1 hu).1 inv.2.2.2.2.1 rfl]
           rfl)


/-! ### Zero-delta updates and field-only side rewrites -/

theorem projSide_getD (s : PriceLevels) (idx : Nat) (hidx : idx < 20) :
    (projSide s).getD idx zeroLevel
      = ((s.levels[idx]?).map (levelOut s.is_ask)).getD zeroLevel := by
  rw [List.getD_eq_getElem?_getD, projSide_getElem?, if_pos hidx]
  rfl

/-- A zero-quantity, zero-count update leaves the projected mirror unchanged:
the touched row either holds a strictly positive level (set branch, adding
zero) or lies in the zero padding (delete branch, shifting zeros). -/
theorem mirrorUpdate_zero {s : PriceLevels} (hpos : PosLevels s.levels)
    {idx : Nat} (hidx : idx < 20) :
    mirrorUpdate (projSide s) idx 0 0 = projSide s := by
  by_cases hdel : ((projSide s).getD idx zeroLevel).qty + 0 ≤ 0
  · have hnone : s.levels[idx]? = none := by
      match hx : s.levels[idx]? with
      | none => rfl
      | some e =>
        exfalso
        have he : 0 < e.aqty := hpos e (List.getElem?_mem hx)
        rw [projSide_getD s idx hidx, hx] at hdel
        simp [levelOut] at hdel
        omega
    have hlen : s.levels.length ≤ idx := by
      by_contra hc
      push_neg at hc
      rw [List.getElem?_eq_getElem hc] at hnone
      cases hnone
    have hzero : ∀ j, idx ≤ j → j < 20 → (projSide s)[j]? = some zeroLevel := by
      intro j hj hj20
      rw [projSide_getElem?, if_pos hj20, List.getElem?_eq_none (by omega)]
      rfl
    apply List.ext_getElem?
    intro j
    rw [mirrorUpdate_del_getElem? _ _ _ _ (projSide_length s) hidx hdel j]
    rcases lt_or_le j idx with h1 | h1
    · rw [if_pos h1]
    · rw [if_neg (by omega)]
      rcases lt_or_le j 19 with h2 | h2
      · rw [if_pos h2, hzero (j + 1) (by omega) (by omega), hzero j h1 (by omega)]
      · rcases eq_or_lt_of_le h2 with h3 | h3
        · rw [if_neg (by omega), if_pos h3.symm, hzero j h1 (by omega)]
        · rw [if_neg (by omega), if_neg (by omega), projSide_getElem?,
            if_neg (by omega)]
  · apply List.ext_getElem?
    intro j
    rw [mirrorUpdate_set_getElem? _ _ _ _ (projSide_length s) hidx hdel j]
    rcases eq_or_ne j idx with h1 | h1
    · rw [if_pos h1, h1]
      have hsome : (projSide s)[idx]? = some ((projSide s).getD idx zeroLevel) := by
        rw [List.getD_eq_getElem?_getD]
        match hx : (projSide s)[idx]? with
        | some a => rfl
        | none =>
          exfalso
          have := projSide_length s
          by_contra hy
          rw [List.getElem?_eq_getElem (by omega)] at hx
          cases hx
      rw [hsome]
      simp
    · rw [if_neg h1]

/-- Applying one zero-delta update to either pair component is the identity. -/
theorem pair_zero_update {s : PriceLevels} {f : Bool} {idx : Nat}
    (mp : Mirror × Mirror) (hpos : PosLevels s.levels) (hf : s.is_ask = f)
    (hidx : idx < 20) (hm : pairGet mp f = projSide s) :
    apply_deltas_to_book mp [Delta.update f idx 0 0] = mp := by
  have hup : mirrorUpdate (projSide s) idx 0 0 = projSide s :=
    mirrorUpdate_zero hpos hidx
  cases f
  · show (applyDeltasSide false mp.1 _, applyDeltasSide true mp.2 _) = mp
    have h1 : applyDeltasSide false mp.1 [Delta.update false idx 0 0] = mp.1 := by
      show (if false = false then mirrorUpdate mp.1 idx 0 0 else mp.1) = mp.1
      rw [if_pos rfl, show mp.1 = projSide s from hm, hup]
    have h2 : applyDeltasSide true mp.2 [Delta.update false idx 0 0] = mp.2 := by
      show (if false = true then mirrorUpdate mp.2 idx 0 0 else mp.2) = mp.2
      rw [if_neg (by simp)]
    rw [h1, h2]
  · show (applyDeltasSide false mp.1 _, applyDeltasSide true mp.2 _) = mp
    have h1 : applyDeltasSide false mp.1 [Delta.update true idx 0 0] = mp.1 := by
      show (if true = false then mirrorUpdate mp.1 idx 0 0 else mp.1) = mp.1
      rw [if_neg (by simp)]
    have h2 : applyDeltasSide true mp.2 [Delta.update true idx 0 0] = mp.2 := by
      show (if true = true then mirrorUpdate mp.2 idx 0 0 else mp.2) = mp.2
      rw [if_pos rfl, show mp.2 = projSide s from hm, hup]
    rw [h1, h2]

/-- `emit_update` with zero deltas never changes the receiver pair. -/
theorem pair_zero_emit {s : PriceLevels} {f : Bool} {idx : Nat}
    (mp : Mirror × Mirror) (hpos : PosLevels s.levels) (hf : s.is_ask = f)
    (hm : pairGet mp f = projSide s) :
    apply_deltas_to_book mp (emit_update f idx 0 0) = mp := by
  by_cases hi : topDepth ≤ idx
  · unfold emit_update
    rw [if_pos hi]
    rfl
  · unfold emit_update
    rw [if_neg hi]
    exact pair_zero_update mp hpos hf (by simpa [topDepth] using hi) hm

/-- `setSide` with a field-only rewrite of the same side keeps the invariant. -/
theorem Inv_setSide_levels {m : MBO} {f : Bool} {s' : PriceLevels} (inv : Inv m)
    (hl : s'.levels = (m.side f).levels) (ha : s'.is_ask = (m.side f).is_ask) :
    Inv (m.setSide f s') := by
  obtain ⟨pb, sb, pa, sa, fb, fa⟩ := inv
  cases f
  · exact ⟨by show PosLevels s'.levels; rw [hl]; exact pb,
      by show SortedLevels s'.levels; rw [hl]; exact sb, pa, sa,
      by show s'.is_ask = false; rw [ha]; exact fb, fa⟩
  · exact ⟨pb, sb, by show PosLevels s'.levels; rw [hl]; exact pa,
      by show SortedLevels s'.levels; rw [hl]; exact sa, fb,
      by show s'.is_ask = true; rw [ha]; exact fa⟩

/-- `setSide` with a field-only rewrite of the same side keeps the projection. -/
theorem projPair_setSide_levels {m : MBO} {f : Bool} {s' : PriceLevels}
    (hl : s'.levels = (m.side f).levels) (ha : s'.is_ask = (m.side f).is_ask) :
    projPair (m.setSide f s') = projPair m := by
  have hproj : projSide s' = projSide (m.side f) := by
    unfold projSide
    rw [hl, ha]
  cases f
  · show (projSide s', projSide m.asks) = (projSide m.bids, projSide m.asks)
    rw [hproj]
    rfl
  · show (projSide m.bids, projSide s') = (projSide m.bids, projSide m.asks)
    rw [hproj]
    rfl

set_option maxHeartbeats 1600000 in
/-- One `trade` leg preserves the invariant and the mirror correspondence. -/
theorem tradeLeg_sim {m : MBO} {orig : Option OrderInfo} {oid : Int}
    {remaining reconciled : Int} {agg : Bool} {fill_qty : Int}
    {pc : PendingCross} {m' : MBO} {ds : List Delta} (inv : Inv m)
    (h : tradeLeg m orig oid remaining reconciled agg fill_qty pc
      = some (m', ds)) :
    Inv m' ∧ apply_deltas_to_book (projPair m) ds = projPair m' := by
  cases orig
  · simp only [tradeLeg] at h
    cases h
    exact ⟨inv, pair_nil _⟩
  · rcases hfind : omFind m.order_map oid with _ | ⟨ia, ip, iq⟩
    · simp only [tradeLeg, hfind] at h
      cases h
    · cases ia
      all_goals simp only [tradeLeg, hfind, Bool.not_false, Bool.not_true,
        Bool.false_eq_true, eq_self_iff_true, if_true, if_false] at h
      all_goals repeat' split at h
      all_goals cases h
      all_goals first
      | (refine ⟨?_, ?_⟩
         · exact ⟨remove_liquidity_pos inv.1,
               remove_liquidity_sorted inv.2.1,
               inv.2.2.1,
               inv.2.2.2.1,
               ((@remove_liquidity_sim (MBO.side { m with order_map := omInsert m.order_map oid ⟨false, ip, iq - fill_qty⟩ } false) ip remaining 1 (remove_liquidity (MBO.side { m with order_map := omInsert m.order_map oid ⟨false, ip, iq - fill_qty⟩ } false) ip remaining 1).1 (remove_liquidity (MBO.side { m with order_map := omInsert m.order_map oid ⟨false, ip, iq - fill_qty⟩ } false) ip remaining 1).2 inv.1 rfl).2.2.2.trans inv.2.2.2.2.1),
               inv.2.2.2.2.2⟩
         · rw [pair_side (projPair m) (@remove_liquidity_sim (MBO.side { m with order_map := omInsert m.order_map oid ⟨false, ip, iq - fill_qty⟩ } false) ip remaining 1 (remove_liquidity (MBO.side { m with order_map := omInsert m.order_map oid ⟨false, ip, iq - fill_qty⟩ } false) ip remaining 1).1 (remove_liquidity (MBO.side { m with order_map := omInsert m.order_map oid ⟨false, ip, iq - fill_qty⟩ } false) ip remaining 1).2 inv.1 rfl) inv.2.2.2.2.1 rfl]
           rfl)
      | (refine ⟨?_, ?_⟩
         · exact Inv_of_eq_sides (@Inv_setSide_levels (MBO.setSide { m with order_map := omInsert m.order_map oid ⟨false, ip, iq - fill_qty⟩ } false (remove_liquidity (MBO.side { m with order_map := omInsert m.order_map oid ⟨false, ip, iq - fill_qty⟩ } false) ip remaining 1).1) (!agg) (reconcile_cross_count (MBO.side (MBO.setSide { m with order_map := omInsert m.order_map oid ⟨false, ip, iq - fill_qty⟩ } false (remove_liquidity (MBO.side { m with order_map := omInsert m.order_map oid ⟨false, ip, iq - fill_qty⟩ } false) ip remaining 1).1) (!agg)) 1) (show Inv (MBO.setSide { m with order_map := omInsert m.order_map oid ⟨false, ip, iq - fill_qty⟩ } false (remove_liquidity (MBO.side { m with order_map := omInsert m.order_map oid ⟨false, ip, iq - fill_qty⟩ } false) ip remaining 1).1) from ⟨remove_liquidity_pos inv.1,
               remove_liquidity_sorted inv.2.1,
               inv.2.2.1,
               inv.2.2.2.1,
               ((@remove_liquidity_sim (MBO.side { m with order_map := omInsert m.order_map oid ⟨false, ip, iq - fill_qty⟩ } false) ip remaining 1 (remove_liquidity (MBO.side { m with order_map := omInsert m.order_map oid ⟨false, ip, iq - fill_qty⟩ } false) ip remaining 1).1 (remove_liquidity (MBO.side { m with order_map := omInsert m.order_map oid ⟨false, ip, iq - fill_qty⟩ } false) ip remaining 1).2 inv.1 rfl).2.2.2.trans inv.2.2.2.2.1),
               inv.2.2.2.2.2⟩) rfl rfl) rfl rfl
         · rw [pair_side (projPair m) (@remove_liquidity_sim (MBO.side { m with order_map := omInsert m.order_map oid ⟨false, ip, iq - fill_qty⟩ } false) ip remaining 1 (remove_liquidity (MBO.side { m with order_map := omInsert m.order_map oid ⟨false, ip, iq - fill_qty⟩ } false) ip remaining 1).1 (remove_liquidity (MBO.side { m with order_map := omInsert m.order_map oid ⟨false, ip, iq - fill_qty⟩ } false) ip remaining 1).2 inv.1 rfl) inv.2.2.2.2.1 rfl]
           exact (show pairPut (projPair m) false (projSide (remove_liquidity (MBO.side { m with order_map := omInsert m.order_map oid ⟨false, ip, iq - fill_qty⟩ } false) ip remaining 1).1) = projPair (MBO.setSide { m with order_map := omInsert m.order_map oid ⟨false, ip, iq - fill_qty⟩ } false (remove_liquidity (MBO.side { m with order_map := omInsert m.order_map oid ⟨false, ip, iq - fill_qty⟩ } false) ip remaining 1).1) from rfl).trans (@projPair_setSide_levels (MBO.setSide { m with order_map := omInsert m.order_map oid ⟨false, ip, iq - fill_qty⟩ } false (remove_liquidity (MBO.side { m with order_map := omInsert m.order_map oid ⟨false, ip, iq - fill_qty⟩ } false) ip remaining 1).1) (!agg) (reconcile_cross_count (MBO.side (MBO.setSide { m with order_map := omInsert m.order_map oid ⟨false, ip, iq - fill_qty⟩ } false (remove_liquidity (MBO.side { m with order_map := omInsert m.order_map oid ⟨false, ip, iq - fill_qty⟩ } false) ip remaining 1).1) (!agg)) 1) rfl rfl).symm)
      | (refine ⟨?_, ?_⟩
         · exact ⟨remove_liquidity_pos inv.1,
               remove_liquidity_sorted inv.2.1,
               inv.2.2.1,
               inv.2.2.2.1,
               ((@remove_liquidity_sim (MBO.side { m with order_map := omInsert m.order_map oid ⟨false, ip, iq - fill_qty⟩ } false) ip remaining 0 (remove_liquidity (MBO.side { m with order_map := omInsert m.order_map oid ⟨false, ip, iq - fill_qty⟩ } false) ip remaining 0).1 (remove_liquidity (MBO.side { m with order_map := omInsert m.order_map oid ⟨false, ip, iq - fill_qty⟩ } false) ip remaining 0).2 inv.1 rfl).2.2.2.trans inv.2.2.2.2.1),
               inv.2.2.2.2.2⟩
         · rw [pair_side (projPair m) (@remove_liquidity_sim (MBO.side { m with order_map := omInsert m.order_map oid ⟨false, ip, iq - fill_qty⟩ } false) ip remaining 0 (remove_liquidity (MBO.side { m with order_map := omInsert m.order_map oid ⟨false, ip, iq - fill_qty⟩ } false) ip remaining 0).1 (remove_liquidity (MBO.side { m with order_map := omInsert m.order_map oid ⟨false, ip, iq - fill_qty⟩ } false) ip remaining 0).2 inv.1 rfl) inv.2.2.2.2.1 rfl]
           rfl)
      | (refine ⟨?_, ?_⟩
         · exact Inv_of_eq_sides (@Inv_setSide_levels (MBO.setSide { m with order_map := omInsert m.order_map oid ⟨false, ip, iq - fill_qty⟩ } false (remove_liquidity (MBO.side { m with order_map := omInsert m.order_map oid ⟨false, ip, iq - fill_qty⟩ } false) ip remaining 0).1) (!agg) (reconcile_cross_count (MBO.side (MBO.setSide { m with order_map := omInsert m.order_map oid ⟨false, ip, iq - fill_qty⟩ } false (remove_liquidity (MBO.side { m with order_map := omInsert m.order_map oid ⟨false, ip, iq - fill_qty⟩ } false) ip remaining 0).1) (!agg)) 1) (show Inv (MBO.setSide { m with order_map := omInsert m.order_map oid ⟨false, ip, iq - fill_qty⟩ } false (remove_liquidity (MBO.side { m with order_map := omInsert m.order_map oid ⟨false, ip, iq - fill_qty⟩ } false) ip remaining 0).1) from ⟨remove_liquidity_pos inv.1,
               remove_liquidity_sorted inv.2.1,
               inv.2.2.1,
               inv.2.2.2.1,
               ((@remove_liquidity_sim (MBO.side { m with order_map := omInsert m.order_map oid ⟨false, ip, iq - fill_qty⟩ } false) ip remaining 0 (remove_liquidity (MBO.side { m with order_map := omInsert m.order_map oid ⟨false, ip, iq - fill_qty⟩ } false) ip remaining 0).1 (remove_liquidity (MBO.side { m with order_map := omInsert m.order_map oid ⟨false, ip, iq - fill_qty⟩ } false) ip remaining 0).2 inv.1 rfl).2.2.2.trans inv.2.2.2.2.1),
               inv.2.2.2.2.2⟩) rfl rfl) rfl rfl
         · rw [pair_side (projPair m) (@remove_liquidity_sim (MBO.side { m with order_map := omInsert m.order_map oid ⟨false, ip, iq - fill_qty⟩ } false) ip remaining 0 (remove_liquidity (MBO.side { m with order_map := omInsert m.order_map oid ⟨false, ip, iq - fill_qty⟩ } false) ip remaining 0).1 (remove_liquidity (MBO.side { m with order_map := omInsert m.order_map oid ⟨false, ip, iq - fill_qty⟩ } false) ip remaining 0).2 inv.1 rfl) inv.2.2.2.2.1 rfl]
           exact (show pairPut (projPair m) false (projSide (remove_liquidity (MBO.side { m with order_map := omInsert m.order_map oid ⟨false, ip, iq - fill_qty⟩ } false) ip remaining 0).1) = projPair (MBO.setSide { m with order_map := omInsert m.order_map oid ⟨false, ip, iq - fill_qty⟩ } false (remove_liquidity (MBO.side { m with order_map := omInsert m.order_map oid ⟨false, ip, iq - fill_qty⟩ } false) ip remaining 0).1) from rfl).trans (@projPair_setSide_levels (MBO.setSide { m with order_map := omInsert m.order_map oid ⟨false, ip, iq - fill_qty⟩ } false (remove_liquidity (MBO.side { m with order_map := omInsert m.order_map oid ⟨false, ip, iq - fill_qty⟩ } false) ip remaining 0).1) (!agg) (reconcile_cross_count (MBO.side (MBO.setSide { m with order_map := omInsert m.order_map oid ⟨false, ip, iq - fill_qty⟩ } false (remove_liquidity (MBO.side { m with order_map := omInsert m.order_map oid ⟨false, ip, iq - fill_qty⟩ } false) ip remaining 0).1) (!agg)) 1) rfl rfl).symm)
      | (refine ⟨?_, ?_⟩
         · exact ⟨remove_liquidity_pos inv.1,
               remove_liquidity_sorted inv.2.1,
               inv.2.2.1,
               inv.2.2.2.1,
               ((@remove_liquidity_sim (MBO.side { m with order_map := omInsert m.order_map oid ⟨false, ip, iq - fill_qty⟩ } false) ip 0 1 (remove_liquidity (MBO.side { m with order_map := omInsert m.order_map oid ⟨false, ip, iq - fill_qty⟩ } false) ip 0 1).1 (remove_liquidity (MBO.side { m with order_map := omInsert m.order_map oid ⟨false, ip, iq - fill_qty⟩ } false) ip 0 1).2 inv.1 rfl).2.2.2.trans inv.2.2.2.2.1),
               inv.2.2.2.2.2⟩
         · rw [pair_side (projPair m) (@remove_liquidity_sim (MBO.side { m with order_map := omInsert m.order_map oid ⟨false, ip, iq - fill_qty⟩ } false) ip 0 1 (remove_liquidity (MBO.side { m with order_map := omInsert m.order_map oid ⟨false, ip, iq - fill_qty⟩ } false) ip 0 1).1 (remove_liquidity (MBO.side { m with order_map := omInsert m.order_map oid ⟨false, ip, iq - fill_qty⟩ } false) ip 0 1).2 inv.1 rfl) inv.2.2.2.2.1 rfl]
           rfl)
      | (refine ⟨?_, ?_⟩
         · exact Inv_of_eq_sides (@Inv_setSide_levels (MBO.setSide { m with order_map := omInsert m.order_map oid ⟨false, ip, iq - fill_qty⟩ } false (remove_liquidity (MBO.side { m with order_map := omInsert m.order_map oid ⟨false, ip, iq - fill_qty⟩ } false) ip 0 1).1) (!agg) (reconcile_cross_count (MBO.side (MBO.setSide { m with order_map := omInsert m.order_map oid ⟨false, ip, iq - fill_qty⟩ } false (remove_liquidity (MBO.side { m with order_map := omInsert m.order_map oid ⟨false, ip, iq - fill_qty⟩ } false) ip 0 1).1) (!agg)) 1) (show Inv (MBO.setSide { m with order_map := omInsert m.order_map oid ⟨false, ip, iq - fill_qty⟩ } false (remove_liquidity (MBO.side { m with order_map := omInsert m.order_map oid ⟨false, ip, iq - fill_qty⟩ } false) ip 0 1).1) from ⟨remove_liquidity_pos inv.1,
               remove_liquidity_sorted inv.2.1,
               inv.2.2.1,
               inv.2.2.2.1,
               ((@remove_liquidity_sim (MBO.side { m with order_map := omInsert m.order_map oid ⟨false, ip, iq - fill_qty⟩ } false) ip 0 1 (remove_liquidity (MBO.side { m with order_map := omInsert m.order_map oid ⟨false, ip, iq - fill_qty⟩ } false) ip 0 1).1 (remove_liquidity (MBO.side { m with order_map := omInsert m.order_map oid ⟨false, ip, iq - fill_qty⟩ } false) ip 0 1).2 inv.1 rfl).2.2.2.trans inv.2.2.2.2.1),
               inv.2.2.2.2.2⟩) rfl rfl) rfl rfl
         · rw [pair_side (projPair m) (@remove_liquidity_sim (MBO.side { m with order_map := omInsert m.order_map oid ⟨false, ip, iq - fill_qty⟩ } false) ip 0 1 (remove_liquidity (MBO.side { m with order_map := omInsert m.order_map oid ⟨false, ip, iq - fill_qty⟩ } false) ip 0 1).1 (remove_liquidity (MBO.side { m with order_map := omInsert m.order_map oid ⟨false, ip, iq - fill_qty⟩ } false) ip 0 1).2 inv.1 rfl) inv.2.2.2.2.1 rfl]
           exact (show pairPut (projPair m) false (projSide (remove_liquidity (MBO.side { m with order_map := omInsert m.order_map oid ⟨false, ip, iq - fill_qty⟩ } false) ip 0 1).1) = projPair (MBO.setSide { m with order_map := omInsert m.order_map oid ⟨false, ip, iq - fill_qty⟩ } false (remove_liquidity (MBO.side { m with order_map := omInsert m.order_map oid ⟨false, ip, iq - fill_qty⟩ } false) ip 0 1).1) from rfl).trans (@projPair_setSide_levels (MBO.setSide { m with order_map := omInsert m.order_map oid ⟨false, ip, iq - fill_qty⟩ } false (remove_liquidity (MBO.side { m with order_map := omInsert m.order_map oid ⟨false, ip, iq - fill_qty⟩ } false) ip 0 1).1) (!agg) (reconcile_cross_count (MBO.side (MBO.setSide { m with order_map := omInsert m.order_map oid ⟨false, ip, iq - fill_qty⟩ } false (remove_liquidity (MBO.side { m with order_map := omInsert m.order_map oid ⟨false, ip, iq - fill_qty⟩ } false) ip 0 1).1) (!agg)) 1) rfl rfl).symm)
      | (refine ⟨?_, ?_⟩
         · exact ⟨inv.1,
               inv.2.1,
               inv.2.2.1,
               inv.2.2.2.1,
               inv.2.2.2.2.1,
               inv.2.2.2.2.2⟩
         · exact pair_nil _)
      | (refine ⟨?_, ?_⟩
         · exact Inv_of_eq_sides (@Inv_setSide_levels (MBO.setSide { m with order_map := omInsert m.order_map oid ⟨false, ip, iq - fill_qty⟩ } false (MBO.side { m with order_map := omInsert m.order_map oid ⟨false, ip, iq - fill_qty⟩ } false)) (!agg) (reconcile_cross_count (MBO.side (MBO.setSide { m with order_map := omInsert m.order_map oid ⟨false, ip, iq - fill_qty⟩ } false (MBO.side { m with order_map := omInsert m.order_map oid ⟨false, ip, iq - fill_qty⟩ } false)) (!agg)) 1) (show Inv (MBO.setSide { m with order_map := omInsert m.order_map oid ⟨false, ip, iq - fill_qty⟩ } false (MBO.side { m with order_map := omInsert m.order_map oid ⟨false, ip, iq - fill_qty⟩ } false)) from ⟨inv.1,
               inv.2.1,
               inv.2.2.1,
               inv.2.2.2.1,
               inv.2.2.2.2.1,
               inv.2.2.2.2.2⟩) rfl rfl) rfl rfl
         · exact (pair_nil (projPair m)).trans ((show projPair m = projPair (MBO.setSide { m with order_map := omInsert m.order_map oid ⟨false, ip, iq - fill_qty⟩ } false (MBO.side { m with order_map := omInsert m.order_map oid ⟨false, ip, iq - fill_qty⟩ } false)) from rfl).trans (@projPair_setSide_levels (MBO.setSide { m with order_map := omInsert m.order_map oid ⟨false, ip, iq - fill_qty⟩ } false (MBO.side { m with order_map := omInsert m.order_map oid ⟨false, ip, iq - fill_qty⟩ } false)) (!agg) (reconcile_cross_count (MBO.side (MBO.setSide { m with order_map := omInsert m.order_map oid ⟨false, ip, iq - fill_qty⟩ } false (MBO.side { m with order_map := omInsert m.order_map oid ⟨false, ip, iq - fill_qty⟩ } false)) (!agg)) 1) rfl rfl).symm))
      | (refine ⟨?_, ?_⟩
         · exact ⟨inv.1,
               inv.2.1,
               remove_liquidity_pos inv.2.2.1,
               remove_liquidity_sorted inv.2.2.2.1,
               inv.2.2.2.2.1,
               ((@remove_liquidity_sim (MBO.side { m with order_map := omInsert m.order_map oid ⟨true, ip, iq - fill_qty⟩ } true) ip remaining 1 (remove_liquidity (MBO.side { m with order_map := omInsert m.order_map oid ⟨true, ip, iq - fill_qty⟩ } true) ip remaining 1).1 (remove_liquidity (MBO.side { m with order_map := omInsert m.order_map oid ⟨true, ip, iq - fill_qty⟩ } true) ip remaining 1).2 inv.2.2.1 rfl).2.2.2.trans inv.2.2.2.2.2)⟩
         · rw [pair_side (projPair m) (@remove_liquidity_sim (MBO.side { m with order_map := omInsert m.order_map oid ⟨true, ip, iq - fill_qty⟩ } true) ip remaining 1 (remove_liquidity (MBO.side { m with order_map := omInsert m.order_map oid ⟨true, ip, iq - fill_qty⟩ } true) ip remaining 1).1 (remove_liquidity (MBO.side { m with order_map := omInsert m.order_map oid ⟨true, ip, iq - fill_qty⟩ } true) ip remaining 1).2 inv.2.2.1 rfl) inv.2.2.2.2.2 rfl]
           rfl)
      | (refine ⟨?_, ?_⟩
         · exact Inv_of_eq_sides (@Inv_setSide_levels (MBO.setSide { m with order_map := omInsert m.order_map oid ⟨true, ip, iq - fill_qty⟩ } true (remove_liquidity (MBO.side { m with order_map := omInsert m.order_map oid ⟨true, ip, iq - fill_qty⟩ } true) ip remaining 1).1) (!agg) (reconcile_cross_count (MBO.side (MBO.setSide { m with order_map := omInsert m.order_map oid ⟨true, ip, iq - fill_qty⟩ } true (remove_liquidity (MBO.side { m with order_map := omInsert m.order_map oid ⟨true, ip, iq - fill_qty⟩ } true) ip remaining 1).1) (!agg)) 1) (show Inv (MBO.setSide { m with order_map := omInsert m.order_map oid ⟨true, ip, iq - fill_qty⟩ } true (remove_liquidity (MBO.side { m with order_map := omInsert m.order_map oid ⟨true, ip, iq - fill_qty⟩ } true) ip remaining 1).1) from ⟨inv.1,
               inv.2.1,
               remove_liquidity_pos inv.2.2.1,
               remove_liquidity_sorted inv.2.2.2.1,
               inv.2.2.2.2.1,
               ((@remove_liquidity_sim (MBO.side { m with order_map := omInsert m.order_map oid ⟨true, ip, iq - fill_qty⟩ } true) ip remaining 1 (remove_liquidity (MBO.side { m with order_map := omInsert m.order_map oid ⟨true, ip, iq - fill_qty⟩ } true) ip remaining 1).1 (remove_liquidity (MBO.side { m with order_map := omInsert m.order_map oid ⟨true, ip, iq - fill_qty⟩ } true) ip remaining 1).2 inv.2.2.1 rfl).2.2.2.trans inv.2.2.2.2.2)⟩) rfl rfl) rfl rfl
         · rw [pair_side (projPair m) (@remove_liquidity_sim (MBO.side { m with order_map := omInsert m.order_map oid ⟨true, ip, iq - fill_qty⟩ } true) ip remaining 1 (remove_liquidity (MBO.side { m with order_map := omInsert m.order_map oid ⟨true, ip, iq - fill_qty⟩ } true) ip remaining 1).1 (remove_liquidity (MBO.side { m with order_map := omInsert m.order_map oid ⟨true, ip, iq - fill_qty⟩ } true) ip remaining 1).2 inv.2.2.1 rfl) inv.2.2.2.2.2 rfl]
           exact (show pairPut (projPair m) true (projSide (remove_liquidity (MBO.side { m with order_map := omInsert m.order_map oid ⟨true, ip, iq - fill_qty⟩ } true) ip remaining 1).1) = projPair (MBO.setSide { m with order_map := omInsert m.order_map oid ⟨true, ip, iq - fill_qty⟩ } true (remove_liquidity (MBO.side { m with order_map := omInsert m.order_map oid ⟨true, ip, iq - fill_qty⟩ } true) ip remaining 1).1) from rfl).trans (@projPair_setSide_levels (MBO.setSide { m with order_map := omInsert m.order_map oid ⟨true, ip, iq - fill_qty⟩ } true (remove_liquidity (MBO.side { m with order_map := omInsert m.order_map oid ⟨true, ip, iq - fill_qty⟩ } true) ip remaining 1).1) (!agg) (reconcile_cross_count (MBO.side (MBO.setSide { m with order_map := omInsert m.order_map oid ⟨true, ip, iq - fill_qty⟩ } true (remove_liquidity (MBO.side { m with order_map := omInsert m.order_map oid ⟨true, ip, iq - fill_qty⟩ } true) ip remaining 1).1) (!agg)) 1) rfl rfl).symm)
      | (refine ⟨?_, ?_⟩
         · exact ⟨inv.1,
               inv.2.1,
               remove_liquidity_pos inv.2.2.1,
               remove_liquidity_sorted inv.2.2.2.1,
               inv.2.2.2.2.1,
               ((@remove_liquidity_sim (MBO.side { m with order_map := omInsert m.order_map oid ⟨true, ip, iq - fill_qty⟩ } true) ip remaining 0 (remove_liquidity (MBO.side { m with order_map := omInsert m.order_map oid ⟨true, ip, iq - fill_qty⟩ } true) ip remaining 0).1 (remove_liquidity (MBO.side { m with order_map := omInsert m.order_map oid ⟨true, ip, iq - fill_qty⟩ } true) ip remaining 0).2 inv.2.2.1 rfl).2.2.2.trans inv.2.2.2.2.2)⟩
         · rw [pair_side (projPair m) (@remove_liquidity_sim (MBO.side { m with order_map := omInsert m.order_map oid ⟨true, ip, iq - fill_qty⟩ } true) ip remaining 0 (remove_liquidity (MBO.side { m with order_map := omInsert m.order_map oid ⟨true, ip, iq - fill_qty⟩ } true) ip remaining 0).1 (remove_liquidity (MBO.side { m with order_map := omInsert m.order_map oid ⟨true, ip, iq - fill_qty⟩ } true) ip remaining 0).2 inv.2.2.1 rfl) inv.2.2.2.2.2 rfl]
           rfl)
      | (refine ⟨?_, ?_⟩
         · exact Inv_of_eq_sides (@Inv_setSide_levels (MBO.setSide { m with order_map := omInsert m.order_map oid ⟨true, ip, iq - fill_qty⟩ } true (remove_liquidity (MBO.side { m with order_map := omInsert m.order_map oid ⟨true, ip, iq - fill_qty⟩ } true) ip remaining 0).1) (!agg) (reconcile_cross_count (MBO.side (MBO.setSide { m with order_map := omInsert m.order_map oid ⟨true, ip, iq - fill_qty⟩ } true (remove_liquidity (MBO.side { m with order_map := omInsert m.order_map oid ⟨true, ip, iq - fill_qty⟩ } true) ip remaining 0).1) (!agg)) 1) (show Inv (MBO.setSide { m with order_map := omInsert m.order_map oid ⟨true, ip, iq - fill_qty⟩ } true (remove_liquidity (MBO.side { m with order_map := omInsert m.order_map oid ⟨true, ip, iq - fill_qty⟩ } true) ip remaining 0).1) from ⟨inv.1,
               inv.2.1,
               remove_liquidity_pos inv.2.2.1,
               remove_liquidity_sorted inv.2.2.2.1,
               inv.2.2.2.2.1,
               ((@remove_liquidity_sim (MBO.side { m with order_map := omInsert m.order_map oid ⟨true, ip, iq - fill_qty⟩ } true) ip remaining 0 (remove_liquidity (MBO.side { m with order_map := omInsert m.order_map oid ⟨true, ip, iq - fill_qty⟩ } true) ip remaining 0).1 (remove_liquidity (MBO.side { m with order_map := omInsert m.order_map oid ⟨true, ip, iq - fill_qty⟩ } true) ip remaining 0).2 inv.2.2.1 rfl).2.2.2.trans inv.2.2.2.2.2)⟩) rfl rfl) rfl rfl
         · rw [pair_side (projPair m) (@remove_liquidity_sim (MBO.side { m with order_map := omInsert m.order_map oid ⟨true, ip, iq - fill_qty⟩ } true) ip remaining 0 (remove_liquidity (MBO.side { m with order_map := omInsert m.order_map oid ⟨true, ip, iq - fill_qty⟩ } true) ip remaining 0).1 (remove_liquidity (MBO.side { m with order_map := omInsert m.order_map oid ⟨true, ip, iq - fill_qty⟩ } true) ip remaining 0).2 inv.2.2.1 rfl) inv.2.2.2.2.2 rfl]
           exact (show pairPut (projPair m) true (projSide (remove_liquidity (MBO.side { m with order_map := omInsert m.order_map oid ⟨true, ip, iq - fill_qty⟩ } true) ip remaining 0).1) = projPair (MBO.setSide { m with order_map := omInsert m.order_map oid ⟨true, ip, iq - fill_qty⟩ } true (remove_liquidity (MBO.side { m with order_map := omInsert m.order_map oid ⟨true, ip, iq - fill_qty⟩ } true) ip remaining 0).1) from rfl).trans (@projPair_setSide_levels (MBO.setSide { m with order_map := omInsert m.order_map oid ⟨true, ip, iq - fill_qty⟩ } true (remove_liquidity (MBO.side { m with order_map := omInsert m.order_map oid ⟨true, ip, iq - fill_qty⟩ } true) ip remaining 0).1) (!agg) (reconcile_cross_count (MBO.side (MBO.setSide { m with order_map := omInsert m.order_map oid ⟨true, ip, iq - fill_qty⟩ } true (remove_liquidity (MBO.side { m with order_map := omInsert m.order_map oid ⟨true, ip, iq - fill_qty⟩ } true) ip remaining 0).1) (!agg)) 1) rfl rfl).symm)
      | (refine ⟨?_, ?_⟩
         · exact ⟨inv.1,
               inv.2.1,
               remove_liquidity_pos inv.2.2.1,
               remove_liquidity_sorted inv.2.2.2.1,
               inv.2.2.2.2.1,
               ((@remove_liquidity_sim (MBO.side { m with order_map := omInsert m.order_map oid ⟨true, ip, iq - fill_qty⟩ } true) ip 0 1 (remove_liquidity (MBO.side { m with order_map := omInsert m.order_map oid ⟨true, ip, iq - fill_qty⟩ } true) ip 0 1).1 (remove_liquidity (MBO.side { m with order_map := omInsert m.order_map oid ⟨true, ip, iq - fill_qty⟩ } true) ip 0 1).2 inv.2.2.1 rfl).2.2.2.trans inv.2.2.2.2.2)⟩
         · rw [pair_side (projPair m) (@remove_liquidity_sim (MBO.side { m with order_map := omInsert m.order_map oid ⟨true, ip, iq - fill_qty⟩ } true) ip 0 1 (remove_liquidity (MBO.side { m with order_map := omInsert m.order_map oid ⟨true, ip, iq - fill_qty⟩ } true) ip 0 1).1 (remove_liquidity (MBO.side { m with order_map := omInsert m.order_map oid ⟨true, ip, iq - fill_qty⟩ } true) ip 0 1).2 inv.2.2.1 rfl) inv.2.2.2.2.2 rfl]
           rfl)
      | (refine ⟨?_, ?_⟩
         · exact Inv_of_eq_sides (@Inv_setSide_levels (MBO.setSide { m with order_map := omInsert m.order_map oid ⟨true, ip, iq - fill_qty⟩ } true (remove_liquidity (MBO.side { m with order_map := omInsert m.order_map oid ⟨true, ip, iq - fill_qty⟩ } true) ip 0 1).1) (!agg) (reconcile_cross_count (MBO.side (MBO.setSide { m with order_map := omInsert m.order_map oid ⟨true, ip, iq - fill_qty⟩ } true (remove_liquidity (MBO.side { m with order_map := omInsert m.order_map oid ⟨true, ip, iq - fill_qty⟩ } true) ip 0 1).1) (!agg)) 1) (show Inv (MBO.setSide { m with order_map := omInsert m.order_map oid ⟨true, ip, iq - fill_qty⟩ } true (remove_liquidity (MBO.side { m with order_map := omInsert m.order_map oid ⟨true, ip, iq - fill_qty⟩ } true) ip 0 1).1) from ⟨inv.1,
               inv.2.1,
               remove_liquidity_pos inv.2.2.1,
               remove_liquidity_sorted inv.2.2.2.1,
               inv.2.2.2.2.1,
               ((@remove_liquidity_sim (MBO.side { m with order_map := omInsert m.order_map oid ⟨true, ip, iq - fill_qty⟩ } true) ip 0 1 (remove_liquidity (MBO.side { m with order_map := omInsert m.order_map oid ⟨true, ip, iq - fill_qty⟩ } true) ip 0 1).1 (remove_liquidity (MBO.side { m with order_map := omInsert m.order_map oid ⟨true, ip, iq - fill_qty⟩ } true) ip 0 1).2 inv.2.2.1 rfl).2.2.2.trans inv.2.2.2.2.2)⟩) rfl rfl) rfl rfl
         · rw [pair_side (projPair m) (@remove_liquidity_sim (MBO.side { m with order_map := omInsert m.order_map oid ⟨true, ip, iq - fill_qty⟩ } true) ip 0 1 (remove_liquidity (MBO.side { m with order_map := omInsert m.order_map oid ⟨true, ip, iq - fill_qty⟩ } true) ip 0 1).1 (remove_liquidity (MBO.side { m with order_map := omInsert m.order_map oid ⟨true, ip, iq - fill_qty⟩ } true) ip 0 1).2 inv.2.2.1 rfl) inv.2.2.2.2.2 rfl]
           exact (show pairPut (projPair m) true (projSide (remove_liquidity (MBO.side { m with order_map := omInsert m.order_map oid ⟨true, ip, iq - fill_qty⟩ } true) ip 0 1).1) = projPair (MBO.setSide { m with order_map := omInsert m.order_map oid ⟨true, ip, iq - fill_qty⟩ } true (remove_liquidity (MBO.side { m with order_map := omInsert m.order_map oid ⟨true, ip, iq - fill_qty⟩ } true) ip 0 1).1) from rfl).trans (@projPair_setSide_levels (MBO.setSide { m with order_map := omInsert m.order_map oid ⟨true, ip, iq - fill_qty⟩ } true (remove_liquidity (MBO.side { m with order_map := omInsert m.order_map oid ⟨true, ip, iq - fill_qty⟩ } true) ip 0 1).1) (!agg) (reconcile_cross_count (MBO.side (MBO.setSide { m with order_map := omInsert m.order_map oid ⟨true, ip, iq - fill_qty⟩ } true (remove_liquidity (MBO.side { m with order_map := omInsert m.order_map oid ⟨true, ip, iq - fill_qty⟩ } true) ip 0 1).1) (!agg)) 1) rfl rfl).symm)
      | (refine ⟨?_, ?_⟩
         · exact ⟨inv.1,
               inv.2.1,
               inv.2.2.1,
               inv.2.2.2.1,
               inv.2.2.2.2.1,
               inv.2.2.2.2.2⟩
         · exact pair_nil _)
      | (refine ⟨?_, ?_⟩
         · exact Inv_of_eq_sides (@Inv_setSide_levels (MBO.setSide { m with order_map := omInsert m.order_map oid ⟨true, ip, iq - fill_qty⟩ } true (MBO.side { m with order_map := omInsert m.order_map oid ⟨true, ip, iq - fill_qty⟩ } true)) (!agg) (reconcile_cross_count (MBO.side (MBO.setSide { m with order_map := omInsert m.order_map oid ⟨true, ip, iq - fill_qty⟩ } true (MBO.side { m with order_map := omInsert m.order_map oid ⟨true, ip, iq - fill_qty⟩ } true)) (!agg)) 1) (show Inv (MBO.setSide { m with order_map := omInsert m.order_map oid ⟨true, ip, iq - fill_qty⟩ } true (MBO.side { m with order_map := omInsert m.order_map oid ⟨true, ip, iq - fill_qty⟩ } true)) from ⟨inv.1,
               inv.2.1,
               inv.2.2.1,
               inv.2.2.2.1,
               inv.2.2.2.2.1,
               inv.2.2.2.2.2⟩) rfl rfl) rfl rfl
         · exact (pair_nil (projPair m)).trans ((show projPair m = projPair (MBO.setSide { m with order_map := omInsert m.order_map oid ⟨true, ip, iq - fill_qty⟩ } true (MBO.side { m with order_map := omInsert m.order_map oid ⟨true, ip, iq - fill_qty⟩ } true)) from rfl).trans (@projPair_setSide_levels (MBO.setSide { m with order_map := omInsert m.order_map oid ⟨true, ip, iq - fill_qty⟩ } true (MBO.side { m with order_map := omInsert m.order_map oid ⟨true, ip, iq - fill_qty⟩ } true)) (!agg) (reconcile_cross_count (MBO.side (MBO.setSide { m with order_map := omInsert m.order_map oid ⟨true, ip, iq - fill_qty⟩ } true (MBO.side { m with order_map := omInsert m.order_map oid ⟨true, ip, iq - fill_qty⟩ } true)) (!agg)) 1) rfl rfl).symm))

set_option maxHeartbeats 1600000 in
/-- `MBO::trade` preserves the invariant and the mirror correspondence. -/
theorem trade_sim {m : MBO} {bid_id ask_id price fill_qty : Int}
    {m' : MBO} {ds : List Delta} (inv : Inv m)
    (h : trade m bid_id ask_id price fill_qty = some (m', ds)) :
    Inv m' ∧ apply_deltas_to_book (projPair m) ds = projPair m' := by
  simp only [trade] at h
  repeat' split at h
  all_goals cases h
  all_goals first
  | (rename_i xA rA hlegA xB rB hlegB hc1 hc2
     refine ⟨?_, ?_⟩
     · first
       | exact (tradeLeg_sim (tradeLeg_sim (@Inv_setSide_levels m (!(aggSide m bid_id ask_id)) (reconcile_cross_fill (MBO.side m (!(aggSide m bid_id ask_id))) fill_qty).1 inv rfl rfl) hlegA).1 hlegB).1
       | exact Inv_of_eq_sides (@Inv_setSide_levels rB.1 (!(rB.1.pending_cross.aggressor_is_ask)) (clear_cross_fills (MBO.side rB.1 (!(rB.1.pending_cross.aggressor_is_ask))))
           ((tradeLeg_sim (tradeLeg_sim (@Inv_setSide_levels m (!(aggSide m bid_id ask_id)) (reconcile_cross_fill (MBO.side m (!(aggSide m bid_id ask_id))) fill_qty).1 inv rfl rfl) hlegA).1 hlegB).1) rfl rfl) rfl rfl
     · simp only [pair_append, pair_nil, pair_tick, pair_cc]
       repeat rw [pair_zero_emit (projPair m) (Inv_side_pos inv _)
         (Inv_side_flag inv _) (projPair_side m _)]
       have hLA := (tradeLeg_sim (@Inv_setSide_levels m (!(aggSide m bid_id ask_id)) (reconcile_cross_fill (MBO.side m (!(aggSide m bid_id ask_id))) fill_qty).1 inv rfl rfl) hlegA).2
       rw [@projPair_setSide_levels m (!(aggSide m bid_id ask_id)) (reconcile_cross_fill (MBO.side m (!(aggSide m bid_id ask_id))) fill_qty).1 rfl rfl] at hLA
       rw [hLA]
       rw [(tradeLeg_sim (tradeLeg_sim (@Inv_setSide_levels m (!(aggSide m bid_id ask_id)) (reconcile_cross_fill (MBO.side m (!(aggSide m bid_id ask_id))) fill_qty).1 inv rfl rfl) hlegA).1 hlegB).2]
       repeat rw [pair_zero_emit (projPair rB.1) (Inv_side_pos ((tradeLeg_sim (tradeLeg_sim (@Inv_setSide_levels m (!(aggSide m bid_id ask_id)) (reconcile_cross_fill (MBO.side m (!(aggSide m bid_id ask_id))) fill_qty).1 inv rfl rfl) hlegA).1 hlegB).1) _)
         (Inv_side_flag ((tradeLeg_sim (tradeLeg_sim (@Inv_setSide_levels m (!(aggSide m bid_id ask_id)) (reconcile_cross_fill (MBO.side m (!(aggSide m bid_id ask_id))) fill_qty).1 inv rfl rfl) hlegA).1 hlegB).1) _) (projPair_side rB.1 _)]
       all_goals first
       | rfl
       | exact (@projPair_setSide_levels rB.1 (!(rB.1.pending_cross.aggressor_is_ask)) (clear_cross_fills (MBO.side rB.1 (!(rB.1.pending_cross.aggressor_is_ask)))) rfl rfl).symm)
  | (rename_i xA rA hlegA xB rB hlegB hc1 hc2 hc3
     refine ⟨?_, ?_⟩
     · first
       | exact (tradeLeg_sim (tradeLeg_sim (@Inv_setSide_levels m (!(aggSide m bid_id ask_id)) (reconcile_cross_fill (MBO.side m (!(aggSide m bid_id ask_id))) fill_qty).1 inv rfl rfl) hlegA).1 hlegB).1
       | exact Inv_of_eq_sides (@Inv_setSide_levels rB.1 (!(rB.1.pending_cross.aggressor_is_ask)) (clear_cross_fills (MBO.side rB.1 (!(rB.1.pending_cross.aggressor_is_ask))))
           ((tradeLeg_sim (tradeLeg_sim (@Inv_setSide_levels m (!(aggSide m bid_id ask_id)) (reconcile_cross_fill (MBO.side m (!(aggSide m bid_id ask_id))) fill_qty).1 inv rfl rfl) hlegA).1 hlegB).1) rfl rfl) rfl rfl
     · simp only [pair_append, pair_nil, pair_tick, pair_cc]
       repeat rw [pair_zero_emit (projPair m) (Inv_side_pos inv _)
         (Inv_side_flag inv _) (projPair_side m _)]
       have hLA := (tradeLeg_sim (@Inv_setSide_levels m (!(aggSide m bid_id ask_id)) (reconcile_cross_fill (MBO.side m (!(aggSide m bid_id ask_id))) fill_qty).1 inv rfl rfl) hlegA).2
       rw [@projPair_setSide_levels m (!(aggSide m bid_id ask_id)) (reconcile_cross_fill (MBO.side m (!(aggSide m bid_id ask_id))) fill_qty).1 rfl rfl] at hLA
       rw [hLA]
       rw [(tradeLeg_sim (tradeLeg_sim (@Inv_setSide_levels m (!(aggSide m bid_id ask_id)) (reconcile_cross_fill (MBO.side m (!(aggSide m bid_id ask_id))) fill_qty).1 inv rfl rfl) hlegA).1 hlegB).2]
       repeat rw [pair_zero_emit (projPair rB.1) (Inv_side_pos ((tradeLeg_sim (tradeLeg_sim (@Inv_setSide_levels m (!(aggSide m bid_id ask_id)) (reconcile_cross_fill (MBO.side m (!(aggSide m bid_id ask_id))) fill_qty).1 inv rfl rfl) hlegA).1 hlegB).1) _)
         (Inv_side_flag ((tradeLeg_sim (tradeLeg_sim (@Inv_setSide_levels m (!(aggSide m bid_id ask_id)) (reconcile_cross_fill (MBO.side m (!(aggSide m bid_id ask_id))) fill_qty).1 inv rfl rfl) hlegA).1 hlegB).1) _) (projPair_side rB.1 _)]
       all_goals first
       | rfl
       | exact (@projPair_setSide_levels rB.1 (!(rB.1.pending_cross.aggressor_is_ask)) (clear_cross_fills (MBO.side rB.1 (!(rB.1.pending_cross.aggressor_is_ask)))) rfl rfl).symm)
  | (rename_i xA rA hlegA xB rB hlegB hc1 hc2 hc3 hc4
     refine ⟨?_, ?_⟩
     · first
       | exact (tradeLeg_sim (tradeLeg_sim (@Inv_setSide_levels m (!(aggSide m bid_id ask_id)) (reconcile_cross_fill (MBO.side m (!(aggSide m bid_id ask_id))) fill_qty).1 inv rfl rfl) hlegA).1 hlegB).1
       | exact Inv_of_eq_sides (@Inv_setSide_levels rB.1 (!(rB.1.pending_cross.aggressor_is_ask)) (clear_cross_fills (MBO.side rB.1 (!(rB.1.pending_cross.aggressor_is_ask))))
           ((tradeLeg_sim (tradeLeg_sim (@Inv_setSide_levels m (!(aggSide m bid_id ask_id)) (reconcile_cross_fill (MBO.side m (!(aggSide m bid_id ask_id))) fill_qty).1 inv rfl rfl) hlegA).1 hlegB).1) rfl rfl) rfl rfl
     · simp only [pair_append, pair_nil, pair_tick, pair_cc]
       repeat rw [pair_zero_emit (projPair m) (Inv_side_pos inv _)
         (Inv_side_flag inv _) (projPair_side m _)]
       have hLA := (tradeLeg_sim (@Inv_setSide_levels m (!(aggSide m bid_id ask_id)) (reconcile_cross_fill (MBO.side m (!(aggSide m bid_id ask_id))) fill_qty).1 inv rfl rfl) hlegA).2
       rw [@projPair_setSide_levels m (!(aggSide m bid_id ask_id)) (reconcile_cross_fill (MBO.side m (!(aggSide m bid_id ask_id))) fill_qty).1 rfl rfl] at hLA
       rw [hLA]
       rw [(tradeLeg_sim (tradeLeg_sim (@Inv_setSide_levels m (!(aggSide m bid_id ask_id)) (reconcile_cross_fill (MBO.side m (!(aggSide m bid_id ask_id))) fill_qty).1 inv rfl rfl) hlegA).1 hlegB).2]
       repeat rw [pair_zero_emit (projPair rB.1) (Inv_side_pos ((tradeLeg_sim (tradeLeg_sim (@Inv_setSide_levels m (!(aggSide m bid_id ask_id)) (reconcile_cross_fill (MBO.side m (!(aggSide m bid_id ask_id))) fill_qty).1 inv rfl rfl) hlegA).1 hlegB).1) _)
         (Inv_side_flag ((tradeLeg_sim (tradeLeg_sim (@Inv_setSide_levels m (!(aggSide m bid_id ask_id)) (reconcile_cross_fill (MBO.side m (!(aggSide m bid_id ask_id))) fill_qty).1 inv rfl rfl) hlegA).1 hlegB).1) _) (projPair_side rB.1 _)]
       all_goals first
       | rfl
       | exact (@projPair_setSide_levels rB.1 (!(rB.1.pending_cross.aggressor_is_ask)) (clear_cross_fills (MBO.side rB.1 (!(rB.1.pending_cross.aggressor_is_ask)))) rfl rfl).symm)
  | (rename_i xA rA hlegA xB rB hlegB hc1 hc2 hc3 hc4 hc5
     refine ⟨?_, ?_⟩
     · first
       | exact (tradeLeg_sim (tradeLeg_sim (@Inv_setSide_levels m (!(aggSide m bid_id ask_id)) (reconcile_cross_fill (MBO.side m (!(aggSide m bid_id ask_id))) fill_qty).1 inv rfl rfl) hlegA).1 hlegB).1
       | exact Inv_of_eq_sides (@Inv_setSide_levels rB.1 (!(rB.1.pending_cross.aggressor_is_ask)) (clear_cross_fills (MBO.side rB.1 (!(rB.1.pending_cross.aggressor_is_ask))))
           ((tradeLeg_sim (tradeLeg_sim (@Inv_setSide_levels m (!(aggSide m bid_id ask_id)) (reconcile_cross_fill (MBO.side m (!(aggSide m bid_id ask_id))) fill_qty).1 inv rfl rfl) hlegA).1 hlegB).1) rfl rfl) rfl rfl
     · simp only [pair_append, pair_nil, pair_tick, pair_cc]
       repeat rw [pair_zero_emit (projPair m) (Inv_side_pos inv _)
         (Inv_side_flag inv _) (projPair_side m _)]
       have hLA := (tradeLeg_sim (@Inv_setSide_levels m (!(aggSide m bid_id ask_id)) (reconcile_cross_fill (MBO.side m (!(aggSide m bid_id ask_id))) fill_qty).1 inv rfl rfl) hlegA).2
       rw [@projPair_setSide_levels m (!(aggSide m bid_id ask_id)) (reconcile_cross_fill (MBO.side m (!(aggSide m bid_id ask_id))) fill_qty).1 rfl rfl] at hLA
       rw [hLA]
       rw [(tradeLeg_sim (tradeLeg_sim (@Inv_setSide_levels m (!(aggSide m bid_id ask_id)) (reconcile_cross_fill (MBO.side m (!(aggSide m bid_id ask_id))) fill_qty).1 inv rfl rfl) hlegA).1 hlegB).2]
       repeat rw [pair_zero_emit (projPair rB.1) (Inv_side_pos ((tradeLeg_sim (tradeLeg_sim (@Inv_setSide_levels m (!(aggSide m bid_id ask_id)) (reconcile_cross_fill (MBO.side m (!(aggSide m bid_id ask_id))) fill_qty).1 inv rfl rfl) hlegA).1 hlegB).1) _)
         (Inv_side_flag ((tradeLeg_sim (tradeLeg_sim (@Inv_setSide_levels m (!(aggSide m bid_id ask_id)) (reconcile_cross_fill (MBO.side m (!(aggSide m bid_id ask_id))) fill_qty).1 inv rfl rfl) hlegA).1 hlegB).1) _) (projPair_side rB.1 _)]
       all_goals first
       | rfl
       | exact (@projPair_setSide_levels rB.1 (!(rB.1.pending_cross.aggressor_is_ask)) (clear_cross_fills (MBO.side rB.1 (!(rB.1.pending_cross.aggressor_is_ask)))) rfl rfl).symm)


/-! ### Per-event dispatch, the C5 positivity claim and the C1 refinement -/

/-- Side condition under which an event is well-behaved: a modify must carry a
positive quantity and, in the non-crossing build, a qty-unchanged modify must
find its level on the book (otherwise the engine books a zero-qty level). -/
def eventOk (gc : Bool) (m : MBO) : Event → Prop
  | .newO _ _ _ _ => True
  | .modO oid np nq => 0 < nq ∧ (gc ≠ true → ∀ info,
      omFind m.order_map oid = some info → info.price = np → info.qty = nq →
      (findLevel (MBO.side m info.is_ask).levels
        (info.price * side_multiplier (MBO.side m info.is_ask).is_ask)).isSome)
  | .canO _ => True
  | .trd _ _ _ _ => True

/-- Dispatching one event preserves the invariant and the projection. -/
theorem processEvent_sim {gc : Bool} {m : MBO} {e : Event} {m' : MBO}
    {ds : List Delta} (inv : Inv m) (hok : eventOk gc m e)
    (h : processEvent gc m e = some (m', ds)) :
    Inv m' ∧ apply_deltas_to_book (projPair m) ds = projPair m' := by
  cases e with
  | newO oid a p q => exact new_order_sim inv h
  | modO oid p q => exact modify_order_sim inv hok.1 hok.2 h
  | canO oid => exact cancel_order_sim inv h
  | trd b a p q => exact trade_sim inv h

theorem Inv_init : Inv MBO.init :=
  ⟨fun e he => absurd he (List.not_mem_nil e), List.Pairwise.nil,
   fun e he => absurd he (List.not_mem_nil e), List.Pairwise.nil, rfl, rfl⟩

/-- The per-session event fold mirroring `Runner`: process each event, pack
its deltas into chunks as the emitter does, and apply every chunk to the
receiver's accumulated snapshot pair. -/
def runSim (gc : Bool) (tok : Int) :
    MBO × (Mirror × Mirror) → List Event → Option (MBO × (Mirror × Mirror))
  | st, [] => some st
  | (m, mp), e :: es =>
    match processEvent gc m e with
    | none => none
    | some r =>
      runSim gc tok
        (r.1, apply_deltas_to_book mp (chunkDeltas (packChunks tok r.2))) es

/-- Every event of the run satisfies its side condition. -/
def runOk (gc : Bool) : MBO → List Event → Prop
  | _, [] => True
  | m, e :: es =>
    eventOk gc m e ∧ (match processEvent gc m e with
      | none => True
      | some r => runOk gc r.1 es)


def C5run : MBO × List Delta :=
  (processEvent false MBO.init (Event.newO 1 false 100 5)).getD (MBO.init, [])

def C1run : MBO × (Mirror × Mirror) :=
  (runSim false 5 (MBO.init, projPair MBO.init)
    [Event.newO 1 false 100 5]).getD (MBO.init, projPair MBO.init)

/-- C5: every public book operation leaves both sides' level maps strictly
positive: a present level always carries `agg_qty > 0` (the qty-0 corner of
`modify_order` is excluded by `eventOk`, see the counterexample). -/
theorem operations_preserve_positive_levels {gc : Bool} {m : MBO} {e : Event}
    {m' : MBO} {ds : List Delta} (inv : Inv m) (hok : eventOk gc m e)
    (h : processEvent gc m e = some (m', ds)) :
    PosLevels m'.bids.levels ∧ PosLevels m'.asks.levels :=
  ⟨(processEvent_sim inv hok h).1.1, (processEvent_sim inv hok h).1.2.2.1⟩

theorem operations_preserve_positive_levels_witness :
    PosLevels C5run.1.bids.levels ∧ PosLevels C5run.1.asks.levels :=
  @operations_preserve_positive_levels false MBO.init
    (Event.newO 1 false 100 5) C5run.1 C5run.2 Inv_init trivial rfl

/-- C5 counterexample: in the non-crossing build, modifying a resting order to
quantity 0 at a new price books a level whose aggregate qty is 0, so a level
being present does not imply `agg_qty > 0` after the operation returns. -/
theorem modify_creates_zero_qty_level :
    (modify_order false cancelBook 1 250 0).map
        (fun r => r.1.bids.levels.map (fun e => (e.cprice, e.aqty)))
      = some [(-250, 0)] := by
  decide

/-- C1: for every token and event sequence whose events satisfy `eventOk`,
chunk-packing each event's deltas and applying every chunk to the receiver's
accumulated snapshot keeps the snapshot pair equal to the direct top-20
projection of the book after every event. -/
theorem mirror_matches_projection {gc : Bool} {tok : Int} {es : List Event}
    {m0 m' : MBO} {mp' : Mirror × Mirror} (inv : Inv m0)
    (hok : runOk gc m0 es)
    (h : runSim gc tok (m0, projPair m0) es = some (m', mp')) :
    mp' = projPair m' ∧ Inv m' := by
  induction es generalizing m0 with
  | nil =>
    simp only [runSim] at h
    cases h
    exact ⟨rfl, inv⟩
  | cons e es ih =>
    obtain ⟨hoke, hrest⟩ := hok
    match hpe : processEvent gc m0 e with
    | none =>
      simp only [runSim, hpe] at h
      cases h
    | some r =>
      simp only [runSim, hpe] at h
      rw [packChunks_flatten] at h
      rw [hpe] at hrest
      have hsim := processEvent_sim inv hoke hpe
      rw [hsim.2] at h
      exact ih hsim.1 hrest h

theorem mirror_matches_projection_witness :
    C1run.2 = projPair C1run.1 ∧ Inv C1run.1 :=
  @mirror_matches_projection false 5 [Event.newO 1 false 100 5] MBO.init
    C1run.1 C1run.2 Inv_init ⟨trivial, trivial⟩ rfl

/-- C1 counterexample: without the `eventOk` side condition the refinement
fails: after a modify leaves a zero-qty level on the book, a further zero-delta
modify makes the receiver delete the mirrored row while the book keeps the
level, so mirror and direct projection diverge. -/
theorem mirror_diverges_after_zero_qty_modify :
    ∃ r, runSim false 7 (MBO.init, projPair MBO.init)
        [Event.newO 1 false 200 5, Event.modO 1 250 0, Event.modO 1 250 0]
      = some r ∧ r.2 ≠ projPair r.1 :=
  ⟨_, rfl, by decide⟩

end MboSpec
